import Mathlib

/-!
The pool `multi::thread_pool` and the primitives it is built on: shallow embedding and verified
properties.

Sources: `src/thread_pool.hxx` (the pool and `p_::scope_guard`), `src/mutex.hxx` (`unique_lock`),
`src/sources/POSIX` and `src/sources/WinAPI` (`thread`, `condition_variable`, the timed mutex).
The first part is about the pool; the primitives follow under their own headings.

All shared fields of `thread_pool` are read and written only while `queue_mtx_` is held.
A thread therefore acts on the pool in *critical sections*: maximal stretches of code between
acquiring `queue_mtx_` (by `lock`, or by returning from a condition-variable wait) and releasing it
(by `unlock`, by blocking in a wait whose predicate is false, or by leaving the function).
The embedding takes one critical section as one atomic step.

* `cv.wait( lock , pred )` is `while ( ! pred() ) wait( lock )`
  (`src/sources/POSIX/condition_variable.hxx:58-63`): a blocked thread may re-evaluate its predicate at
  any time (spurious wake-ups are allowed) and proceeds exactly when it finds the predicate true.
* `notify_one` / `notify_all` are `noexcept` and change no pool field; in the step semantics they are
  covered by letting any blocked thread re-evaluate its predicate.
* OS primitives are taken not to fail (no `std::system_error` out of `lock`, `wait` or thread creation).
* `std::size_t` is 64 bit wide: `++` and `--` wrap modulo `2^64`. Fewer than `2^64` worker
  threads are spawned over the life of a pool (`add_thread` is enabled only then).
* A user task may run arbitrarily long; it ends when its worker takes its next step.
-/

namespace multi

/-! ## Data model -/

/-- Number of values of `std::size_t`. -/
def SIZE_MOD : Nat := 18446744073709551616

/-- Pre-increment `++ x` on a `std::size_t`. -/
def incr (x : Nat) : Nat := (x + 1) % SIZE_MOD

/-- Pre-decrement `-- x` on a `std::size_t` (wraps to `SIZE_MOD - 1` at zero). -/
def decr (x : Nat) : Nat := (x + (SIZE_MOD - 1)) % SIZE_MOD

/-- The operations `thread_pool` uses of its `Queue` template parameter
(`emplace`, `front`, `pop`, `empty`, `clear`, and default construction). `front` is `none` where
the container has no front element to give, which is the case exactly when it is `empty`. -/
class TaskQueue (Q : Type) (Task : outParam Type) where
  /-- default-constructed container -/
  init : Q
  emplace : Q → Task → Q
  front : Q → Option Task
  pop : Q → Q
  empty : Q → Bool
  clear : Q → Q
  /-- Calling `front()` is undefined exactly on an empty container. -/
  front_none : ∀ q, front q = none ↔ empty q = true

/-- The container `std::queue< Task >`: first in, first out. -/
instance fifo (Task : Type) : TaskQueue (List Task) Task where
  init := []
  emplace q t := q ++ [t]
  front q := q.head?
  pop q := q.tail
  empty q := q.isEmpty
  clear _ := []
  front_none q := by cases q <;> simp

/-- The `enum EPoolState` (lines 381-385). -/
inductive EPoolState where
  | PAUSED
  | EXECUTING
  deriving DecidableEq, Repr

/-- The `std::bitset< EThreadAction_SZ > action_` with its two slots (lines 374-379, 399). -/
structure ActionSet where
  FINISH : Bool
  FINISH_ALL : Bool
  deriving DecidableEq, Repr

/-- The test `bitset::any()`. -/
def ActionSet.any (a : ActionSet) : Bool := a.FINISH || a.FINISH_ALL

/-- The fields of `thread_pool` guarded by `queue_mtx_` (lines 393-399). -/
structure thread_pool (Q : Type) where
  queue_ : Q
  thread_count_ : Nat
  active_count_ : Nat
  state_ : EPoolState
  action_ : ActionSet
  deriving DecidableEq, Repr

/-- Control point of one worker thread running `routine` (lines 311-372), seen between critical
sections. The local `is_active` is `false` in `waiting` (line 330) and `true` in `running`
(line 355). -/
inductive Worker (Task : Type) where
  /-- spawned at line 163, `queue_mtx_` not yet acquired (line 313) -/
  | created
  /-- blocked in `queue_cv_.wait` (line 336) -/
  | waiting
  /-- inside `task()` with `queue_mtx_` released (lines 361-366) -/
  | running (task : Task)
  /-- left the loop through `break` and ran `on_thread_exit` -/
  | exited
  deriving DecidableEq, Repr

/-- Progress of the structural operation that holds `op_mtx_`, if any. -/
inductive Op where
  /-- Mutex `op_mtx_` is free -/
  | idle
  /-- Call of `add_thread` blocked at line 173 -/
  | add_thread (new_count : Nat)
  /-- Call of `remove_thread` blocked at line 197 -/
  | remove_thread_1 (prev_state : EPoolState) (new_count : Nat)
  /-- Call of `remove_thread` blocked at line 205 -/
  | remove_thread_2 (prev_state : EPoolState) (new_count : Nat)
  /-- Call of `clear` blocked at line 220 -/
  | clear_1
  /-- Call of `clear` blocked at line 229 -/
  | clear_2
  deriving DecidableEq, Repr

/-- What a step did, as seen by the thread that took it. -/
inductive Obs (Task : Type) where
  /-- a `void` client call returned -/
  | returned
  /-- Either of `pause` / `resume` returned this value -/
  | returned_bool (b : Bool)
  /-- the client is blocked on `client_cv_` -/
  | blocked
  /-- Exception `std::logic_error` was thrown -/
  | logic_error
  /-- the `assert` of line 293 failed -/
  | assert_failed
  /-- the worker is blocked on `queue_cv_` (line 336) -/
  | sleeping
  /-- the worker dequeued `task` and begins `task()` (lines 352-366) -/
  | started (task : Task)
  /-- the worker left its loop through `break` (lines 339-350) and returned -/
  | finished
  /-- the worker evaluated `queue_.front()` on a queue without front element (line 352) -/
  | front_undefined
  deriving DecidableEq, Repr

/-- The pool together with its worker threads and the structural operation in progress. -/
structure System (Q Task : Type) where
  pool : thread_pool Q
  workers : List (Worker Task)
  op : Op
  deriving DecidableEq, Repr

/-- Calls and wake-ups; one event is one critical section. -/
inductive Event (Task : Type) where
  | add_thread (thread_num : Nat) (resume_if_paused : Bool)
  | remove_thread
  | clear
  | enqueue (the_task : Task)
  /-- bulk `enqueue( it , to )` over a range whose elements are all emplaced -/
  | enqueue_range (tasks : List Task)
  | discard_queue
  | pause
  | resume
  | join
  /-- the structural operation blocked on `client_cv_` wakes and re-evaluates its predicate -/
  | client_wake
  /-- worker number `i` runs its next critical section -/
  | worker (i : Nat)
  deriving DecidableEq, Repr

section pool
variable {Q Task : Type} [TaskQueue Q Task]

/-! ## Client operations -/

/-- Member initialisers of the constructor (lines 136-138). -/
def thread_pool.init (thread_num : Nat) : thread_pool Q :=
  { queue_ := TaskQueue.init
    thread_count_ := 0
    active_count_ := 0
    state_ := if thread_num ≠ 0 then EPoolState.EXECUTING else EPoolState.PAUSED
    action_ := ⟨false, false⟩ }

/-- Function `add_thread` from its wait (line 173) on. -/
def add_thread_wait (new_count : Nat) (p : thread_pool Q) : thread_pool Q × Op × Obs Task :=
  if p.thread_count_ = new_count then (p, Op.idle, Obs.returned)
  else (p, Op.add_thread new_count, Obs.blocked)

/-- Function `add_thread` (lines 154-174) up to its first release of `queue_mtx_`; the threads spawned by
the loop of lines 161-170 are added to the system by `step`. -/
def add_thread (thread_num : Nat) (_resume_if_paused : Bool) (p : thread_pool Q) :
    thread_pool Q × Op × Obs Task :=
  let new_count := (p.thread_count_ + thread_num) % SIZE_MOD
  add_thread_wait new_count p

/-- The guard `set_state_back` of `remove_thread` (lines 189-195). -/
def set_state_back (prev_state : EPoolState) (new_count : Nat) (p : thread_pool Q) :
    thread_pool Q :=
  if new_count ≠ 0 then { p with state_ := prev_state } else p

/-- Function `remove_thread` from its second wait (line 205) on; on return the guard runs. -/
def remove_thread_wait2 (prev_state : EPoolState) (new_count : Nat) (p : thread_pool Q) :
    thread_pool Q × Op × Obs Task :=
  if p.thread_count_ = new_count then
    (set_state_back prev_state new_count p, Op.idle, Obs.returned)
  else (p, Op.remove_thread_2 prev_state new_count, Obs.blocked)

/-- Function `remove_thread` from its first wait (line 197) on. -/
def remove_thread_wait1 (prev_state : EPoolState) (new_count : Nat) (p : thread_pool Q) :
    thread_pool Q × Op × Obs Task :=
  if p.active_count_ ≠ p.thread_count_ then
    remove_thread_wait2 prev_state new_count
      { p with action_ := { p.action_ with FINISH := true } }
  else (p, Op.remove_thread_1 prev_state new_count, Obs.blocked)

/-- Function `remove_thread` (lines 176-208) up to its first release of `queue_mtx_`. -/
def remove_thread (p : thread_pool Q) : thread_pool Q × Op × Obs Task :=
  if p.thread_count_ = 0 then (p, Op.idle, Obs.logic_error)
  else
    let new_count := p.thread_count_ - 1
    let prev_state := p.state_
    remove_thread_wait1 prev_state new_count { p with state_ := EPoolState.PAUSED }

/-- Function `clear` from its second wait (line 229) on. -/
def clear_wait2 (p : thread_pool Q) : thread_pool Q × Op × Obs Task :=
  if p.thread_count_ = 0 then (p, Op.idle, Obs.returned)
  else (p, Op.clear_2, Obs.blocked)

/-- Function `clear` from its first wait (line 220) on. -/
def clear_wait1 (p : thread_pool Q) : thread_pool Q × Op × Obs Task :=
  if p.active_count_ = 0 then
    clear_wait2 { p with action_ := { FINISH := true, FINISH_ALL := true } }
  else (p, Op.clear_1, Obs.blocked)

/-- Function `clear` (lines 210-232) up to its first release of `queue_mtx_`. -/
def clear (p : thread_pool Q) : thread_pool Q × Op × Obs Task :=
  if p.thread_count_ = 0 then (p, Op.idle, Obs.logic_error)
  else clear_wait1 { p with state_ := EPoolState.PAUSED }

/-- Function `join` (lines 234-242): one evaluation of the wait predicate. -/
def join (p : thread_pool Q) : thread_pool Q × Obs Task :=
  if TaskQueue.empty p.queue_ && p.active_count_ == 0 then (p, Obs.returned)
  else (p, Obs.blocked)

/-- Function `discard_queue` (lines 244-248). -/
def discard_queue (p : thread_pool Q) : thread_pool Q :=
  { p with queue_ := TaskQueue.clear p.queue_ }

/-- Function `enqueue( task_type )` (lines 250-255). -/
def enqueue (the_task : Task) (p : thread_pool Q) : thread_pool Q :=
  { p with queue_ := TaskQueue.emplace p.queue_ the_task }

/-- Bulk `enqueue` (lines 257-277) when every `emplace` succeeds. -/
def enqueue_range (tasks : List Task) (p : thread_pool Q) : thread_pool Q :=
  { p with queue_ := tasks.foldl TaskQueue.emplace p.queue_ }

/-- Function `pause` (lines 280-286). -/
def pause (p : thread_pool Q) : thread_pool Q × Obs Task :=
  if p.state_ = EPoolState.PAUSED then (p, Obs.returned_bool false)
  else ({ p with state_ := EPoolState.PAUSED }, Obs.returned_bool true)

/-- Function `resume` (lines 288-303). -/
def resume (p : thread_pool Q) : thread_pool Q × Obs Task :=
  if p.state_ = EPoolState.EXECUTING then
    if p.thread_count_ ≠ 0 then (p, Obs.returned_bool false) else (p, Obs.assert_failed)
  else if p.thread_count_ = 0 then (p, Obs.logic_error)
  else ({ p with state_ := EPoolState.EXECUTING }, Obs.returned_bool true)

/-! ## Worker routine -/

/-- Head of the loop body (lines 330-334): `is_active = false ; if ( active_count_ ) -- active_count_`. -/
def loop_top (p : thread_pool Q) : thread_pool Q :=
  if p.active_count_ ≠ 0 then { p with active_count_ := decr p.active_count_ } else p

/-- Predicate of the worker's wait (lines 336-337). -/
def wait_pred (p : thread_pool Q) : Bool :=
  p.action_.any || (p.state_ != EPoolState.PAUSED && !TaskQueue.empty p.queue_)

/-- The guard `on_thread_exit` (lines 318-325). -/
def on_thread_exit (is_active : Bool) (p : thread_pool Q) : thread_pool Q :=
  let p1 := { p with thread_count_ := decr p.thread_count_ }
  if is_active then { p1 with active_count_ := decr p1.active_count_ } else p1

/-- Way out of the code of lines 339-358. -/
inductive Selected (Q Task : Type) where
  /-- Statement `break` -/
  | leave (p : thread_pool Q)
  /-- Element `task` was moved out of the queue -/
  | run (task : Task) (p : thread_pool Q)
  /-- Call `front()` had no element to give -/
  | undefined

/-- Lines 339-358: what a worker does once the predicate of its wait holds. -/
def select (p : thread_pool Q) : Selected Q Task :=
  if p.action_.FINISH then
    if !p.action_.FINISH_ALL then
      Selected.leave { p with action_ := { p.action_ with FINISH := false } }
    else if p.thread_count_ = 1 then
      Selected.leave { p with action_ := { p.action_ with FINISH_ALL := false } }
    else Selected.leave p
  else
    match TaskQueue.front p.queue_ with
    | none => Selected.undefined
    | some task =>
      Selected.run task
        { p with queue_ := TaskQueue.pop p.queue_, active_count_ := incr p.active_count_ }

/-- Lines 339-361 and, on `break`, the exit guard (`is_active` is `false` at both `break`s). -/
def after_wait (p : thread_pool Q) : Worker Task × thread_pool Q × Obs Task :=
  match select p with
  | Selected.leave p1 => (Worker.exited, on_thread_exit false p1, Obs.finished)
  | Selected.run task p1 => (Worker.running task, p1, Obs.started task)
  | Selected.undefined => (Worker.waiting, p, Obs.front_undefined)

/-- One pass from the head of the loop body to the next release of `queue_mtx_` (lines 330-361). -/
def iteration (p : thread_pool Q) : Worker Task × thread_pool Q × Obs Task :=
  let p1 := loop_top p
  if wait_pred p1 then after_wait p1 else (Worker.waiting, p1, Obs.sleeping)

/-- Next critical section of a worker; `none` when the worker cannot proceed. -/
def routine (w : Worker Task) (p : thread_pool Q) :
    Option (Worker Task × thread_pool Q × Obs Task) :=
  match w with
  | Worker.created =>
    -- lines 313-315, then the loop
    some (iteration { p with thread_count_ := incr p.thread_count_ })
  | Worker.running _ =>
    -- `task()` returned, `lock_again_at_the_end` re-acquired the mutex (lines 363-368)
    some (iteration p)
  | Worker.waiting =>
    -- woken in `queue_cv_.wait`
    if wait_pred p then some (after_wait p) else none
  | Worker.exited => none

/-! ## The system: pool, workers, and the operation holding `op_mtx_` -/

/-- The constructor (lines 134-142) up to its first release of `queue_mtx_`. -/
def construct (thread_num : Nat) : System Q Task :=
  let r : thread_pool Q × Op × Obs Task := add_thread thread_num true (thread_pool.init thread_num)
  { pool := r.1, workers := List.replicate thread_num Worker.created, op := r.2.1 }

/-- One atomic step. `none`: the event cannot happen in this state (the caller is blocked on
`op_mtx_`, no such worker, the worker's predicate is false, or the threads cannot be created). -/
def step (s : System Q Task) (e : Event Task) : Option (System Q Task × Obs Task) :=
  match e with
  | Event.add_thread thread_num resume_if_paused =>
    if s.op = Op.idle ∧ s.workers.length + thread_num < SIZE_MOD then
      let r : thread_pool Q × Op × Obs Task := add_thread thread_num resume_if_paused s.pool
      some ({ pool := r.1, workers := s.workers ++ List.replicate thread_num Worker.created,
              op := r.2.1 }, r.2.2)
    else none
  | Event.remove_thread =>
    if s.op = Op.idle then
      let r : thread_pool Q × Op × Obs Task := remove_thread s.pool
      some ({ s with pool := r.1, op := r.2.1 }, r.2.2)
    else none
  | Event.clear =>
    if s.op = Op.idle then
      let r : thread_pool Q × Op × Obs Task := clear s.pool
      some ({ s with pool := r.1, op := r.2.1 }, r.2.2)
    else none
  | Event.client_wake =>
    match s.op with
    | Op.idle => none
    | Op.add_thread new_count =>
      let r : thread_pool Q × Op × Obs Task := add_thread_wait new_count s.pool
      some ({ s with pool := r.1, op := r.2.1 }, r.2.2)
    | Op.remove_thread_1 prev_state new_count =>
      let r : thread_pool Q × Op × Obs Task := remove_thread_wait1 prev_state new_count s.pool
      some ({ s with pool := r.1, op := r.2.1 }, r.2.2)
    | Op.remove_thread_2 prev_state new_count =>
      let r : thread_pool Q × Op × Obs Task := remove_thread_wait2 prev_state new_count s.pool
      some ({ s with pool := r.1, op := r.2.1 }, r.2.2)
    | Op.clear_1 =>
      let r : thread_pool Q × Op × Obs Task := clear_wait1 s.pool
      some ({ s with pool := r.1, op := r.2.1 }, r.2.2)
    | Op.clear_2 =>
      let r : thread_pool Q × Op × Obs Task := clear_wait2 s.pool
      some ({ s with pool := r.1, op := r.2.1 }, r.2.2)
  | Event.enqueue the_task => some ({ s with pool := enqueue the_task s.pool }, Obs.returned)
  | Event.enqueue_range tasks => some ({ s with pool := enqueue_range tasks s.pool }, Obs.returned)
  | Event.discard_queue => some ({ s with pool := discard_queue s.pool }, Obs.returned)
  | Event.pause =>
    let r : thread_pool Q × Obs Task := pause s.pool
    some ({ s with pool := r.1 }, r.2)
  | Event.resume =>
    let r : thread_pool Q × Obs Task := resume s.pool
    some ({ s with pool := r.1 }, r.2)
  | Event.join =>
    let r : thread_pool Q × Obs Task := join s.pool
    some ({ s with pool := r.1 }, r.2)
  | Event.worker i =>
    match s.workers[i]? with
    | none => none
    | some w =>
      match routine w s.pool with
      | none => none
      | some r => some ({ s with pool := r.2.1, workers := s.workers.set i r.1 }, r.2.2)

/-- Runs a schedule; gives the final state and what each step did. -/
def run (s : System Q Task) : List (Event Task) → Option (System Q Task × List (Obs Task))
  | [] => some (s, [])
  | e :: es =>
    match step s e with
    | none => none
    | some (s1, o) =>
      match run s1 es with
      | none => none
      | some (s2, os) => some (s2, o :: os)

/-- States reachable from the constructor call `thread_pool( thread_num )`. -/
inductive Reachable (thread_num : Nat) : System Q Task → Prop where
  | construct : thread_num < SIZE_MOD → Reachable thread_num (construct thread_num)
  | step {s s1 : System Q Task} {e : Event Task} {o : Obs Task} :
      Reachable thread_num s → step s e = some (s1, o) → Reachable thread_num s1

/-- A worker that has entered `routine` (incremented `thread_count_`) and not left it. -/
def Worker.live : Worker Task → Bool
  | Worker.waiting => true
  | Worker.running _ => true
  | _ => false

/-- A worker that is running a user task. -/
def Worker.in_task : Worker Task → Bool
  | Worker.running _ => true
  | _ => false

/-- Number of workers currently running a user task. -/
def System.running_count (s : System Q Task) : Nat := s.workers.countP Worker.in_task

/-- Number of workers inside `routine`. -/
def System.live_count (s : System Q Task) : Nat := s.workers.countP Worker.live

end pool

/-! ## Auxiliary notions for statements -/

/-- Events that are not a structural, `pause` or `resume` call: worker critical sections, the
wake-up of the operation in progress, `join`, `enqueue` and `discard_queue`. -/
def Event.background {Task : Type} : Event Task → Bool
  | Event.worker _ => true
  | Event.client_wake => true
  | Event.join => true
  | Event.enqueue _ => true
  | Event.enqueue_range _ => true
  | Event.discard_queue => true
  | _ => false

/-- A worker whose thread was spawned and has not yet acquired `queue_mtx_`. -/
def Worker.starting {Task : Type} : Worker Task → Bool
  | Worker.created => true
  | _ => false

section phases
variable {Q Task : Type} [TaskQueue Q Task]

/-- The flags a worker leaves behind when it takes one of the two `break`s (lines 342-349). -/
def leave_action (p : thread_pool Q) : ActionSet :=
  if !p.action_.FINISH_ALL then { p.action_ with FINISH := false }
  else if p.thread_count_ = 1 then { p.action_ with FINISH_ALL := false }
  else p.action_

/-- What the client call `e` itself does to the queue (`enqueue`, `discard_queue`); every other
event is taken to leave it alone. -/
def Event.on_queue (q : Q) : Event Task → Q
  | Event.enqueue the_task => TaskQueue.emplace q the_task
  | Event.enqueue_range tasks => tasks.foldl TaskQueue.emplace q
  | Event.discard_queue => TaskQueue.clear q
  | _ => q

/-- The invariant of the system: the thread count is the number of live workers, the active
count does not exceed the number of workers in a task, `FINISH_ALL` is never set without
`FINISH`, and fewer than `SIZE_MOD` threads were ever spawned. -/
structure Inv (s : System Q Task) : Prop where
  len : s.workers.length < SIZE_MOD
  tc : s.pool.thread_count_ = s.live_count
  ac : s.pool.active_count_ ≤ s.running_count
  fin : s.pool.action_.FINISH_ALL = true → s.pool.action_.FINISH = true

/-- What no client operation touches: the two counters; the flags stay well-formed and `FINISH`
is not cleared. -/
def Framed (p p1 : thread_pool Q) : Prop :=
  p1.thread_count_ = p.thread_count_ ∧ p1.active_count_ = p.active_count_ ∧
  ((p.action_.FINISH_ALL = true → p.action_.FINISH = true) →
    (p1.action_.FINISH_ALL = true → p1.action_.FINISH = true)) ∧
  (p.action_.FINISH = true → p1.action_.FINISH = true)

/-- Only `add_thread` has workers that are still starting: while it waits for `new_count`,
the threads inside `routine` and those still starting do not exceed `new_count`. -/
def Starting (s : System Q Task) : Prop :=
  (∀ new_count, s.op = Op.add_thread new_count →
    s.pool.thread_count_ + s.workers.countP Worker.starting ≤ new_count) ∧
  ((∀ new_count, s.op ≠ Op.add_thread new_count) → s.workers.countP Worker.starting = 0)

/-- While `clear` is in progress: the pool is paused, the flags are well-formed, and the queue
is `q`. -/
def ClearPhase (q : Q) (s : System Q Task) : Prop :=
  match s.op with
  | Op.idle => True
  | Op.clear_1 =>
    s.pool.state_ = EPoolState.PAUSED ∧ s.pool.queue_ = q ∧
      (s.pool.action_.FINISH_ALL = true → s.pool.action_.FINISH = true)
  | Op.clear_2 =>
    s.pool.state_ = EPoolState.PAUSED ∧ s.pool.queue_ = q ∧
      (s.pool.action_.FINISH_ALL = true → s.pool.action_.FINISH = true)
  | _ => False

/-- While `remove_thread`, called with `n` threads in state `st`, is in progress: the pool is
paused, the queue is `q`, no worker is starting, and either no worker has left yet or exactly
one has, taking the `FINISH` token with it. -/
def RemovePhase (n : Nat) (st : EPoolState) (q : Q) (s : System Q Task) : Prop :=
  match s.op with
  | Op.idle => True
  | Op.remove_thread_1 prev_state new_count =>
    s.pool.state_ = EPoolState.PAUSED ∧ s.pool.queue_ = q ∧
      s.workers.countP Worker.starting = 0 ∧
      prev_state = st ∧ new_count = n - 1 ∧
      s.pool.thread_count_ = n ∧ s.pool.action_ = ⟨false, false⟩
  | Op.remove_thread_2 prev_state new_count =>
    s.pool.state_ = EPoolState.PAUSED ∧ s.pool.queue_ = q ∧
      s.workers.countP Worker.starting = 0 ∧
      prev_state = st ∧ new_count = n - 1 ∧
      ((s.pool.thread_count_ = n ∧ s.pool.action_ = ⟨true, false⟩) ∨
       (s.pool.thread_count_ = n - 1 ∧ s.pool.action_ = ⟨false, false⟩))
  | _ => False

end phases

/-! ## Concrete schedules (FIFO queue of numbered tasks) -/

/-- Pool `thread_pool pool{ 1 }` after the constructor returned, task `7` enqueued and not yet
taken by the worker. -/
def pending1 : System (List Nat) Nat :=
  { pool := { queue_ := [7], thread_count_ := 1, active_count_ := 0,
              state_ := EPoolState.EXECUTING, action_ := ⟨false, false⟩ }
    workers := [Worker.waiting]
    op := Op.idle }

/-- The pool of `pending1` once worker 0 has taken task `7`, `add_thread( 1 )` has brought in
worker 1 and returned: two live workers, one of them inside task `7`. -/
def undercounted : System (List Nat) Nat :=
  { pool := { queue_ := [], thread_count_ := 2, active_count_ := 0,
              state_ := EPoolState.EXECUTING, action_ := ⟨false, false⟩ }
    workers := [Worker.running 7, Worker.waiting]
    op := Op.idle }

/-- The pool of `pending1` once `clear` has returned. -/
def cleared1 : System (List Nat) Nat :=
  { pool := { queue_ := [7], thread_count_ := 0, active_count_ := 0,
              state_ := EPoolState.PAUSED, action_ := ⟨true, false⟩ }
    workers := [Worker.exited]
    op := Op.idle }

/-- How `pending1` comes about. -/
def to_pending1 : List (Event Nat) := [Event.worker 0, Event.client_wake, Event.enqueue 7]

/-- From `pending1`: the worker takes task `7`; while the task runs, `add_thread( 1 )` is called
and its new worker enters the loop; `add_thread` returns; `join` is called. -/
def add_while_running : List (Event Nat) :=
  [Event.worker 0, Event.add_thread 1 true, Event.worker 1, Event.client_wake, Event.join]

/-- From `pending1`: `clear` is called, the worker leaves, `clear` returns. -/
def clear_pending : List (Event Nat) := [Event.clear, Event.worker 0, Event.client_wake]

/-- The state in which `clear` sits between setting both flags and the exit of the worker. -/
def clearing1 : System (List Nat) Nat :=
  { pool := { queue_ := [7], thread_count_ := 1, active_count_ := 0,
              state_ := EPoolState.PAUSED, action_ := ⟨true, true⟩ }
    workers := [Worker.waiting]
    op := Op.clear_2 }

/-- Pool `thread_pool pool{ 3 }` after one `remove_thread`: two workers asleep, one gone. -/
def two_left : System (List Nat) Nat :=
  { pool := { queue_ := [], thread_count_ := 2, active_count_ := 0,
              state_ := EPoolState.EXECUTING, action_ := ⟨false, false⟩ }
    workers := [Worker.waiting, Worker.exited, Worker.waiting]
    op := Op.idle }

/-- State `two_left` after a second `remove_thread`. -/
def one_left : System (List Nat) Nat :=
  { pool := { queue_ := [], thread_count_ := 1, active_count_ := 0,
              state_ := EPoolState.EXECUTING, action_ := ⟨false, false⟩ }
    workers := [Worker.exited, Worker.exited, Worker.waiting]
    op := Op.idle }

/-- Schedule for `thread_pool pool{ 3 }`: the three workers enter and fall asleep, the constructor returns;
then `remove_thread` is called, worker 1 takes the `FINISH` token and leaves, and
`remove_thread` returns. -/
def to_two_left : List (Event Nat) :=
  [Event.worker 0, Event.worker 1, Event.worker 2, Event.client_wake,
   Event.remove_thread, Event.worker 1, Event.client_wake]

/-! ## Container laws, notifications, bulk enqueue -/

/-- The laws of a standard container that `thread_pool` relies on: a default-constructed
container is empty, `clear` leaves it empty, and `clear` on an empty container changes nothing. -/
class QueueLaws (Q : Type) (Task : outParam Type) [TaskQueue Q Task] : Prop where
  empty_init : TaskQueue.empty (TaskQueue.init : Q) = true
  empty_clear : ∀ q : Q, TaskQueue.empty (TaskQueue.clear q) = true
  clear_empty : ∀ q : Q, TaskQueue.empty q = true → TaskQueue.clear q = q

/-- The container `std::queue< Task >` obeys the container laws. -/
instance fifo_laws (Task : Type) : QueueLaws (List Task) Task where
  empty_init := rfl
  empty_clear _ := rfl
  clear_empty q h := by cases q <;> simp_all [TaskQueue.empty, TaskQueue.clear]

/-- A call on the condition variable `queue_cv_`. -/
inductive Signal where
  | notify_one
  | notify_all
  deriving DecidableEq, Repr

section pool_signals
variable {Q Task : Type} [TaskQueue Q Task]

/-- Function `resume` (lines 288-303) together with the calls it makes on `queue_cv_`. -/
def resume_signalling (p : thread_pool Q) : thread_pool Q × Obs Task × List Signal :=
  if p.state_ = EPoolState.EXECUTING then
    if p.thread_count_ ≠ 0 then (p, Obs.returned_bool false, [])
    else (p, Obs.assert_failed, [])
  else if p.thread_count_ = 0 then (p, Obs.logic_error, [])
  else ({ p with state_ := EPoolState.EXECUTING }, Obs.returned_bool true, [Signal.notify_all])

/-- Result of the bulk `enqueue( it , to )` (lines 257-277). -/
structure Bulk (Q Task : Type) where
  pool : thread_pool Q
  /-- the caller's iterator `it`, given as the part of the range from `it` to `to` -/
  it : List Task
  /-- the calls made on `queue_cv_` -/
  signals : List Signal
  /-- whether the call ended by rethrowing the failure of an `emplace` (line 274) -/
  threw : Bool

/-- The loop of lines 265-276 with `count` elements emplaced so far and the iterator at position
`pos` of the range; `fails k` tells whether the `emplace` of the element at position `k` throws
(a throwing `emplace` leaves the container as it was). -/
def enqueue_bulk_loop (fails : Nat → Bool) (pos count : Nat) (p : thread_pool Q) :
    List Task → Bulk Q Task
  | [] => { pool := p, it := [], signals := [Signal.notify_all], threw := false }
  | t :: rest =>
    if fails pos then
      { pool := p, it := t :: rest,
        signals := if count ≠ 0 then [Signal.notify_all] else [], threw := true }
    else
      enqueue_bulk_loop fails (pos + 1) (incr count)
        { p with queue_ := TaskQueue.emplace p.queue_ t } rest

/-- Bulk `enqueue( it , to )` (lines 257-277) on the range `range`. -/
def enqueue_bulk (fails : Nat → Bool) (p : thread_pool Q) (range : List Task) : Bulk Q Task :=
  match range with
  | [] => { pool := p, it := [], signals := [], threw := false }
  | _ :: _ => enqueue_bulk_loop fails 0 0 p range

end pool_signals

/-! ## Further concrete schedules -/

/-- Schedule for `thread_pool pool{ 1 }`: the worker falls asleep, the constructor returns; `clear`
is called and sets both flags; `resume` is called from another thread while `clear` waits; the
worker leaves; `clear` returns; `resume` is called again. -/
def resume_during_clear : List (Event Nat) :=
  [Event.worker 0, Event.client_wake, Event.clear, Event.resume, Event.worker 0,
   Event.client_wake, Event.resume]

/-- The pool left by `resume_during_clear`: executing, with no thread. -/
def executing_empty : System (List Nat) Nat :=
  { pool := { queue_ := [], thread_count_ := 0, active_count_ := 0,
              state_ := EPoolState.EXECUTING, action_ := ⟨true, false⟩ }
    workers := [Worker.exited]
    op := Op.idle }

/-! ## Scoped-release helper `p_::scope_guard` (lines 34-62) -/

/-- The guard `p_::scope_guard< F >`. Its action `func_` acts on an environment `σ` and either
returns (`none`) or ends by throwing (`some e`). -/
structure scope_guard (σ ε : Type) where
  discarded_ : Bool
  func_ : σ → σ × Option ε

/-- Function `make_guard` (lines 58-61) and the constructor (lines 37-39, 55). -/
def make_guard {σ ε : Type} (func : σ → σ × Option ε) : scope_guard σ ε :=
  { discarded_ := false, func_ := func }

/-- How the destruction of a guard ends. -/
inductive Destroyed (ε : Type) where
  /-- the destructor returned -/
  | done
  /-- a failure left the destructor and goes on to the enclosing scope -/
  | propagated (e : ε)
  /-- the process was ended by `std::terminate` -/
  | terminated
  deriving DecidableEq, Repr

/-- A function that is `noexcept`: a failure that leaves its body ends the process through
`std::terminate`. -/
def noexcept_call {σ ε : Type} (body : σ × Option ε) : σ × Destroyed ε :=
  match body with
  | (env, none) => (env, Destroyed.done)
  | (env, some _) => (env, Destroyed.terminated)

/-- Body of the destructor (lines 42-44): the environment it leaves and the failure that leaves
the body, if any. -/
def scope_guard.destroy_body {σ ε : Type} (g : scope_guard σ ε) (env : σ) : σ × Option ε :=
  if !g.discarded_ then
    match g.func_ env with
    | (env1, none) => (env1, none)
    | (env1, some _) => g.func_ env1
  else (env, none)

/-- The destructor `~ scope_guard ()` (lines 41-45). It is declared without an exception
specification and is therefore `noexcept` (the program is compiled as C++11): a failure that
leaves its body ends the process. -/
def scope_guard.destroy {σ ε : Type} (g : scope_guard σ ε) (env : σ) : σ × Destroyed ε :=
  noexcept_call (g.destroy_body env)

/-- Member `perform` (lines 47-50). -/
def scope_guard.perform {σ ε : Type} (g : scope_guard σ ε) (env : σ) :
    scope_guard σ ε × σ × Option ε :=
  match g.func_ env with
  | (env1, none) => ({ g with discarded_ := true }, env1, none)
  | (env1, some e) => (g, env1, some e)

/-- Member `discard` (line 52). -/
def scope_guard.discard {σ ε : Type} (g : scope_guard σ ε) : scope_guard σ ε :=
  { g with discarded_ := true }

/-- An action together with a count of its invocations. -/
def counted {σ ε : Type} (f : σ → σ × Option ε) : σ × Nat → (σ × Nat) × Option ε :=
  fun x => (((f x.1).1, x.2 + 1), (f x.1).2)

/-! ## The guard `unique_lock` (`src/mutex.hxx`, lines 165-312) -/

/-- The error conditions carried by a `std::system_error`: the two that `unique_lock` raises
itself, and any other code coming from the mutex. -/
inductive errc where
  | operation_not_permitted
  | resource_deadlock_would_occur
  | other (code : Nat)
  deriving DecidableEq, Repr

/-- How a member function of `unique_lock` ends. -/
inductive Ended where
  /-- it returned -/
  | done
  /-- it threw `std::system_error` with this condition -/
  | system_error (e : errc)
  /-- it called a member through a null `obj_ptr_` -/
  | null_dereference
  deriving DecidableEq, Repr

/-- The fields of `unique_lock< Lockable >` (lines 310-311); `M` names the mutexes. -/
structure unique_lock (M : Type) where
  obj_ptr_ : Option M
  is_locked_ : Bool
  deriving DecidableEq, Repr

/-- Observer `owns_lock` (line 294). -/
def unique_lock.owns_lock {M : Type} (g : unique_lock M) : Bool := g.is_locked_

/-- Observer `mutex` (line 296). -/
def unique_lock.mutex {M : Type} (g : unique_lock M) : Option M := g.obj_ptr_

/-- Constructor `unique_lock( mutex_type& obj )` (lines 203-208); `mutex_lock` is what
`obj_ptr_ -> lock()` does: it returns (`none`) or throws (`some e`), and then no guard exists. -/
def unique_lock.locking {M : Type} (obj : M) (mutex_lock : Option errc) :
    Except errc (unique_lock M) :=
  match mutex_lock with
  | some e => Except.error e
  | none => Except.ok { obj_ptr_ := some obj, is_locked_ := true }

/-- Function `lock_assert` (lines 300-308): the condition it throws, if any. -/
def lock_assert (ptr_state locked_state : Bool) : Option errc :=
  if !ptr_state then some errc.operation_not_permitted
  else if !locked_state then some errc.resource_deadlock_would_occur
  else none

/-- Member `lock` (lines 242-248); `mutex_lock` is what `obj_ptr_ -> lock()` does. -/
def unique_lock.lock {M : Type} (g : unique_lock M) (mutex_lock : Option errc) :
    unique_lock M × Ended :=
  match lock_assert g.obj_ptr_.isSome (!g.is_locked_) with
  | some e => (g, Ended.system_error e)
  | none =>
    match mutex_lock with
    | some e => (g, Ended.system_error e)
    | none => ({ g with is_locked_ := true }, Ended.done)

/-- Member `unlock` (lines 250-258); the `unlock` of the mutexes is `noexcept`. -/
def unique_lock.unlock {M : Type} (g : unique_lock M) : unique_lock M × Ended :=
  if !g.is_locked_ then (g, Ended.system_error errc.operation_not_permitted)
  else
    match g.obj_ptr_ with
    | none => (g, Ended.null_dereference)
    | some _ => ({ g with is_locked_ := false }, Ended.done)

/-- Move assignment `operator = ( unique_lock&& src )` (lines 187-194): the assigned guard, the
source afterwards, and how the call ended. -/
def unique_lock.move_assign {M : Type} (dst src : unique_lock M) :
    unique_lock M × unique_lock M × Ended :=
  let r : unique_lock M × Ended := if dst.is_locked_ then dst.unlock else (dst, Ended.done)
  match r.2 with
  | Ended.done => ({ r.1 with obj_ptr_ := src.obj_ptr_ }, { src with obj_ptr_ := none }, Ended.done)
  | e => (r.1, src, e)

/-! ## The constructor call -/

/-- The events that can happen while the constructor runs, when no other thread knows the
pool yet: steps of the workers and the wake-up of the constructor's `add_thread`. -/
def Event.constructing {Task : Type} : Event Task → Bool
  | Event.worker _ => true
  | Event.client_wake => true
  | _ => false

section construction
variable {Q Task : Type} [TaskQueue Q Task]

/-- What the constructor `thread_pool( thread_num )` hands to its caller. -/
def constructed (thread_num : Nat) : thread_pool Q :=
  { queue_ := TaskQueue.init
    thread_count_ := thread_num
    active_count_ := 0
    state_ := if thread_num ≠ 0 then EPoolState.EXECUTING else EPoolState.PAUSED
    action_ := ⟨false, false⟩ }

/-- What holds while the constructor `thread_pool( n )` runs: only `thread_count_` moves, and
every worker is starting or asleep. -/
def Constructing (n : Nat) (s : System Q Task) : Prop :=
  s.pool.queue_ = TaskQueue.init ∧ s.pool.active_count_ = 0 ∧
  s.pool.action_ = ⟨false, false⟩ ∧
  s.pool.state_ = (if n ≠ 0 then EPoolState.EXECUTING else EPoolState.PAUSED) ∧
  s.workers.length = n ∧
  (∀ w ∈ s.workers, w = Worker.created ∨ w = Worker.waiting) ∧
  (s.op = Op.idle ∨ ∃ new_count, s.op = Op.add_thread new_count)

/-- The state in which the first `k` of the `n` workers of the constructor have entered the loop
and fallen asleep. -/
def Entered (n k : Nat) (s : System Q Task) : Prop :=
  s.pool = { (constructed n : thread_pool Q) with thread_count_ := k } ∧
  s.op = Op.add_thread n ∧ s.workers.length = n ∧
  (∀ i : Nat, i < k → s.workers[i]? = some Worker.waiting) ∧
  (∀ i : Nat, k ≤ i → i < n → s.workers[i]? = some Worker.created)

end construction

/-- Pool `thread_pool pool{ 3 }` when its constructor returns. -/
def three_asleep : System (List Nat) Nat :=
  { pool := { queue_ := [], thread_count_ := 3, active_count_ := 0,
              state_ := EPoolState.EXECUTING, action_ := ⟨false, false⟩ }
    workers := [Worker.waiting, Worker.waiting, Worker.waiting]
    op := Op.idle }

/-! ## Order of tasks -/

/-- The tasks that workers started, in the order of their dequeue steps. -/
def started_tasks {Task : Type} : List (Obs Task) → List Task
  | [] => []
  | Obs.started task :: os => task :: started_tasks os
  | _ :: os => started_tasks os

/-- The tasks handed to `enqueue`, in the order of the calls (a bulk call in range order). -/
def enqueued_tasks {Task : Type} : List (Event Task) → List Task
  | [] => []
  | Event.enqueue the_task :: es => the_task :: enqueued_tasks es
  | Event.enqueue_range tasks :: es => tasks ++ enqueued_tasks es
  | _ :: es => enqueued_tasks es


/-! ## Failures inside the worker routine

The routine is a function-try-block (lines 311-372): whatever escapes its body is caught at
line 369 and handed to `thread_exception_handle`. Re-acquisition of `queue_mtx_` by the guard
`lock_again_at_the_end` is taken to succeed. -/

section faults
variable {Q Task : Type} [TaskQueue Q Task]

/-- The value of `thread_count_` once the worker has passed line 315. -/
def entered_count (w : Worker Task) (p : thread_pool Q) : Nat :=
  match w with
  | Worker.created => incr p.thread_count_
  | _ => p.thread_count_

end faults

/-- How a member function of `thread` ends. -/
inductive ThreadEnd where
  /-- it returned -/
  | done
  /-- it threw `std::invalid_argument` -/
  | invalid_argument
  /-- it threw `std::system_error` with this code -/
  | system_error (code : Nat)
  /-- it called `std::terminate` -/
  | terminate
  deriving DecidableEq, Repr

namespace POSIX

/-- The fields of `thread` (lines 163-164); a `pthread_t` is a number. -/
structure thread where
  thread_id_ : Nat
  is_joinable_ : Bool
  deriving DecidableEq, Repr

/-- Observer `joinable` (line 136). -/
def thread.joinable (t : thread) : Bool := t.is_joinable_

/-- Default constructor (line 72); `thread_id_` is not initialised and holds `garbage`. -/
def thread.default_constructed (garbage : Nat) : thread :=
  { thread_id_ := garbage, is_joinable_ := false }

/-- Constructor from an action (lines 102-128): `pthread_create` returns `error` and, when
that is `0`, has stored the id `id` of the new thread. A failure throws, and no handle
exists. -/
def thread.spawned (error id : Nat) : Except ThreadEnd thread :=
  if error ≠ 0 then Except.error (ThreadEnd.system_error error)
  else Except.ok { thread_id_ := id, is_joinable_ := true }

/-- Move constructor (lines 78-83): the new handle and the source afterwards. -/
def thread.moved (t : thread) : thread × thread :=
  ({ thread_id_ := t.thread_id_, is_joinable_ := t.is_joinable_ },
   { t with is_joinable_ := false })

/-- Move assignment (lines 87-94): the assigned handle, the source afterwards, and how the
call ended. -/
def thread.move_assign (self obj : thread) : thread × thread × ThreadEnd :=
  if self.joinable then (self, obj, ThreadEnd.terminate)
  else ({ thread_id_ := obj.thread_id_, is_joinable_ := obj.is_joinable_ },
        { obj with is_joinable_ := false }, ThreadEnd.done)

/-- Destructor (lines 130-134). -/
def thread.destroy (t : thread) : ThreadEnd :=
  if t.joinable then ThreadEnd.terminate else ThreadEnd.done

/-- Member `detach` (lines 140-149); `error` is the result of `pthread_detach`. -/
def thread.detach (t : thread) (error : Nat) : thread × ThreadEnd :=
  if !t.joinable then (t, ThreadEnd.invalid_argument)
  else if error ≠ 0 then (t, ThreadEnd.system_error error)
  else ({ t with is_joinable_ := false }, ThreadEnd.done)

/-- Member `join` (lines 151-160); `error` is the result of `pthread_join`. -/
def thread.join (t : thread) (error : Nat) : thread × ThreadEnd :=
  if !t.joinable then (t, ThreadEnd.invalid_argument)
  else if error ≠ 0 then (t, ThreadEnd.system_error error)
  else ({ t with is_joinable_ := false }, ThreadEnd.done)

end POSIX

namespace WinAPI

/-- The fields of `thread` (lines 164-165); a `HANDLE` is a number, `nullptr` is `0`. -/
structure thread where
  handle_ : Nat
  id_ : Nat
  deriving DecidableEq, Repr

/-- Observer `joinable` (line 135). -/
def thread.joinable (t : thread) : Bool := t.handle_ != 0

/-- Default constructor (line 67); `id_` is not initialised and holds `garbage`. -/
def thread.default_constructed (garbage : Nat) : thread := { handle_ := 0, id_ := garbage }

/-- Constructor from an action (lines 97-127): `CreateThread` returns `handle` and has stored
`thread_id`; a null handle throws with `last_error`, and no handle object exists. -/
def thread.spawned (handle thread_id last_error : Nat) : Except ThreadEnd thread :=
  if handle = 0 then Except.error (ThreadEnd.system_error last_error)
  else Except.ok { handle_ := handle, id_ := thread_id }

/-- Move constructor (lines 73-78): the new handle and the source afterwards. -/
def thread.moved (t : thread) : thread × thread :=
  ({ handle_ := t.handle_, id_ := t.id_ }, { t with handle_ := 0 })

/-- Move assignment (lines 82-89): the assigned handle, the source afterwards, and how the
call ended. -/
def thread.move_assign (self obj : thread) : thread × thread × ThreadEnd :=
  if self.joinable then (self, obj, ThreadEnd.terminate)
  else ({ handle_ := obj.handle_, id_ := obj.id_ }, { obj with handle_ := 0 }, ThreadEnd.done)

/-- Destructor (lines 129-133). -/
def thread.destroy (t : thread) : ThreadEnd :=
  if t.joinable then ThreadEnd.terminate else ThreadEnd.done

/-- Member `detach` (lines 139-148); `closed` is the result of `CloseHandle`, `last_error` that
of `GetLastError`. -/
def thread.detach (t : thread) (closed : Bool) (last_error : Nat) : thread × ThreadEnd :=
  if !t.joinable then (t, ThreadEnd.invalid_argument)
  else if !closed then (t, ThreadEnd.system_error last_error)
  else ({ t with handle_ := 0 }, ThreadEnd.done)

/-- Member `join` (lines 150-161); `wait_failed` tells whether `WaitForSingleObject` returned
`WAIT_FAILED`. -/
def thread.join (t : thread) (wait_failed : Bool) (last_error : Nat) : thread × ThreadEnd :=
  if !t.joinable then (t, ThreadEnd.invalid_argument)
  else if wait_failed then (t, ThreadEnd.system_error last_error)
  else ({ t with handle_ := 0 }, ThreadEnd.done)

end WinAPI

/-! ## Timed waits of `condition_variable` with a predicate

Sources: `src/sources/POSIX/condition_variable.hxx` (lines 81-113) and
`src/sources/WinAPI/condition_variable.hxx` (lines 68-111). The deadline enters only through
what the OS wait reports. -/

/-- What one call of the OS timed wait reports. -/
inductive Wake where
  /-- it returned without error: a notification or a spurious wake-up -/
  | woken
  /-- it reported a time-out (`ETIMEDOUT`, `ERROR_TIMEOUT`) -/
  | timed_out
  /-- it failed with this code -/
  | failed (code : Nat)
  deriving DecidableEq, Repr

/-- How a timed wait with predicate ends. In `returned value pred_then`, `value` is the boolean
the call returns and `pred_then` is the value the predicate has at that moment (the code does
not compute it). -/
inductive TimedWait where
  | returned (value : Bool) (pred_then : Bool)
  /-- it threw `std::system_error` with this code -/
  | system_error (code : Nat)
  /-- the OS wait has not returned yet -/
  | waiting
  deriving DecidableEq, Repr

namespace POSIX

/-- Member `wait_until( lock , timeout_time , pred )` (lines 81-94). The first argument is the
value of the predicate at the next evaluation; each round is what a call of
`pthread_cond_timedwait` reports together with the value the predicate has when that call
returns. -/
def condition_variable.wait_until : Bool → List (Wake × Bool) → TimedWait
  | true, _ => TimedWait.returned true true
  | false, [] => TimedWait.waiting
  | false, (Wake.woken, pred_next) :: rounds => condition_variable.wait_until pred_next rounds
  | false, (Wake.timed_out, pred_next) :: _ => TimedWait.returned false pred_next
  | false, (Wake.failed code, _) :: _ => TimedWait.system_error code

/-- Member `wait_for( lock , duration , pred )` (lines 106-113): it calls `wait_until` with the
deadline `system_clock::now() + duration`. -/
def condition_variable.wait_for (pred_now : Bool) (rounds : List (Wake × Bool)) : TimedWait :=
  condition_variable.wait_until pred_now rounds

end POSIX

namespace WinAPI

/-- Member `wait_for( lock , duration , pred )` (lines 93-111); each round is what a call of
`SleepConditionVariableCS` reports together with the value the predicate has when that call
returns. -/
def condition_variable.wait_for : Bool → List (Wake × Bool) → TimedWait
  | true, _ => TimedWait.returned true true
  | false, [] => TimedWait.waiting
  | false, (Wake.woken, pred_next) :: rounds => condition_variable.wait_for pred_next rounds
  | false, (Wake.timed_out, pred_next) :: _ => TimedWait.returned false pred_next
  | false, (Wake.failed code, _) :: _ => TimedWait.system_error code

/-- Member `wait_until( lock , timeout_time , pred )` (lines 68-74): it calls `wait_for` with
the duration `timeout_time - Clock::now()`. -/
def condition_variable.wait_until (pred_now : Bool) (rounds : List (Wake × Bool)) : TimedWait :=
  condition_variable.wait_for pred_now rounds

end WinAPI

/-- The rounds of a timed wait that were spurious or notified wake-ups finding the predicate
false. -/
def all_woken_false (rounds : List (Wake × Bool)) : Bool :=
  rounds.all (fun r => r.1 == Wake.woken && r.2 == false)

/-! ## Conversion of a deadline to a `timespec`

Sources: `condition_variable::to_sys_timepoint` (`src/sources/POSIX/condition_variable.hxx`,
lines 121-135) and `p_::timed_mutex::try_lock_until` (`src/sources/POSIX/mutex.hxx`, lines 97-113).
Time points are counts of nanoseconds in a signed 64-bit `rep`. -/

/-- A value of a signed integer type of `bits` bits: two's complement wrap-around. -/
def wrap (bits : Nat) (x : Int) : Int :=
  (x + 2 ^ (bits - 1)) % 2 ^ bits - 2 ^ (bits - 1)

/-- Nanoseconds in a second (`std::nano`). -/
def NANO : Int := 1000000000

/-- The `timespec` handed to the OS. -/
structure timespec where
  tv_sec : Int
  tv_nsec : Int
  deriving DecidableEq, Repr

/-- The time point converted to the system clock (lines 124-125): a time point of the system
clock is taken as it is, any other is `system_clock::now() + ( src - Clock::now() )`. -/
def sys_time_point (is_system_clock : Bool) (src sys_now clock_now : Int) : Int :=
  if is_system_clock then src else wrap 64 (sys_now + wrap 64 (src - clock_now))

/-- Lines 127-134: `duration_cast< seconds >` divides the count, truncating toward zero; the
rest is the count minus the whole seconds; `time_t` has `time_bits` bits and `long` has
`long_bits` bits. -/
def split_duration (time_bits long_bits : Nat) (duration_since_epoch : Int) : timespec :=
  let seconds_count := Int.tdiv duration_since_epoch NANO
  let rest := wrap 64 (duration_since_epoch - wrap 64 (seconds_count * NANO))
  { tv_sec := wrap time_bits seconds_count, tv_nsec := wrap long_bits rest }

/-- Function `to_sys_timepoint` (lines 121-135). -/
def to_sys_timepoint (time_bits long_bits : Nat) (is_system_clock : Bool)
    (src sys_now clock_now : Int) : timespec :=
  split_duration time_bits long_bits (sys_time_point is_system_clock src sys_now clock_now)

/-- The `timespec` built by `p_::timed_mutex::try_lock_until` (lines 102-111). -/
def try_lock_until_timespec (time_bits long_bits : Nat) (is_system_clock : Bool)
    (timeout_time sys_now clock_now : Int) : timespec :=
  let sys_point := if is_system_clock then timeout_time
    else wrap 64 (sys_now + wrap 64 (timeout_time - clock_now))
  let seconds_count := Int.tdiv sys_point NANO
  let rest := wrap 64 (sys_point - wrap 64 (seconds_count * NANO))
  { tv_sec := wrap time_bits seconds_count, tv_nsec := wrap long_bits rest }

/-! ## Further members of `unique_lock` (`src/mutex.hxx`) -/

/-- Default constructor (lines 170-173). -/
def unique_lock.default_constructed {M : Type} : unique_lock M :=
  { obj_ptr_ := none, is_locked_ := false }

/-- Move constructor (lines 177-183): the new guard and the source afterwards. -/
def unique_lock.moved {M : Type} (src : unique_lock M) : unique_lock M × unique_lock M :=
  ({ obj_ptr_ := src.obj_ptr_, is_locked_ := src.is_locked_ },
   { obj_ptr_ := none, is_locked_ := false })

/-- Constructor with `defer_lock` (lines 210-213). -/
def unique_lock.deferred {M : Type} (obj : M) : unique_lock M :=
  { obj_ptr_ := some obj, is_locked_ := false }

/-- Constructor with `adopt_lock` (lines 222-226). -/
def unique_lock.adopting {M : Type} (obj : M) : unique_lock M :=
  { obj_ptr_ := some obj, is_locked_ := true }

/-- Constructor with `try_to_lock` (lines 215-220); `mutex_try_lock` is what
`obj_ptr_ -> try_lock()` returns, which the constructor does not use. -/
def unique_lock.trying {M : Type} (obj : M) (_mutex_try_lock : Bool) : unique_lock M :=
  { obj_ptr_ := some obj, is_locked_ := true }

/-- Member `try_lock` (lines 274-277): the guard afterwards and the value returned, `none` when
the call goes through a null `obj_ptr_`. -/
def unique_lock.try_lock {M : Type} (g : unique_lock M) (mutex_try_lock : Bool) :
    unique_lock M × Option Bool :=
  match g.obj_ptr_ with
  | none => (g, none)
  | some _ => ({ g with is_locked_ := mutex_try_lock }, some mutex_try_lock)

/-- Member `swap` (lines 279-283): this guard and the other one afterwards. -/
def unique_lock.swap {M : Type} (g obj : unique_lock M) : unique_lock M × unique_lock M :=
  ({ obj_ptr_ := obj.obj_ptr_, is_locked_ := obj.is_locked_ },
   { obj_ptr_ := g.obj_ptr_, is_locked_ := g.is_locked_ })

/-- Destructor (lines 196-201). -/
def unique_lock.destroy {M : Type} (g : unique_lock M) : Ended :=
  if g.is_locked_ then
    match g.obj_ptr_ with
    | none => Ended.null_dereference
    | some _ => Ended.done
  else Ended.done

/-- The states of a guard that its public constructors and operations produce. With
`assignment = false` move assignment is left out. -/
inductive unique_lock.Reached {M : Type} (assignment : Bool) : unique_lock M → Prop where
  | default_constructed : unique_lock.Reached assignment unique_lock.default_constructed
  | locking (obj : M) (g : unique_lock M) :
      unique_lock.locking obj none = Except.ok g → unique_lock.Reached assignment g
  | deferred (obj : M) : unique_lock.Reached assignment (unique_lock.deferred obj)
  | adopting (obj : M) : unique_lock.Reached assignment (unique_lock.adopting obj)
  | moved_to (src : unique_lock M) :
      unique_lock.Reached assignment src → unique_lock.Reached assignment src.moved.1
  | moved_from (src : unique_lock M) :
      unique_lock.Reached assignment src → unique_lock.Reached assignment src.moved.2
  | assigned_to (dst src : unique_lock M) : assignment = true →
      unique_lock.Reached assignment dst → unique_lock.Reached assignment src →
      unique_lock.Reached assignment (dst.move_assign src).1
  | assigned_from (dst src : unique_lock M) : assignment = true →
      unique_lock.Reached assignment dst → unique_lock.Reached assignment src →
      unique_lock.Reached assignment (dst.move_assign src).2.1
  | lock (g : unique_lock M) (mutex_lock : Option errc) :
      unique_lock.Reached assignment g → unique_lock.Reached assignment (g.lock mutex_lock).1
  | unlock (g : unique_lock M) :
      unique_lock.Reached assignment g → unique_lock.Reached assignment g.unlock.1
  | swap_self (g obj : unique_lock M) :
      unique_lock.Reached assignment g → unique_lock.Reached assignment obj →
      unique_lock.Reached assignment (g.swap obj).1
  | swap_other (g obj : unique_lock M) :
      unique_lock.Reached assignment g → unique_lock.Reached assignment obj →
      unique_lock.Reached assignment (g.swap obj).2

/-! ## Further notions for the pool -/

section pool_more
variable {Q Task : Type} [TaskQueue Q Task]

/-- The pool as a worker finds it at its wait (line 336): a worker that starts has counted
itself (line 315) and passed the head of the loop (lines 330-334), a worker that comes back from
a task has passed the head of the loop, and a worker woken in its wait finds the pool as it is. -/
def at_wait (w : Worker Task) (p : thread_pool Q) : thread_pool Q :=
  match w with
  | Worker.created => loop_top { p with thread_count_ := incr p.thread_count_ }
  | Worker.running _ => loop_top p
  | _ => p

end pool_more

/-- A worker that has left `routine`. -/
def Worker.left {Task : Type} : Worker Task → Bool
  | Worker.exited => true
  | _ => false

/-- Schedule for `thread_pool pool{ 1 }`: the worker falls asleep, the constructor returns;
`remove_thread` is called and hands out the `FINISH` token; `resume` is called from another
thread while `remove_thread` waits; the worker leaves; `remove_thread` returns; `resume` is
called again. -/
def resume_during_remove : List (Event Nat) :=
  [Event.worker 0, Event.client_wake, Event.remove_thread, Event.resume, Event.worker 0,
   Event.client_wake, Event.resume]

/-- The pool left by `resume_during_remove`: executing, with no thread and no flag. -/
def executing_alone : System (List Nat) Nat :=
  { pool := { queue_ := [], thread_count_ := 0, active_count_ := 0,
              state_ := EPoolState.EXECUTING, action_ := ⟨false, false⟩ }
    workers := [Worker.exited]
    op := Op.idle }

/-- Pool `thread_pool pool{ 0 }` after `add_thread( 2 , true )` has returned: two workers
asleep, the pool still paused. -/
def paused_two : System (List Nat) Nat :=
  { pool := { queue_ := [], thread_count_ := 2, active_count_ := 0,
              state_ := EPoolState.PAUSED, action_ := ⟨false, false⟩ }
    workers := [Worker.waiting, Worker.waiting]
    op := Op.idle }

/-- The pool of `cleared1` after `add_thread( 1 )` was called and its worker has run: the
worker took the `FINISH` left by `clear` and is gone, and `add_thread` waits for a thread
count of `1`. -/
def stuck1 : System (List Nat) Nat :=
  { pool := { queue_ := [7], thread_count_ := 0, active_count_ := 0,
              state_ := EPoolState.PAUSED, action_ := ⟨false, false⟩ }
    workers := [Worker.exited, Worker.exited]
    op := Op.add_thread 1 }

/-- The action flags and the thread count in each phase of the structural operations: outside
`remove_thread` and `clear` no flag is set, except for the `FINISH` that a returned `clear`
leaves behind on a pool without threads; `remove_thread` hands out one `FINISH` token, which
is gone once a worker has left; `clear` sets both flags, and the last worker to leave clears
`FINISH_ALL` only. -/
def FlagsOf (op : Op) (a : ActionSet) (tc : Nat) : Prop :=
  match op with
  | Op.idle => a = ⟨false, false⟩ ∨ (a = ⟨true, false⟩ ∧ tc = 0)
  | Op.add_thread _ => a = ⟨false, false⟩ ∨ (a = ⟨true, false⟩ ∧ tc = 0)
  | Op.remove_thread_1 _ new_count => a = ⟨false, false⟩ ∧ tc = new_count + 1
  | Op.remove_thread_2 _ new_count =>
    (a = ⟨true, false⟩ ∧ tc = new_count + 1) ∨ a = ⟨false, false⟩
  | Op.clear_1 => a = ⟨false, false⟩ ∧ tc ≠ 0
  | Op.clear_2 => (a = ⟨true, true⟩ ∧ tc ≠ 0) ∨ (a = ⟨true, false⟩ ∧ tc = 0)

/-- The invariant `FlagsOf` of a system. -/
def Flags {Q Task : Type} (s : System Q Task) : Prop :=
  FlagsOf s.op s.pool.action_ s.pool.thread_count_

/-- While `add_thread( k )`, called on a pool that holds a stale `FINISH`, waits: of the
`total` workers there are or were, either the flag is still there and no worker is inside
`routine`, or more than `total - k` workers have left. -/
def Stuck {Q Task : Type} (k total : Nat) (s : System Q Task) : Prop :=
  s.op = Op.add_thread k ∧ s.workers.length = total ∧
  ((s.pool.action_ = ⟨true, false⟩ ∧ s.workers.countP Worker.live = 0 ∧
      total ≤ s.workers.countP Worker.left + k) ∨
    total + 1 ≤ s.workers.countP Worker.left + k)

/-- The pool of `pending1` once the worker has taken task `7` and task `8` has been enqueued:
the state in which `add_thread( 1 )` is called. -/
def queued8 : System (List Nat) Nat :=
  { pool := { queue_ := [8], thread_count_ := 1, active_count_ := 1,
              state_ := EPoolState.EXECUTING, action_ := ⟨false, false⟩ }
    workers := [Worker.running 7]
    op := Op.idle }

/-- The pool of `queued8` when `add_thread( 1 )` has returned: its worker has taken task `8`. -/
def dequeued8 : System (List Nat) Nat :=
  { pool := { queue_ := [], thread_count_ := 2, active_count_ := 1,
              state_ := EPoolState.EXECUTING, action_ := ⟨false, false⟩ }
    workers := [Worker.running 7, Worker.running 8]
    op := Op.idle }

/-- The pool of `clearing1` once its worker has left: `clear` is about to return. -/
def clear_done1 : System (List Nat) Nat :=
  { pool := { queue_ := [7], thread_count_ := 0, active_count_ := 0,
              state_ := EPoolState.PAUSED, action_ := ⟨true, false⟩ }
    workers := [Worker.exited]
    op := Op.clear_2 }

section proofs
variable {Q Task : Type} [TaskQueue Q Task]

theorem countP_set_get {α : Type} (p : α → Bool) (l : List α) (i : Nat) (w w1 : α)
    (h : l[i]? = some w) :
    (l.set i w1).countP p + (if p w then 1 else 0) = l.countP p + (if p w1 then 1 else 0) := by
  induction l generalizing i with
  | nil => simp at h
  | cons a t ih =>
    cases i with
    | zero =>
      simp at h
      subst h
      simp [List.countP_cons]
      omega
    | succ j =>
      simp at h
      have := ih j h
      simp [List.countP_cons]
      omega

theorem countP_get_le {α : Type} (p : α → Bool) (l : List α) (i : Nat) (w : α)
    (h : l[i]? = some w) :
    (if p w then 1 else 0) ≤ l.countP p ∧ l.countP p + (if p w then 0 else 1) ≤ l.length := by
  induction l generalizing i with
  | nil => simp at h
  | cons a t ih =>
    cases i with
    | zero =>
      simp at h
      subst h
      have : t.countP p ≤ t.length := List.countP_le_length p
      simp only [List.countP_cons, List.length_cons]
      split_ifs <;> omega
    | succ j =>
      simp at h
      obtain ⟨h1, h2⟩ := ih j h
      simp only [List.countP_cons, List.length_cons]
      split_ifs at h1 h2 ⊢ <;> omega

theorem in_task_le_live (l : List (Worker Task)) :
    l.countP Worker.in_task ≤ l.countP Worker.live := by
  induction l with
  | nil => simp
  | cons a t ih =>
    cases a <;> simp [List.countP_cons, Worker.in_task, Worker.live] <;> omega

/-! ### The worker's critical section, case by case -/

@[simp] theorem loop_top_thread_count (p : thread_pool Q) :
    (loop_top p).thread_count_ = p.thread_count_ := by
  unfold loop_top; split <;> rfl

@[simp] theorem loop_top_queue (p : thread_pool Q) : (loop_top p).queue_ = p.queue_ := by
  unfold loop_top; split <;> rfl

@[simp] theorem loop_top_state (p : thread_pool Q) : (loop_top p).state_ = p.state_ := by
  unfold loop_top; split <;> rfl

@[simp] theorem loop_top_action (p : thread_pool Q) : (loop_top p).action_ = p.action_ := by
  unfold loop_top; split <;> rfl

theorem loop_top_active_count (p : thread_pool Q) :
    (loop_top p).active_count_ = if p.active_count_ ≠ 0 then decr p.active_count_ else 0 := by
  unfold loop_top; split <;> simp_all

@[simp] theorem wait_pred_loop_top (p : thread_pool Q) : wait_pred (loop_top p) = wait_pred p := by
  simp [wait_pred]

theorem select_cases (p : thread_pool Q) :
    (p.action_.FINISH = true ∧ select p = Selected.leave { p with action_ := leave_action p }) ∨
    (p.action_.FINISH = false ∧ TaskQueue.front p.queue_ = none ∧
      select p = Selected.undefined) ∨
    (∃ task, p.action_.FINISH = false ∧ TaskQueue.front p.queue_ = some task ∧
      select p = Selected.run task
        { p with queue_ := TaskQueue.pop p.queue_, active_count_ := incr p.active_count_ }) := by
  unfold select leave_action
  by_cases hF : p.action_.FINISH = true
  · left
    refine ⟨hF, ?_⟩
    simp only [hF, if_true]
    split
    · rfl
    · split <;> rfl
  · right
    have hF0 : p.action_.FINISH = false := by simpa using hF
    cases hq : TaskQueue.front p.queue_ with
    | none => left; simp [hF0]
    | some t => right; exact ⟨t, by simp [hF0]⟩

theorem after_wait_cases (p p1 : thread_pool Q) (w1 : Worker Task) (o : Obs Task)
    (h : after_wait p = (w1, p1, o)) :
    (p.action_.FINISH = true ∧ w1 = Worker.exited ∧ o = Obs.finished ∧
      p1 = on_thread_exit false { p with action_ := leave_action p }) ∨
    (p.action_.FINISH = false ∧ TaskQueue.front p.queue_ = none ∧ w1 = Worker.waiting ∧
      o = Obs.front_undefined ∧ p1 = p) ∨
    (∃ task, p.action_.FINISH = false ∧ TaskQueue.front p.queue_ = some task ∧
      w1 = Worker.running task ∧ o = Obs.started task ∧
      p1 = { p with queue_ := TaskQueue.pop p.queue_, active_count_ := incr p.active_count_ }) := by
  unfold after_wait at h
  rcases select_cases p with ⟨hF, hs⟩ | ⟨hF, hq, hs⟩ | ⟨t, hF, hq, hs⟩
  · rw [hs] at h
    simp only [Prod.mk.injEq] at h
    obtain ⟨rfl, rfl, rfl⟩ := h
    exact Or.inl ⟨hF, rfl, rfl, rfl⟩
  · rw [hs] at h
    simp only [Prod.mk.injEq] at h
    obtain ⟨rfl, rfl, rfl⟩ := h
    exact Or.inr (Or.inl ⟨hF, hq, rfl, rfl, rfl⟩)
  · rw [hs] at h
    simp only [Prod.mk.injEq] at h
    obtain ⟨rfl, rfl, rfl⟩ := h
    exact Or.inr (Or.inr ⟨t, hF, hq, rfl, rfl, rfl⟩)

theorem iteration_cases (p p1 : thread_pool Q) (w1 : Worker Task) (o : Obs Task)
    (h : iteration p = (w1, p1, o)) :
    (wait_pred p = false ∧ w1 = Worker.waiting ∧ o = Obs.sleeping ∧ p1 = loop_top p) ∨
    (wait_pred p = true ∧ after_wait (loop_top p) = (w1, p1, o)) := by
  unfold iteration at h
  simp only [wait_pred_loop_top] at h
  by_cases hw : wait_pred p = true
  · right
    rw [if_pos hw] at h
    exact ⟨hw, h⟩
  · left
    rw [if_neg hw] at h
    simp only [Prod.mk.injEq] at h
    obtain ⟨rfl, rfl, rfl⟩ := h
    exact ⟨by simpa using hw, rfl, rfl, rfl⟩

theorem routine_cases (w w1 : Worker Task) (p p1 : thread_pool Q) (o : Obs Task)
    (h : routine w p = some (w1, p1, o)) :
    (w = Worker.created ∧
      iteration { p with thread_count_ := incr p.thread_count_ } = (w1, p1, o)) ∨
    (∃ task, w = Worker.running task ∧ iteration p = (w1, p1, o)) ∨
    (w = Worker.waiting ∧ wait_pred p = true ∧ after_wait p = (w1, p1, o)) := by
  cases w with
  | created => left; simpa [routine] using h
  | running t => right; left; exact ⟨t, rfl, by simpa [routine] using h⟩
  | waiting =>
    right; right
    by_cases hw : wait_pred p = true
    · simp only [routine, hw, if_true, Option.some.injEq] at h
      exact ⟨rfl, hw, h⟩
    · simp [routine, hw] at h
  | exited => simp [routine] at h

theorem leave_action_fin (p : thread_pool Q)
    (hfin : p.action_.FINISH_ALL = true → p.action_.FINISH = true) :
    (leave_action p).FINISH_ALL = true → (leave_action p).FINISH = true := by
  unfold leave_action
  split
  · simp_all
  · split <;> simp_all

/-- Effect of one worker critical section on the two counters and the action flags, against the
true numbers `L` of live and `R` of running workers. -/
theorem routine_counts (w w1 : Worker Task) (p p1 : thread_pool Q) (o : Obs Task)
    (h : routine w p = some (w1, p1, o)) (L R : Nat)
    (hL : p.thread_count_ = L) (hR : p.active_count_ ≤ R)
    (hLb : L + (if w.live then 0 else 1) < SIZE_MOD)
    (hRb : R + (if w.in_task then 0 else 1) < SIZE_MOD)
    (hLw : (if w.live then 1 else 0) ≤ L)
    (hRw : (if w.in_task then 1 else 0) ≤ R)
    (hfin : p.action_.FINISH_ALL = true → p.action_.FINISH = true) :
    p1.thread_count_ + (if w.live then 1 else 0) = L + (if w1.live then 1 else 0) ∧
    p1.active_count_ + (if w.in_task then 1 else 0) ≤ R + (if w1.in_task then 1 else 0) ∧
    (p1.action_.FINISH_ALL = true → p1.action_.FINISH = true) := by
  have hla := leave_action_fin p hfin
  rcases routine_cases w w1 p p1 o h with ⟨rfl, hi⟩ | ⟨t, rfl, hi⟩ | ⟨rfl, hw, ha⟩
  · rcases iteration_cases _ _ _ _ hi with ⟨_, rfl, rfl, rfl⟩ | ⟨_, ha⟩
    · simp [Worker.live, Worker.in_task, SIZE_MOD, loop_top_active_count, incr, decr] at *
      refine ⟨by omega, ?_, hfin⟩
      split <;> omega
    · rcases after_wait_cases _ _ _ _ ha with ⟨_, rfl, rfl, rfl⟩ | ⟨_, _, rfl, rfl, rfl⟩ |
        ⟨t, _, _, rfl, rfl, rfl⟩
      all_goals
        simp [Worker.live, Worker.in_task, SIZE_MOD, loop_top_active_count, incr, decr,
          on_thread_exit] at *
      · refine ⟨by omega, ?_, leave_action_fin _ (by simpa using hfin)⟩
        split <;> omega
      · refine ⟨by omega, ?_, hfin⟩
        split <;> omega
      · refine ⟨by omega, ?_, hfin⟩
        split <;> omega
  · rcases iteration_cases _ _ _ _ hi with ⟨_, rfl, rfl, rfl⟩ | ⟨_, ha⟩
    · simp [Worker.live, Worker.in_task, SIZE_MOD, loop_top_active_count, incr, decr] at *
      refine ⟨by omega, ?_, hfin⟩
      split <;> omega
    · rcases after_wait_cases _ _ _ _ ha with ⟨_, rfl, rfl, rfl⟩ | ⟨_, _, rfl, rfl, rfl⟩ |
        ⟨t, _, _, rfl, rfl, rfl⟩
      all_goals
        simp [Worker.live, Worker.in_task, SIZE_MOD, loop_top_active_count, incr, decr,
          on_thread_exit] at *
      · refine ⟨by omega, ?_, leave_action_fin _ (by simpa using hfin)⟩
        split <;> omega
      · refine ⟨by omega, ?_, hfin⟩
        split <;> omega
      · refine ⟨by omega, ?_, hfin⟩
        split <;> omega
  · rcases after_wait_cases _ _ _ _ ha with ⟨_, rfl, rfl, rfl⟩ | ⟨_, _, rfl, rfl, rfl⟩ |
      ⟨t, _, _, rfl, rfl, rfl⟩
    all_goals
      simp [Worker.live, Worker.in_task, SIZE_MOD, incr, decr, on_thread_exit] at *
    · exact ⟨by omega, by omega, hla⟩
    · exact ⟨by omega, by omega, hfin⟩
    · exact ⟨by omega, by omega, hfin⟩

/-! ### The inductive invariant -/

end proofs

section frames
variable {Q Task : Type}

theorem Inv.frame {s s1 : System Q Task} (hs : Inv s) (hw : s1.workers = s.workers)
    (ht : s1.pool.thread_count_ = s.pool.thread_count_)
    (ha : s1.pool.active_count_ = s.pool.active_count_)
    (hf : s1.pool.action_.FINISH_ALL = true → s1.pool.action_.FINISH = true) : Inv s1 := by
  refine ⟨?_, ?_, ?_, hf⟩
  · rw [hw]; exact hs.len
  · rw [ht, hs.tc]; simp [System.live_count, hw]
  · rw [ha]; simpa [System.running_count, hw] using hs.ac

end frames

section proofs
variable {Q Task : Type} [TaskQueue Q Task]

theorem countP_replicate_created (p : Worker Task → Bool) (hp : p Worker.created = false)
    (n : Nat) : (List.replicate n (Worker.created : Worker Task)).countP p = 0 := by
  induction n with
  | zero => simp
  | succ n ih => simp [List.replicate_succ, List.countP_cons, hp, ih]

theorem construct_inv (n : Nat) (hn : n < SIZE_MOD) : Inv (construct n : System Q Task) := by
  refine ⟨?_, ?_, ?_, ?_⟩
  · simpa [construct] using hn
  · simp only [construct, add_thread, add_thread_wait, System.live_count]
    rw [countP_replicate_created _ rfl]
    split <;> rfl
  · simp only [construct, add_thread, add_thread_wait]
    split <;> simp [thread_pool.init]
  · simp only [construct, add_thread, add_thread_wait]
    split <;> simp [thread_pool.init]

end proofs

section frames
variable {Q Task : Type}

theorem add_thread_wait_pool (n : Nat) (p : thread_pool Q) :
    (add_thread_wait n p : thread_pool Q × Op × Obs Task).1 = p := by
  unfold add_thread_wait; split <;> rfl

theorem remove_thread_wait2_framed (st : EPoolState) (n : Nat) (p : thread_pool Q) :
    Framed p (remove_thread_wait2 st n p : thread_pool Q × Op × Obs Task).1 := by
  unfold remove_thread_wait2 set_state_back Framed
  split
  · split <;> simp
  · simp

theorem remove_thread_wait1_framed (st : EPoolState) (n : Nat) (p : thread_pool Q) :
    Framed p (remove_thread_wait1 st n p : thread_pool Q × Op × Obs Task).1 := by
  unfold remove_thread_wait1
  split
  · have := @remove_thread_wait2_framed Q Task st n
      { p with action_ := { p.action_ with FINISH := true } }
    unfold Framed at this ⊢
    simp at this
    exact ⟨this.1, this.2.1, fun _ => this.2.2.1, fun _ => this.2.2.2⟩
  · simp [Framed]

theorem remove_thread_framed (p : thread_pool Q) :
    Framed p (remove_thread p : thread_pool Q × Op × Obs Task).1 := by
  unfold remove_thread
  split
  · simp [Framed]
  · have := @remove_thread_wait1_framed Q Task p.state_ (p.thread_count_ - 1)
      { p with state_ := EPoolState.PAUSED }
    exact this

theorem clear_wait2_pool (p : thread_pool Q) :
    (clear_wait2 p : thread_pool Q × Op × Obs Task).1 = p := by
  unfold clear_wait2; split <;> rfl

theorem clear_wait1_framed (p : thread_pool Q) :
    Framed p (clear_wait1 p : thread_pool Q × Op × Obs Task).1 := by
  unfold clear_wait1
  split
  · rw [clear_wait2_pool]; simp [Framed]
  · simp [Framed]

theorem clear_framed (p : thread_pool Q) :
    Framed p (clear p : thread_pool Q × Op × Obs Task).1 := by
  unfold clear
  split
  · simp [Framed]
  · exact @clear_wait1_framed Q Task { p with state_ := EPoolState.PAUSED }

theorem Inv.framed {s s1 : System Q Task} (hs : Inv s) (hw : s1.workers = s.workers)
    (hf : Framed s.pool s1.pool) : Inv s1 :=
  hs.frame hw hf.1 hf.2.1 (hf.2.2.1 hs.fin)

end frames

section proofs
variable {Q Task : Type} [TaskQueue Q Task]

theorem step_worker {s s1 : System Q Task} {i : Nat} {o : Obs Task}
    (h : step s (Event.worker i) = some (s1, o)) :
    ∃ w w1, s.workers[i]? = some w ∧ routine w s.pool = some (w1, s1.pool, o) ∧
      s1.workers = s.workers.set i w1 ∧ s1.op = s.op := by
  simp only [step] at h
  split at h
  · simp at h
  · rename_i w hw
    split at h
    · simp at h
    · rename_i r hr
      simp only [Option.some.injEq, Prod.mk.injEq] at h
      obtain ⟨rfl, rfl⟩ := h
      exact ⟨w, r.1, hw, hr, rfl, rfl⟩

theorem step_client {s s1 : System Q Task} {e : Event Task} {o : Obs Task}
    (h : step s e = some (s1, o)) (he : ∀ i, e ≠ Event.worker i) :
    Framed s.pool s1.pool ∧
    ∃ k, s1.workers = s.workers ++ List.replicate k Worker.created ∧
      (k = 0 ∨ s.workers.length + k < SIZE_MOD) := by
  cases e with
  | worker i => exact absurd rfl (he i)
  | add_thread k r =>
    simp only [step] at h
    split at h
    · rename_i hc
      simp only [Option.some.injEq, Prod.mk.injEq] at h
      obtain ⟨rfl, -⟩ := h
      refine ⟨?_, k, rfl, Or.inr hc.2⟩
      simp only [add_thread, add_thread_wait_pool]
      simp [Framed]
    · simp at h
  | remove_thread =>
    simp only [step] at h
    split at h
    · simp only [Option.some.injEq, Prod.mk.injEq] at h
      obtain ⟨rfl, -⟩ := h
      exact ⟨remove_thread_framed _, 0, by simp, Or.inl rfl⟩
    · simp at h
  | clear =>
    simp only [step] at h
    split at h
    · simp only [Option.some.injEq, Prod.mk.injEq] at h
      obtain ⟨rfl, -⟩ := h
      exact ⟨clear_framed _, 0, by simp, Or.inl rfl⟩
    · simp at h
  | client_wake =>
    simp only [step] at h
    split at h
    all_goals simp only [Option.some.injEq, Prod.mk.injEq, reduceCtorEq] at h
    all_goals obtain ⟨rfl, -⟩ := h
    · exact ⟨by rw [add_thread_wait_pool]; simp [Framed], 0, by simp, Or.inl rfl⟩
    · exact ⟨remove_thread_wait1_framed _ _ _, 0, by simp, Or.inl rfl⟩
    · exact ⟨remove_thread_wait2_framed _ _ _, 0, by simp, Or.inl rfl⟩
    · exact ⟨clear_wait1_framed _, 0, by simp, Or.inl rfl⟩
    · exact ⟨by rw [clear_wait2_pool]; simp [Framed], 0, by simp, Or.inl rfl⟩
  | enqueue t =>
    simp only [step, Option.some.injEq, Prod.mk.injEq] at h
    obtain ⟨rfl, -⟩ := h
    exact ⟨by simp [Framed, enqueue], 0, by simp, Or.inl rfl⟩
  | enqueue_range ts =>
    simp only [step, Option.some.injEq, Prod.mk.injEq] at h
    obtain ⟨rfl, -⟩ := h
    exact ⟨by simp [Framed, enqueue_range], 0, by simp, Or.inl rfl⟩
  | discard_queue =>
    simp only [step, Option.some.injEq, Prod.mk.injEq] at h
    obtain ⟨rfl, -⟩ := h
    exact ⟨by simp [Framed, discard_queue], 0, by simp, Or.inl rfl⟩
  | pause =>
    simp only [step, Option.some.injEq, Prod.mk.injEq] at h
    obtain ⟨rfl, -⟩ := h
    exact ⟨by unfold pause Framed; split <;> simp, 0, by simp, Or.inl rfl⟩
  | resume =>
    simp only [step, Option.some.injEq, Prod.mk.injEq] at h
    obtain ⟨rfl, -⟩ := h
    exact ⟨by unfold resume Framed; split <;> split <;> simp, 0, by simp, Or.inl rfl⟩
  | join =>
    simp only [step, Option.some.injEq, Prod.mk.injEq] at h
    obtain ⟨rfl, -⟩ := h
    exact ⟨by unfold join Framed; split <;> simp, 0, by simp, Or.inl rfl⟩

theorem step_inv {s s1 : System Q Task} {e : Event Task} {o : Obs Task} (hs : Inv s)
    (h : step s e = some (s1, o)) : Inv s1 := by
  by_cases he : ∃ i, e = Event.worker i
  · obtain ⟨i, rfl⟩ := he
    obtain ⟨w, w1, hw, hr, hws, -⟩ := step_worker h
    have hl1 := countP_get_le Worker.live s.workers i w hw
    have hr1 := countP_get_le Worker.in_task s.workers i w hw
    have hle := in_task_le_live s.workers
    have hlen := hs.len
    have hc := routine_counts w w1 s.pool s1.pool o hr s.live_count s.running_count hs.tc hs.ac
      (by unfold System.live_count; omega) (by unfold System.running_count; omega)
      hl1.1 hr1.1 hs.fin
    have hsl := countP_set_get Worker.live s.workers i w w1 hw
    have hsr := countP_set_get Worker.in_task s.workers i w w1 hw
    refine ⟨by simpa [hws] using hlen, ?_, ?_, hc.2.2⟩
    · simp only [System.live_count, hws] at hc ⊢
      omega
    · simp only [System.running_count, hws] at hc ⊢
      omega
  · have he1 : ∀ i, e ≠ Event.worker i := fun i hi => he ⟨i, hi⟩
    obtain ⟨hf, k, hk, hb⟩ := step_client h he1
    refine ⟨?_, ?_, ?_, hf.2.2.1 hs.fin⟩
    · have := hs.len
      rcases hb with rfl | hb
      · simpa [hk] using this
      · simpa [hk] using hb
    · rw [hf.1, hs.tc]
      simp only [System.live_count, hk, List.countP_append]
      rw [countP_replicate_created _ rfl]
      rfl
    · rw [hf.2.1]
      simp only [System.running_count, hk, List.countP_append]
      rw [countP_replicate_created _ rfl]
      exact hs.ac

theorem reachable_inv {n : Nat} {s : System Q Task} (h : Reachable n s) : Inv s := by
  induction h with
  | construct hn => exact construct_inv n hn
  | step _ hstep ih => exact step_inv ih hstep

theorem reachable_run {n : Nat} {s s1 : System Q Task} (evs : List (Event Task))
    {os : List (Obs Task)} (h : Reachable n s) (hr : run s evs = some (s1, os)) :
    Reachable n s1 := by
  induction evs generalizing s os with
  | nil =>
    simp only [run, Option.some.injEq, Prod.mk.injEq] at hr
    exact hr.1 ▸ h
  | cons e es ih =>
    simp only [run] at hr
    split at hr
    · simp at hr
    · rename_i s2 o hstep
      split at hr
      · simp at hr
      · rename_i s3 os3 hrest
        simp only [Option.some.injEq, Prod.mk.injEq] at hr
        obtain ⟨rfl, -⟩ := hr
        exact ih (Reachable.step h hstep) hrest

/-- A worker critical section moves `active_count_` by at most one, and what it reads of the
pool before selecting is the state, queue and flags it found. -/
theorem routine_active_delta (w w1 : Worker Task) (p p1 : thread_pool Q) (o : Obs Task)
    (h : routine w p = some (w1, p1, o))
    (hb : p.active_count_ + (if w.in_task then 0 else 1) < SIZE_MOD) :
    p1.active_count_ ≤ p.active_count_ + 1 ∧ p.active_count_ ≤ p1.active_count_ + 1 := by
  rcases routine_cases w w1 p p1 o h with ⟨rfl, hi⟩ | ⟨t, rfl, hi⟩ | ⟨rfl, hw, ha⟩
  · rcases iteration_cases _ _ _ _ hi with ⟨_, rfl, rfl, rfl⟩ | ⟨_, ha⟩
    · simp [Worker.in_task, SIZE_MOD, loop_top_active_count, decr] at *
      split <;> omega
    · rcases after_wait_cases _ _ _ _ ha with ⟨_, rfl, rfl, rfl⟩ | ⟨_, _, rfl, rfl, rfl⟩ |
        ⟨t, _, _, rfl, rfl, rfl⟩
      all_goals
        simp [Worker.in_task, SIZE_MOD, loop_top_active_count, incr, decr, on_thread_exit] at *
      all_goals split <;> omega
  · rcases iteration_cases _ _ _ _ hi with ⟨_, rfl, rfl, rfl⟩ | ⟨_, ha⟩
    · simp [Worker.in_task, SIZE_MOD, loop_top_active_count, decr] at *
      split <;> omega
    · rcases after_wait_cases _ _ _ _ ha with ⟨_, rfl, rfl, rfl⟩ | ⟨_, _, rfl, rfl, rfl⟩ |
        ⟨t, _, _, rfl, rfl, rfl⟩
      all_goals
        simp [Worker.in_task, SIZE_MOD, loop_top_active_count, incr, decr, on_thread_exit] at *
      all_goals split <;> omega
  · rcases after_wait_cases _ _ _ _ ha with ⟨_, rfl, rfl, rfl⟩ | ⟨_, _, rfl, rfl, rfl⟩ |
      ⟨t, _, _, rfl, rfl, rfl⟩
    all_goals
      simp [Worker.in_task, SIZE_MOD, incr, decr, on_thread_exit] at *
    all_goals omega

/-- Any step moves each counter by at most one: no `++` or `--` wraps around. -/
theorem step_counter_delta {s s1 : System Q Task} {e : Event Task} {o : Obs Task} (hs : Inv s)
    (h : step s e = some (s1, o)) :
    s1.pool.thread_count_ ≤ s.pool.thread_count_ + 1 ∧
    s.pool.thread_count_ ≤ s1.pool.thread_count_ + 1 ∧
    s1.pool.active_count_ ≤ s.pool.active_count_ + 1 ∧
    s.pool.active_count_ ≤ s1.pool.active_count_ + 1 := by
  by_cases he : ∃ i, e = Event.worker i
  · obtain ⟨i, rfl⟩ := he
    obtain ⟨w, w1, hw, hr, hws, -⟩ := step_worker h
    have hl1 := countP_get_le Worker.live s.workers i w hw
    have hr1 := countP_get_le Worker.in_task s.workers i w hw
    have hle := in_task_le_live s.workers
    have hlen := hs.len
    have htc := hs.tc
    have hac := hs.ac
    simp only [System.live_count, System.running_count] at htc hac
    have hc := routine_counts w w1 s.pool s1.pool o hr s.live_count s.running_count hs.tc hs.ac
      (by unfold System.live_count; omega) (by unfold System.running_count; omega)
      hl1.1 hr1.1 hs.fin
    have hd := routine_active_delta w w1 s.pool s1.pool o hr (by omega)
    refine ⟨?_, ?_, hd.1, hd.2⟩
    · have := hc.1
      simp only [System.live_count] at this
      split at this <;> split at this <;> omega
    · have := hc.1
      simp only [System.live_count] at this
      split at this <;> split at this <;> omega
  · have he1 : ∀ i, e ≠ Event.worker i := fun i hi => he ⟨i, hi⟩
    obtain ⟨hf, -⟩ := step_client h he1
    rw [hf.1, hf.2.1]
    omega

/-- A worker never clears `FINISH` while `FINISH_ALL` is set. -/
theorem routine_keeps_finish (w w1 : Worker Task) (p p1 : thread_pool Q) (o : Obs Task)
    (h : routine w p = some (w1, p1, o)) (hall : p.action_.FINISH_ALL = true)
    (hfin : p.action_.FINISH = true) : p1.action_.FINISH = true := by
  have hl : ∀ q : thread_pool Q, q.action_ = p.action_ → (leave_action q).FINISH = true := by
    intro q hq
    unfold leave_action
    rw [hq]
    simp only [hall, Bool.not_true, Bool.false_eq_true, if_false]
    split <;> simp [hfin]
  rcases routine_cases w w1 p p1 o h with ⟨rfl, hi⟩ | ⟨t, rfl, hi⟩ | ⟨rfl, hw, ha⟩
  · rcases iteration_cases _ _ _ _ hi with ⟨_, rfl, rfl, rfl⟩ | ⟨_, ha⟩
    · simpa using hfin
    · rcases after_wait_cases _ _ _ _ ha with ⟨_, rfl, rfl, rfl⟩ | ⟨_, _, rfl, rfl, rfl⟩ |
        ⟨t, _, _, rfl, rfl, rfl⟩
      · simpa [on_thread_exit] using hl _ (by simp)
      · simpa using hfin
      · simpa using hfin
  · rcases iteration_cases _ _ _ _ hi with ⟨_, rfl, rfl, rfl⟩ | ⟨_, ha⟩
    · simpa using hfin
    · rcases after_wait_cases _ _ _ _ ha with ⟨_, rfl, rfl, rfl⟩ | ⟨_, _, rfl, rfl, rfl⟩ |
        ⟨t, _, _, rfl, rfl, rfl⟩
      · simpa [on_thread_exit] using hl _ (by simp)
      · simpa using hfin
      · simpa using hfin
  · rcases after_wait_cases _ _ _ _ ha with ⟨_, rfl, rfl, rfl⟩ | ⟨_, _, rfl, rfl, rfl⟩ |
      ⟨t, _, _, rfl, rfl, rfl⟩
    · simpa [on_thread_exit] using hl _ rfl
    · simpa using hfin
    · simpa using hfin

/-- A worker that reaches `queue_.front()` (line 352) found the pool executing, the queue
non-empty and no flag set, provided the flags were well-formed. -/
theorem routine_front_guard (w w1 : Worker Task) (p p1 : thread_pool Q) (o : Obs Task)
    (h : routine w p = some (w1, p1, o))
    (hfin : p.action_.FINISH_ALL = true → p.action_.FINISH = true)
    (ho : o = Obs.front_undefined ∨ ∃ task, o = Obs.started task) :
    p.state_ = EPoolState.EXECUTING ∧ TaskQueue.empty p.queue_ = false ∧
      p.action_.any = false := by
  have key : ∀ q : thread_pool Q, q.action_ = p.action_ → q.state_ = p.state_ →
      q.queue_ = p.queue_ → wait_pred q = true → q.action_.FINISH = false →
      p.state_ = EPoolState.EXECUTING ∧ TaskQueue.empty p.queue_ = false ∧
        p.action_.any = false := by
    intro q ha hs hq hw hF
    rw [ha] at hF
    have hA : p.action_.FINISH_ALL = false := by
      cases hx : p.action_.FINISH_ALL with
      | false => rfl
      | true => rw [hfin hx] at hF; exact absurd hF (by decide)
    simp only [wait_pred, ha, hs, hq, ActionSet.any, hF, hA, Bool.or_self, Bool.false_or,
      Bool.and_eq_true, bne_iff_ne, ne_eq, Bool.not_eq_true'] at hw
    refine ⟨?_, hw.2, by simp [ActionSet.any, hF, hA]⟩
    cases hst : p.state_ with
    | PAUSED => exact absurd hst hw.1
    | EXECUTING => rfl
  rcases routine_cases w w1 p p1 o h with ⟨rfl, hi⟩ | ⟨t, rfl, hi⟩ | ⟨rfl, hw, ha⟩
  · rcases iteration_cases _ _ _ _ hi with ⟨_, rfl, rfl, rfl⟩ | ⟨hw, ha⟩
    · rcases ho with ho | ⟨t, ho⟩ <;> exact absurd ho (by simp)
    · rcases after_wait_cases _ _ _ _ ha with ⟨_, rfl, rfl, rfl⟩ | ⟨hF, _, rfl, rfl, rfl⟩ |
        ⟨t, hF, _, rfl, rfl, rfl⟩
      · rcases ho with ho | ⟨t, ho⟩ <;> exact absurd ho (by simp)
      · exact key _ (by simp) (by simp) (by simp) (by simpa using hw) hF
      · exact key _ (by simp) (by simp) (by simp) (by simpa using hw) hF
  · rcases iteration_cases _ _ _ _ hi with ⟨_, rfl, rfl, rfl⟩ | ⟨hw, ha⟩
    · rcases ho with ho | ⟨t, ho⟩ <;> exact absurd ho (by simp)
    · rcases after_wait_cases _ _ _ _ ha with ⟨_, rfl, rfl, rfl⟩ | ⟨hF, _, rfl, rfl, rfl⟩ |
        ⟨t, hF, _, rfl, rfl, rfl⟩
      · rcases ho with ho | ⟨t, ho⟩ <;> exact absurd ho (by simp)
      · exact key _ (by simp) (by simp) (by simp) (by simpa using hw) hF
      · exact key _ (by simp) (by simp) (by simp) (by simpa using hw) hF
  · rcases after_wait_cases _ _ _ _ ha with ⟨_, rfl, rfl, rfl⟩ | ⟨hF, _, rfl, rfl, rfl⟩ |
      ⟨t, hF, _, rfl, rfl, rfl⟩
    · rcases ho with ho | ⟨t, ho⟩ <;> exact absurd ho (by simp)
    · exact key _ rfl rfl rfl hw hF
    · exact key _ rfl rfl rfl hw hF

/-- A worker that found nothing at `queue_.front()` was looking at a queue whose `front` is
undefined; the queue seen at line 352 is the queue of the pool at the start of the step. -/
theorem routine_front_undefined (w w1 : Worker Task) (p p1 : thread_pool Q) (o : Obs Task)
    (h : routine w p = some (w1, p1, o)) (ho : o = Obs.front_undefined) :
    TaskQueue.front p.queue_ = none := by
  subst ho
  rcases routine_cases w w1 p p1 _ h with ⟨rfl, hi⟩ | ⟨t, rfl, hi⟩ | ⟨rfl, hw, ha⟩
  · rcases iteration_cases _ _ _ _ hi with ⟨_, _, ho, _⟩ | ⟨_, ha⟩
    · exact absurd ho (by simp)
    · rcases after_wait_cases _ _ _ _ ha with ⟨_, _, ho, _⟩ | ⟨_, hq, _, _, _⟩ |
        ⟨t, _, _, _, ho, _⟩
      · exact absurd ho (by simp)
      · simpa using hq
      · exact absurd ho (by simp)
  · rcases iteration_cases _ _ _ _ hi with ⟨_, _, ho, _⟩ | ⟨_, ha⟩
    · exact absurd ho (by simp)
    · rcases after_wait_cases _ _ _ _ ha with ⟨_, _, ho, _⟩ | ⟨_, hq, _, _, _⟩ |
        ⟨t, _, _, _, ho, _⟩
      · exact absurd ho (by simp)
      · simpa using hq
      · exact absurd ho (by simp)
  · rcases after_wait_cases _ _ _ _ ha with ⟨_, _, ho, _⟩ | ⟨_, hq, _, _, _⟩ |
      ⟨t, _, _, _, ho, _⟩
    · exact absurd ho (by simp)
    · exact hq
    · exact absurd ho (by simp)

theorem leave_action_congr (p q : thread_pool Q) (ha : q.action_ = p.action_)
    (ht : q.thread_count_ = p.thread_count_) : leave_action q = leave_action p := by
  unfold leave_action
  rw [ha, ht]

/-- A worker critical section on a paused pool: the queue and the state stay, the worker either
goes to sleep or leaves through `FINISH`. -/
theorem routine_paused (w w1 : Worker Task) (p p1 : thread_pool Q) (o : Obs Task)
    (h : routine w p = some (w1, p1, o)) (hP : p.state_ = EPoolState.PAUSED)
    (hfin : p.action_.FINISH_ALL = true → p.action_.FINISH = true) :
    w1 ≠ Worker.created ∧ p1.queue_ = p.queue_ ∧ p1.state_ = p.state_ ∧
    (w ≠ Worker.created →
      (p.action_.FINISH = false ∧ p1.action_ = p.action_ ∧
        p1.thread_count_ = p.thread_count_) ∨
      (p.action_.FINISH = true ∧ p1.action_ = leave_action p ∧
        p1.thread_count_ = decr p.thread_count_)) := by
  have hno : ¬ (o = Obs.front_undefined ∨ ∃ task, o = Obs.started task) := by
    intro ho
    have := (routine_front_guard w w1 p p1 o h hfin ho).1
    rw [hP] at this
    exact absurd this (by decide)
  have hF : p.action_.FINISH = false ∨ p.action_.FINISH = true := by
    cases p.action_.FINISH <;> simp
  rcases routine_cases w w1 p p1 o h with ⟨rfl, hi⟩ | ⟨t, rfl, hi⟩ | ⟨rfl, hw, ha⟩
  · rcases iteration_cases _ _ _ _ hi with ⟨_, rfl, rfl, rfl⟩ | ⟨hw, ha⟩
    · exact ⟨by simp, by simp, by simp, fun hc => absurd rfl hc⟩
    · rcases after_wait_cases _ _ _ _ ha with ⟨_, rfl, rfl, rfl⟩ | ⟨_, _, rfl, rfl, rfl⟩ |
        ⟨t, _, _, rfl, rfl, rfl⟩
      · exact ⟨by simp, by simp [on_thread_exit], by simp [on_thread_exit],
          fun hc => absurd rfl hc⟩
      · exact absurd (Or.inl rfl) hno
      · exact absurd (Or.inr ⟨t, rfl⟩) hno
  · rcases iteration_cases _ _ _ _ hi with ⟨hw, rfl, rfl, rfl⟩ | ⟨hw, ha⟩
    · refine ⟨by simp, by simp, by simp, fun _ => Or.inl ⟨?_, by simp, by simp⟩⟩
      cases hx : p.action_.FINISH with
      | false => rfl
      | true => simp [wait_pred, ActionSet.any, hx] at hw
    · rcases after_wait_cases _ _ _ _ ha with ⟨hx, rfl, rfl, rfl⟩ | ⟨_, _, rfl, rfl, rfl⟩ |
        ⟨t, _, _, rfl, rfl, rfl⟩
      · refine ⟨by simp, by simp [on_thread_exit], by simp [on_thread_exit],
          fun _ => Or.inr ⟨by simpa using hx, ?_, by simp [on_thread_exit]⟩⟩
        simp only [on_thread_exit, Bool.false_eq_true, if_false]
        exact leave_action_congr _ _ (by simp) (by simp)
      · exact absurd (Or.inl rfl) hno
      · exact absurd (Or.inr ⟨t, rfl⟩) hno
  · rcases after_wait_cases _ _ _ _ ha with ⟨hx, rfl, rfl, rfl⟩ | ⟨_, _, rfl, rfl, rfl⟩ |
      ⟨t, _, _, rfl, rfl, rfl⟩
    · exact ⟨by simp, by simp [on_thread_exit], by simp [on_thread_exit],
        fun _ => Or.inr ⟨hx, by simp [on_thread_exit], by simp [on_thread_exit]⟩⟩
    · exact absurd (Or.inl rfl) hno
    · exact absurd (Or.inr ⟨t, rfl⟩) hno

end proofs

section claims
variable {Q Task : Type} [TaskQueue Q Task]

theorem pending1_run :
    run (construct 1) to_pending1 =
      some (pending1, [Obs.sleeping, Obs.returned, Obs.returned]) := by
  decide

theorem pending1_reachable : Reachable 1 pending1 :=
  reachable_run to_pending1 (Reachable.construct (by decide)) pending1_run

/-- C1: in every state reachable from `construct(n)` by client operations and worker critical
sections, `0 ≤ active_count_ ≤ thread_count_`; `thread_count_` is the exact number of live
workers, the `++` of an entering worker cannot wrap, and every step moves each counter by at most
one, so no `--` ever takes a counter below zero (which would show as a jump to `2^64 - 1`). -/
theorem C1_active_le_thread_count (n : Nat) (s : System Q Task) (h : Reachable n s) :
    0 ≤ s.pool.active_count_ ∧ s.pool.active_count_ ≤ s.pool.thread_count_ ∧
    s.pool.thread_count_ = s.live_count ∧
    (∀ i : Nat, s.workers[i]? = some Worker.created → s.pool.thread_count_ + 1 < SIZE_MOD) ∧
    ∀ e s1 o, step s e = some (s1, o) →
      s1.pool.thread_count_ ≤ s.pool.thread_count_ + 1 ∧
      s.pool.thread_count_ ≤ s1.pool.thread_count_ + 1 ∧
      s1.pool.active_count_ ≤ s.pool.active_count_ + 1 ∧
      s.pool.active_count_ ≤ s1.pool.active_count_ + 1 := by
  have hs := reachable_inv h
  refine ⟨Nat.zero_le _, ?_, hs.tc, ?_, fun e s1 o hstep => step_counter_delta hs hstep⟩
  · have := in_task_le_live s.workers
    have h1 := hs.tc
    have h2 := hs.ac
    simp only [System.live_count, System.running_count] at h1 h2
    omega
  · intro i hi
    have := (countP_get_le Worker.live s.workers i Worker.created hi).2
    have h1 := hs.tc
    have h2 := hs.len
    simp only [System.live_count, Worker.live] at h1 this
    simp at this
    omega

/-- Witness for C1 at the pool of one worker with one pending task. -/
theorem C1_witness :
    Reachable 1 pending1 ∧ pending1.pool.active_count_ ≤ pending1.pool.thread_count_ :=
  ⟨pending1_reachable, (C1_active_le_thread_count 1 pending1 pending1_reachable).2.1⟩

/-- C2 (fails on the code): `active_count_` is meant to be the number of workers running a
task, but a worker entering the loop executes `if ( active_count_ ) -- active_count_` (line 331)
without having been active. In the schedule below, run from the constructor, worker 0 is running task `7` when
`add_thread( 1 )` brings in worker 1: afterwards `active_count_ == 0` while one worker is in a
task. -/
theorem C2_active_count_undercounts :
    run (construct 1) (to_pending1 ++ add_while_running.take 3) =
      some ({ undercounted with op := Op.add_thread 2 },
        [Obs.sleeping, Obs.returned, Obs.returned,
          Obs.started 7, Obs.blocked, Obs.sleeping]) ∧
    to_pending1 ++ add_while_running.take 3 =
      [Event.worker 0, Event.client_wake, Event.enqueue 7,
        Event.worker 0, Event.add_thread 1 true, Event.worker 1] ∧
    undercounted.workers = [Worker.running 7, Worker.waiting] ∧
    undercounted.running_count = 1 ∧ undercounted.pool.active_count_ = 0 ∧
    undercounted.pool.thread_count_ = 2 := by
  decide

/-- C3: in every reachable state, a worker step that dequeues and starts a task happens only
with `state_ == EXECUTING`, a non-empty queue and an empty action set (hence never while
`PAUSED`), and no worker step evaluates `queue_.front()` on an empty queue. -/
theorem C3_dequeue_only_when_executing (n : Nat) (s s1 : System Q Task) (i : Nat)
    (o : Obs Task) (h : Reachable n s) (hstep : step s (Event.worker i) = some (s1, o)) :
    o ≠ Obs.front_undefined ∧
    ∀ task, o = Obs.started task →
      s.pool.state_ = EPoolState.EXECUTING ∧ TaskQueue.empty s.pool.queue_ = false ∧
        s.pool.action_.any = false := by
  obtain ⟨w, w1, -, hr, -, -⟩ := step_worker hstep
  have hfin := (reachable_inv h).fin
  refine ⟨?_, fun task ho => routine_front_guard w w1 s.pool s1.pool o hr hfin
    (Or.inr ⟨task, ho⟩)⟩
  intro ho
  have h1 := (routine_front_guard w w1 s.pool s1.pool o hr hfin (Or.inl ho)).2.1
  have h2 := (TaskQueue.front_none s.pool.queue_).1
    (routine_front_undefined w w1 s.pool s1.pool o hr ho)
  rw [h1] at h2
  exact absurd h2 (by decide)

/-- Witness for C3: the worker of `pending1` takes task `7`. -/
theorem C3_witness :
    (Obs.started 7 : Obs Nat) ≠ Obs.front_undefined ∧
    ∀ task, Obs.started 7 = Obs.started task →
      pending1.pool.state_ = EPoolState.EXECUTING ∧
        TaskQueue.empty pending1.pool.queue_ = false ∧ pending1.pool.action_.any = false :=
  C3_dequeue_only_when_executing 1 pending1
    { pool := { queue_ := [], thread_count_ := 1, active_count_ := 1,
                state_ := EPoolState.EXECUTING, action_ := ⟨false, false⟩ }
      workers := [Worker.running 7]
      op := Op.idle }
    0 (Obs.started 7) pending1_reachable (by decide)

/-- C5: `join` returns exactly when it finds `queue_.empty() && active_count_ == 0` and
otherwise blocks; it changes no field of the pool (nor the workers or the operation in
progress); on an empty idle pool it returns at once; and a `join` after a `join` that returned
returns likewise in the same state. -/
theorem C5_join_waits_for_idle (s : System Q Task) :
    step s Event.join = some (s, (join s.pool : thread_pool Q × Obs Task).2) ∧
    (join s.pool : thread_pool Q × Obs Task).1 = s.pool ∧
    ((join s.pool : thread_pool Q × Obs Task).2 = Obs.returned ↔
      (TaskQueue.empty s.pool.queue_ = true ∧ s.pool.active_count_ = 0)) ∧
    ((join s.pool : thread_pool Q × Obs Task).2 = Obs.returned ∨
      (join s.pool : thread_pool Q × Obs Task).2 = Obs.blocked) ∧
    (join (join s.pool : thread_pool Q × Obs Task).1 : thread_pool Q × Obs Task) =
      join s.pool := by
  have h1 : (join s.pool : thread_pool Q × Obs Task).1 = s.pool := by
    unfold join; split <;> rfl
  refine ⟨?_, h1, ?_, ?_, by rw [h1]⟩
  · simp only [step, h1]
  · unfold join
    split
    · rename_i hc
      simpa using hc
    · rename_i hc
      simpa using hc
  · unfold join
    split
    · exact Or.inl rfl
    · exact Or.inr rfl

/-- C6 (fails on the code): `join` is to return only when no task is pending or running. In the
schedule below task `7` is enqueued before the call and nothing is enqueued afterwards; worker 0
is still inside task `7` when `join` returns, because the worker brought in by `add_thread( 1 )`
has decremented `active_count_` to zero. -/
theorem C6_join_returns_during_task :
    run (construct 1) (to_pending1 ++ add_while_running) =
      some (undercounted,
        [Obs.sleeping, Obs.returned, Obs.returned,
          Obs.started 7, Obs.blocked, Obs.sleeping, Obs.returned, Obs.returned]) ∧
    to_pending1 ++ add_while_running =
      [Event.worker 0, Event.client_wake, Event.enqueue 7,
        Event.worker 0, Event.add_thread 1 true, Event.worker 1, Event.client_wake,
        Event.join] ∧
    step undercounted Event.join = some (undercounted, Obs.returned) ∧
    undercounted.workers = [Worker.running 7, Worker.waiting] ∧
    undercounted.running_count = 1 := by
  decide

/-- C7: in every reachable state `FINISH_ALL` set implies `FINISH` set, and no step of any
thread leaves `FINISH` cleared when it found `FINISH_ALL` set. -/
theorem C7_finish_all_implies_finish (n : Nat) (s : System Q Task) (h : Reachable n s) :
    (s.pool.action_.FINISH_ALL = true → s.pool.action_.FINISH = true) ∧
    ∀ e s1 o, step s e = some (s1, o) → s.pool.action_.FINISH_ALL = true →
      s1.pool.action_.FINISH = true := by
  have hs := reachable_inv h
  refine ⟨hs.fin, ?_⟩
  intro e s1 o hstep hall
  by_cases he : ∃ i, e = Event.worker i
  · obtain ⟨i, rfl⟩ := he
    obtain ⟨w, w1, -, hr, -, -⟩ := step_worker hstep
    exact routine_keeps_finish w w1 s.pool s1.pool o hr hall (hs.fin hall)
  · exact (step_client hstep (fun i hi => he ⟨i, hi⟩)).1.2.2.2 (hs.fin hall)

theorem clearing1_reachable : Reachable 1 clearing1 :=
  Reachable.step pending1_reachable
    (by decide : step pending1 Event.clear = some (clearing1, Obs.blocked))

/-- Witness for C7 in the middle of `clear`, where both flags are set. -/
theorem C7_witness :
    Reachable 1 clearing1 ∧ clearing1.pool.action_.FINISH_ALL = true ∧
      clearing1.pool.action_.FINISH = true :=
  ⟨clearing1_reachable, rfl,
    (C7_finish_all_implies_finish 1 clearing1 clearing1_reachable).1 rfl⟩

/-- C8 (fails on the code): when `clear` returns the action set is to be empty. The last
worker clears `FINISH_ALL` only (lines 347-349): after `clear` returned on the pool of one worker,
`FINISH` is still set. -/
theorem C8_finish_left_set_after_clear :
    run (construct 1) (to_pending1 ++ clear_pending) =
      some (cleared1, [Obs.sleeping, Obs.returned, Obs.returned,
        Obs.blocked, Obs.finished, Obs.returned]) ∧
    to_pending1 ++ clear_pending =
      [Event.worker 0, Event.client_wake, Event.enqueue 7,
        Event.clear, Event.worker 0, Event.client_wake] ∧
    cleared1.pool.thread_count_ = 0 ∧ cleared1.pool.action_.FINISH = true ∧
    cleared1.pool.action_.FINISH_ALL = false := by
  decide

end claims

section claims_structural
variable {Q Task : Type}

/-- C10: with `thread_count_ == 0`, `remove_thread` and `clear` throw `std::logic_error` and
leave the pool as it was; with `thread_count_ != 0` neither throws it, at the call or at any
later wake-up. -/
theorem C10_logic_error_iff_no_threads (p : thread_pool Q) :
    (p.thread_count_ = 0 →
      (remove_thread p : thread_pool Q × Op × Obs Task) = (p, Op.idle, Obs.logic_error) ∧
      (clear p : thread_pool Q × Op × Obs Task) = (p, Op.idle, Obs.logic_error)) ∧
    (p.thread_count_ ≠ 0 →
      (remove_thread p : thread_pool Q × Op × Obs Task).2.2 ≠ Obs.logic_error ∧
      (clear p : thread_pool Q × Op × Obs Task).2.2 ≠ Obs.logic_error) ∧
    (∀ st n, (remove_thread_wait1 st n p : thread_pool Q × Op × Obs Task).2.2 ≠ Obs.logic_error ∧
      (remove_thread_wait2 st n p : thread_pool Q × Op × Obs Task).2.2 ≠ Obs.logic_error) ∧
    (clear_wait1 p : thread_pool Q × Op × Obs Task).2.2 ≠ Obs.logic_error ∧
    (clear_wait2 p : thread_pool Q × Op × Obs Task).2.2 ≠ Obs.logic_error := by
  have w2 : ∀ st n (q : thread_pool Q),
      (remove_thread_wait2 st n q : thread_pool Q × Op × Obs Task).2.2 ≠ Obs.logic_error := by
    intro st n q
    unfold remove_thread_wait2
    split <;> simp
  have w1 : ∀ st n (q : thread_pool Q),
      (remove_thread_wait1 st n q : thread_pool Q × Op × Obs Task).2.2 ≠ Obs.logic_error := by
    intro st n q
    unfold remove_thread_wait1
    split
    · exact w2 _ _ _
    · simp
  have c2 : ∀ q : thread_pool Q,
      (clear_wait2 q : thread_pool Q × Op × Obs Task).2.2 ≠ Obs.logic_error := by
    intro q
    unfold clear_wait2
    split <;> simp
  have c1 : ∀ q : thread_pool Q,
      (clear_wait1 q : thread_pool Q × Op × Obs Task).2.2 ≠ Obs.logic_error := by
    intro q
    unfold clear_wait1
    split
    · exact c2 _
    · simp
  refine ⟨?_, ?_, fun st n => ⟨w1 st n p, w2 st n p⟩, c1 p, c2 p⟩
  · intro h0
    simp [remove_thread, clear, h0]
  · intro h0
    constructor
    · unfold remove_thread
      rw [if_neg h0]
      exact w1 _ _ _
    · unfold clear
      rw [if_neg h0]
      exact c1 _

end claims_structural

section phases
variable {Q Task : Type} [TaskQueue Q Task]

/-! ### Structural operations in progress -/

theorem routine_fin (w w1 : Worker Task) (p p1 : thread_pool Q) (o : Obs Task)
    (h : routine w p = some (w1, p1, o))
    (hfin : p.action_.FINISH_ALL = true → p.action_.FINISH = true) :
    p1.action_.FINISH_ALL = true → p1.action_.FINISH = true := by
  rcases routine_cases w w1 p p1 o h with ⟨rfl, hi⟩ | ⟨t, rfl, hi⟩ | ⟨rfl, hw, ha⟩
  · rcases iteration_cases _ _ _ _ hi with ⟨_, rfl, rfl, rfl⟩ | ⟨_, ha⟩
    · simpa using hfin
    · rcases after_wait_cases _ _ _ _ ha with ⟨_, rfl, rfl, rfl⟩ | ⟨_, _, rfl, rfl, rfl⟩ |
        ⟨t, _, _, rfl, rfl, rfl⟩
      · simpa [on_thread_exit] using leave_action_fin _ (by simpa using hfin)
      · simpa using hfin
      · simpa using hfin
  · rcases iteration_cases _ _ _ _ hi with ⟨_, rfl, rfl, rfl⟩ | ⟨_, ha⟩
    · simpa using hfin
    · rcases after_wait_cases _ _ _ _ ha with ⟨_, rfl, rfl, rfl⟩ | ⟨_, _, rfl, rfl, rfl⟩ |
        ⟨t, _, _, rfl, rfl, rfl⟩
      · simpa [on_thread_exit] using leave_action_fin _ (by simpa using hfin)
      · simpa using hfin
      · simpa using hfin
  · rcases after_wait_cases _ _ _ _ ha with ⟨_, rfl, rfl, rfl⟩ | ⟨_, _, rfl, rfl, rfl⟩ |
      ⟨t, _, _, rfl, rfl, rfl⟩
    · simpa [on_thread_exit] using leave_action_fin _ hfin
    · simpa using hfin
    · simpa using hfin

/-- The background events are a worker step, the wake-up of the operation in progress, or a
client call that only rewrites the queue. -/
theorem background_cases (e : Event Task) (hb : e.background = true) :
    (∃ i, e = Event.worker i) ∨ e = Event.client_wake ∨
    ∀ (s s1 : System Q Task) (o : Obs Task), step s e = some (s1, o) →
      s1 = { s with pool := { s.pool with queue_ := Event.on_queue s.pool.queue_ e } } := by
  cases e with
  | worker i => exact Or.inl ⟨i, rfl⟩
  | client_wake => exact Or.inr (Or.inl rfl)
  | join =>
    refine Or.inr (Or.inr ?_)
    intro s s1 o h
    simp only [step, Option.some.injEq, Prod.mk.injEq] at h
    rw [← h.1]
    unfold join
    split <;> rfl
  | enqueue t =>
    refine Or.inr (Or.inr ?_)
    intro s s1 o h
    simp only [step, Option.some.injEq, Prod.mk.injEq] at h
    rw [← h.1]
    rfl
  | enqueue_range ts =>
    refine Or.inr (Or.inr ?_)
    intro s s1 o h
    simp only [step, Option.some.injEq, Prod.mk.injEq] at h
    rw [← h.1]
    rfl
  | discard_queue =>
    refine Or.inr (Or.inr ?_)
    intro s s1 o h
    simp only [step, Option.some.injEq, Prod.mk.injEq] at h
    rw [← h.1]
    rfl
  | add_thread k r => simp [Event.background] at hb
  | remove_thread => simp [Event.background] at hb
  | clear => simp [Event.background] at hb
  | pause => simp [Event.background] at hb
  | resume => simp [Event.background] at hb

theorem on_queue_worker (q : Q) (i : Nat) :
    Event.on_queue q (Event.worker i : Event Task) = q := rfl

theorem on_queue_client_wake (q : Q) :
    Event.on_queue q (Event.client_wake : Event Task) = q := rfl

/-- One background step keeps `ClearPhase`, the tracked queue changing as the event says. -/
theorem clear_phase_step {s s1 : System Q Task} {e : Event Task} {o : Obs Task} (q : Q)
    (hp : ClearPhase q s) (hb : e.background = true) (h : step s e = some (s1, o)) :
    ClearPhase (Event.on_queue q e) s1 := by
  rcases @background_cases Q Task _ e hb with ⟨i, rfl⟩ | rfl | hq
  · obtain ⟨w, w1, -, hr, -, hop⟩ := step_worker h
    rw [on_queue_worker]
    unfold ClearPhase at hp ⊢
    rw [hop]
    split at hp
    · trivial
    · obtain ⟨hP, hQ, hF⟩ := hp
      have := routine_paused w w1 s.pool s1.pool o hr hP hF
      exact ⟨this.2.2.1.trans hP, this.2.1.trans hQ, routine_fin w w1 _ _ o hr hF⟩
    · obtain ⟨hP, hQ, hF⟩ := hp
      have := routine_paused w w1 s.pool s1.pool o hr hP hF
      exact ⟨this.2.2.1.trans hP, this.2.1.trans hQ, routine_fin w w1 _ _ o hr hF⟩
    · exact hp
  · rw [on_queue_client_wake]
    unfold ClearPhase at hp
    simp only [step] at h
    split at h
    all_goals simp only [Option.some.injEq, Prod.mk.injEq, reduceCtorEq] at h
    all_goals rename_i hop
    all_goals simp only [hop] at hp
    all_goals obtain ⟨rfl, -⟩ := h
    · obtain ⟨hP, hQ, hF⟩ := hp
      unfold ClearPhase clear_wait1 clear_wait2
      split_ifs
      all_goals simp [hP, hQ]
      all_goals exact hF
    · obtain ⟨hP, hQ, hF⟩ := hp
      unfold ClearPhase clear_wait2
      split_ifs
      all_goals simp [hP, hQ]
      all_goals exact hF
  · have := hq s s1 o h
    subst this
    unfold ClearPhase at hp ⊢
    simp only
    split at hp
    · trivial
    · exact ⟨hp.1, by rw [hp.2.1], hp.2.2⟩
    · exact ⟨hp.1, by rw [hp.2.1], hp.2.2⟩
    · exact hp

theorem clear_phase_run {s s1 : System Q Task} (evs : List (Event Task))
    {os : List (Obs Task)} (q : Q) (hp : ClearPhase q s)
    (hb : ∀ e ∈ evs, e.background = true) (hr : run s evs = some (s1, os)) :
    ClearPhase (evs.foldl Event.on_queue q) s1 := by
  induction evs generalizing s os q with
  | nil =>
    simp only [run, Option.some.injEq, Prod.mk.injEq] at hr
    obtain ⟨rfl, -⟩ := hr
    exact hp
  | cons e es ih =>
    simp only [run] at hr
    split at hr
    · simp at hr
    · rename_i s2 o hstep
      split at hr
      · simp at hr
      · rename_i s3 os3 hrest
        simp only [Option.some.injEq, Prod.mk.injEq] at hr
        obtain ⟨rfl, -⟩ := hr
        exact ih (Event.on_queue q e)
          (clear_phase_step q hp (hb e (List.mem_cons_self _ _)) hstep)
          (fun x hx => hb x (List.mem_cons_of_mem _ hx)) hrest

/-- The call of `clear` starts the phase. -/
theorem clear_phase_call {s s1 : System Q Task} {o : Obs Task}
    (hfin : s.pool.action_.FINISH_ALL = true → s.pool.action_.FINISH = true)
    (h : step s Event.clear = some (s1, o)) :
    ClearPhase s.pool.queue_ s1 := by
  simp only [step] at h
  split at h
  · simp only [Option.some.injEq, Prod.mk.injEq] at h
    obtain ⟨rfl, -⟩ := h
    unfold ClearPhase clear clear_wait1 clear_wait2
    split_ifs
    all_goals simp
    all_goals exact hfin
  · simp at h

/-- When `clear` returns from the phase, no thread is left and the queue is the tracked one. -/
theorem clear_phase_return {s s1 : System Q Task} (q : Q) (hp : ClearPhase q s)
    (h : step s Event.client_wake = some (s1, Obs.returned)) :
    s1.pool.thread_count_ = 0 ∧ s1.pool.queue_ = q := by
  unfold ClearPhase at hp
  simp only [step] at h
  split at h
  all_goals simp only [Option.some.injEq, Prod.mk.injEq, reduceCtorEq] at h
  all_goals rename_i hop
  all_goals simp only [hop] at hp
  · obtain ⟨h1, h2⟩ := h
    subst h1
    unfold clear_wait1 clear_wait2 at h2 ⊢
    split_ifs at h2 ⊢
    all_goals simp_all
  · obtain ⟨h1, h2⟩ := h
    subst h1
    unfold clear_wait2 at h2 ⊢
    split_ifs at h2 ⊢
    all_goals simp_all

end phases

section claims
variable {Q Task : Type} [TaskQueue Q Task]

/-- C4, as stated, fails: task `7` is enqueued, then `clear` is called on the pool of one worker
and returns, with no `enqueue` after the call; `thread_count_ == 0`, but the queue is not empty
and still holds task `7`, which was enqueued before `clear` began. -/
theorem C4_counterexample :
    run (construct 1) (to_pending1 ++ clear_pending) =
      some (cleared1, [Obs.sleeping, Obs.returned, Obs.returned,
        Obs.blocked, Obs.finished, Obs.returned]) ∧
    to_pending1 ++ clear_pending =
      [Event.worker 0, Event.client_wake, Event.enqueue 7,
        Event.clear, Event.worker 0, Event.client_wake] ∧
    cleared1.pool.thread_count_ = 0 ∧
    TaskQueue.empty cleared1.pool.queue_ = false ∧ 7 ∈ cleared1.pool.queue_ := by
  decide

/-- C4, amended: when `clear`, called in a reachable state with `thread_count_ != 0`, returns
after any background events (worker steps, wake-ups, `join`, `enqueue`, `discard_queue`; no
other structural call, `pause` or `resume`), then `thread_count_ == 0` and the queue is the
queue found at the call, changed only by the `enqueue` and `discard_queue` calls made meanwhile:
`clear` and the leaving workers remove nothing from it. -/
theorem C4_clear_keeps_queue (n : Nat) (s s1 s2 s3 : System Q Task) (o1 : Obs Task)
    (evs : List (Event Task)) (os : List (Obs Task))
    (h : Reachable n s) (hn : s.pool.thread_count_ ≠ 0)
    (hcall : step s Event.clear = some (s1, o1))
    (hbg : ∀ e ∈ evs, e.background = true)
    (hrun : run s1 evs = some (s2, os))
    (hret : step s2 Event.client_wake = some (s3, Obs.returned)) :
    o1 = Obs.blocked ∧ s3.pool.thread_count_ = 0 ∧
      s3.pool.queue_ = evs.foldl Event.on_queue s.pool.queue_ := by
  have h0 := clear_phase_call (reachable_inv h).fin hcall
  have h1 := clear_phase_run evs _ h0 hbg hrun
  refine ⟨?_, clear_phase_return _ h1 hret⟩
  simp only [step] at hcall
  split at hcall
  · simp only [Option.some.injEq, Prod.mk.injEq] at hcall
    rw [← hcall.2]
    unfold clear clear_wait1 clear_wait2
    rw [if_neg hn]
    split_ifs
    all_goals rfl
  · simp at hcall

/-- Witness for C4 (amended): `clear` on the pool of one worker with task `7` pending. -/
theorem C4_witness :
    (Obs.blocked : Obs Nat) = Obs.blocked ∧ cleared1.pool.thread_count_ = 0 ∧
      cleared1.pool.queue_ = [Event.worker 0].foldl Event.on_queue pending1.pool.queue_ :=
  C4_clear_keeps_queue 1 pending1 clearing1
    { pool := { queue_ := [7], thread_count_ := 0, active_count_ := 0,
                state_ := EPoolState.PAUSED, action_ := ⟨true, false⟩ }
      workers := [Worker.exited]
      op := Op.clear_2 }
    cleared1 Obs.blocked [Event.worker 0] [Obs.finished]
    pending1_reachable (by decide) (by decide) (by decide) (by decide) (by decide)

end claims

section phases
variable {Q Task : Type} [TaskQueue Q Task]

theorem routine_not_starting (w w1 : Worker Task) (p p1 : thread_pool Q) (o : Obs Task)
    (h : routine w p = some (w1, p1, o)) : w1.starting = false := by
  rcases routine_cases w w1 p p1 o h with ⟨rfl, hi⟩ | ⟨t, rfl, hi⟩ | ⟨rfl, hw, ha⟩
  · rcases iteration_cases _ _ _ _ hi with ⟨_, rfl, rfl, rfl⟩ | ⟨_, ha⟩
    · rfl
    · rcases after_wait_cases _ _ _ _ ha with ⟨_, rfl, rfl, rfl⟩ | ⟨_, _, rfl, rfl, rfl⟩ |
        ⟨t, _, _, rfl, rfl, rfl⟩ <;> rfl
  · rcases iteration_cases _ _ _ _ hi with ⟨_, rfl, rfl, rfl⟩ | ⟨_, ha⟩
    · rfl
    · rcases after_wait_cases _ _ _ _ ha with ⟨_, rfl, rfl, rfl⟩ | ⟨_, _, rfl, rfl, rfl⟩ |
        ⟨t, _, _, rfl, rfl, rfl⟩ <;> rfl
  · rcases after_wait_cases _ _ _ _ ha with ⟨_, rfl, rfl, rfl⟩ | ⟨_, _, rfl, rfl, rfl⟩ |
      ⟨t, _, _, rfl, rfl, rfl⟩ <;> rfl

theorem countP_replicate_starting (n : Nat) :
    (List.replicate n (Worker.created : Worker Task)).countP Worker.starting = n := by
  induction n with
  | zero => simp
  | succ n ih => simp [List.replicate_succ, List.countP_cons, Worker.starting, ih]

end phases

section op_results
variable {Q Task : Type}

theorem structural_op_not_add (p : thread_pool Q) (st : EPoolState) (n m : Nat) :
    (remove_thread p : thread_pool Q × Op × Obs Task).2.1 ≠ Op.add_thread m ∧
    (remove_thread_wait1 st n p : thread_pool Q × Op × Obs Task).2.1 ≠ Op.add_thread m ∧
    (remove_thread_wait2 st n p : thread_pool Q × Op × Obs Task).2.1 ≠ Op.add_thread m ∧
    (clear p : thread_pool Q × Op × Obs Task).2.1 ≠ Op.add_thread m ∧
    (clear_wait1 p : thread_pool Q × Op × Obs Task).2.1 ≠ Op.add_thread m ∧
    (clear_wait2 p : thread_pool Q × Op × Obs Task).2.1 ≠ Op.add_thread m := by
  have w2 : ∀ st n (q : thread_pool Q),
      (remove_thread_wait2 st n q : thread_pool Q × Op × Obs Task).2.1 ≠ Op.add_thread m := by
    intro st n q
    unfold remove_thread_wait2
    split <;> simp
  have w1 : ∀ st n (q : thread_pool Q),
      (remove_thread_wait1 st n q : thread_pool Q × Op × Obs Task).2.1 ≠ Op.add_thread m := by
    intro st n q
    unfold remove_thread_wait1
    split
    · exact w2 _ _ _
    · simp
  have c2 : ∀ q : thread_pool Q,
      (clear_wait2 q : thread_pool Q × Op × Obs Task).2.1 ≠ Op.add_thread m := by
    intro q
    unfold clear_wait2
    split <;> simp
  have c1 : ∀ q : thread_pool Q,
      (clear_wait1 q : thread_pool Q × Op × Obs Task).2.1 ≠ Op.add_thread m := by
    intro q
    unfold clear_wait1
    split
    · exact c2 _
    · simp
  refine ⟨?_, w1 st n p, w2 st n p, ?_, c1 p, c2 p⟩
  · unfold remove_thread
    split
    · simp
    · exact w1 _ _ _
  · unfold clear
    split
    · simp
    · exact c1 _

end op_results

section phases
variable {Q Task : Type} [TaskQueue Q Task]

theorem construct_starting (n : Nat) (hn : n < SIZE_MOD) :
    Starting (construct n : System Q Task) := by
  have hmod : (0 + n) % SIZE_MOD = n := by simp [Nat.mod_eq_of_lt hn]
  have hc := @countP_replicate_starting Task n
  unfold Starting construct add_thread add_thread_wait
  simp only [thread_pool.init, hmod]
  by_cases h0 : 0 = n
  · rw [if_pos h0]
    exact ⟨fun m hm => by simp at hm, fun _ => by omega⟩
  · rw [if_neg h0]
    refine ⟨fun m hm => ?_, fun hne => absurd rfl (hne n)⟩
    simp only [Op.add_thread.injEq] at hm
    dsimp only
    omega

end phases

section op_results
variable {Q Task : Type}

theorem Starting.of_not_add {s s1 : System Q Task} (hs : Starting s)
    (hop : ∀ m, s.op ≠ Op.add_thread m) (hop1 : ∀ m, s1.op ≠ Op.add_thread m)
    (hw : s1.workers = s.workers) : Starting s1 :=
  ⟨fun m hm => absurd hm (hop1 m), fun _ => by rw [hw]; exact hs.2 hop⟩

theorem Starting.of_same {s s1 : System Q Task} (hs : Starting s) (hop : s1.op = s.op)
    (hw : s1.workers = s.workers) (ht : s1.pool.thread_count_ = s.pool.thread_count_) :
    Starting s1 := by
  unfold Starting at hs ⊢
  rw [hop, hw, ht]
  exact hs

end op_results

section phases
variable {Q Task : Type} [TaskQueue Q Task]

theorem step_starting {s s1 : System Q Task} {e : Event Task} {o : Obs Task} (hi : Inv s)
    (hs : Starting s) (h : step s e = some (s1, o)) : Starting s1 := by
  cases e with
  | worker i =>
    obtain ⟨w, w1, hw, hr, hws, hop⟩ := step_worker h
    have hc := routine_counts w w1 s.pool s1.pool o hr s.live_count s.running_count hi.tc hi.ac
      (by
        have := (countP_get_le Worker.live s.workers i w hw).2
        have := hi.len
        unfold System.live_count; omega)
      (by
        have := (countP_get_le Worker.in_task s.workers i w hw).2
        have := hi.len
        unfold System.running_count; omega)
      (countP_get_le Worker.live s.workers i w hw).1
      (countP_get_le Worker.in_task s.workers i w hw).1 hi.fin
    have hset := countP_set_get Worker.starting s.workers i w w1 hw
    have hget := (countP_get_le Worker.starting s.workers i w hw).1
    have hw1 := routine_not_starting w w1 s.pool s1.pool o hr
    rw [hw1] at hset
    simp only [Bool.false_eq_true, if_false, Nat.add_zero] at hset
    have h1 := hc.1
    rw [← hi.tc] at h1
    have hb : (if w1.live = true then 1 else 0) ≤ 1 := by split <;> omega
    have hx : (if w.starting = true then 1 else 0) + (if w.live = true then 1 else 0) = 1 := by
      cases w <;> simp [Worker.starting, Worker.live, routine] at hr ⊢
    unfold Starting at hs ⊢
    rw [hop, hws]
    refine ⟨fun m hm => ?_, fun hne => ?_⟩
    · have := hs.1 m hm
      omega
    · have := hs.2 hne
      omega
  | add_thread k r =>
    simp only [step] at h
    split at h
    · rename_i hc
      simp only [Option.some.injEq, Prod.mk.injEq] at h
      obtain ⟨rfl, -⟩ := h
      have hc0 := hs.2 (fun m hm => by rw [hc.1] at hm; exact absurd hm (by simp))
      have hlive : s.pool.thread_count_ ≤ s.workers.length := by
        rw [hi.tc]
        exact List.countP_le_length _
      have hmod : (s.pool.thread_count_ + k) % SIZE_MOD = s.pool.thread_count_ + k :=
        Nat.mod_eq_of_lt (by omega)
      unfold Starting add_thread add_thread_wait
      simp only [hmod, List.countP_append, countP_replicate_starting, hc0]
      by_cases h0 : s.pool.thread_count_ = s.pool.thread_count_ + k
      · rw [if_pos h0]
        exact ⟨fun m hm => by simp at hm, fun _ => by omega⟩
      · rw [if_neg h0]
        refine ⟨fun m hm => ?_, fun hne => absurd rfl (hne _)⟩
        simp only [Op.add_thread.injEq] at hm
        dsimp only
        omega
    · simp at h
  | remove_thread =>
    simp only [step] at h
    split at h
    · rename_i hop
      simp only [Option.some.injEq, Prod.mk.injEq] at h
      obtain ⟨rfl, -⟩ := h
      exact hs.of_not_add (fun m hm => by rw [hop] at hm; exact absurd hm (by simp))
        (fun m => (structural_op_not_add s.pool s.pool.state_ 0 m).1) rfl
    · simp at h
  | clear =>
    simp only [step] at h
    split at h
    · rename_i hop
      simp only [Option.some.injEq, Prod.mk.injEq] at h
      obtain ⟨rfl, -⟩ := h
      exact hs.of_not_add (fun m hm => by rw [hop] at hm; exact absurd hm (by simp))
        (fun m => (structural_op_not_add s.pool s.pool.state_ 0 m).2.2.2.1) rfl
    · simp at h
  | client_wake =>
    simp only [step] at h
    split at h
    all_goals simp only [Option.some.injEq, Prod.mk.injEq, reduceCtorEq] at h
    all_goals rename_i hop
    all_goals obtain ⟨rfl, -⟩ := h
    · rename_i nc
      have h1 := hs.1 nc hop
      unfold Starting add_thread_wait
      by_cases h0 : s.pool.thread_count_ = nc
      · rw [if_pos h0]
        exact ⟨fun m hm => by simp at hm, fun _ => by dsimp only; omega⟩
      · rw [if_neg h0]
        refine ⟨fun m hm => ?_, fun hne => absurd rfl (hne _)⟩
        simp only [Op.add_thread.injEq] at hm
        dsimp only
        omega
    · rename_i st nc
      exact hs.of_not_add (fun m hm => by rw [hop] at hm; exact absurd hm (by simp))
        (fun m => (structural_op_not_add s.pool st nc m).2.1) rfl
    · rename_i st nc
      exact hs.of_not_add (fun m hm => by rw [hop] at hm; exact absurd hm (by simp))
        (fun m => (structural_op_not_add s.pool st nc m).2.2.1) rfl
    · exact hs.of_not_add (fun m hm => by rw [hop] at hm; exact absurd hm (by simp))
        (fun m => (structural_op_not_add s.pool s.pool.state_ 0 m).2.2.2.2.1) rfl
    · exact hs.of_not_add (fun m hm => by rw [hop] at hm; exact absurd hm (by simp))
        (fun m => (structural_op_not_add s.pool s.pool.state_ 0 m).2.2.2.2.2) rfl
  | enqueue t =>
    simp only [step, Option.some.injEq, Prod.mk.injEq] at h
    obtain ⟨rfl, -⟩ := h
    exact hs
  | enqueue_range ts =>
    simp only [step, Option.some.injEq, Prod.mk.injEq] at h
    obtain ⟨rfl, -⟩ := h
    exact hs
  | discard_queue =>
    simp only [step, Option.some.injEq, Prod.mk.injEq] at h
    obtain ⟨rfl, -⟩ := h
    exact hs
  | pause =>
    simp only [step, Option.some.injEq, Prod.mk.injEq] at h
    obtain ⟨rfl, -⟩ := h
    exact hs.of_same rfl rfl (by unfold pause; split <;> rfl)
  | resume =>
    simp only [step, Option.some.injEq, Prod.mk.injEq] at h
    obtain ⟨rfl, -⟩ := h
    exact hs.of_same rfl rfl (by unfold resume; split <;> split <;> rfl)
  | join =>
    simp only [step, Option.some.injEq, Prod.mk.injEq] at h
    obtain ⟨rfl, -⟩ := h
    exact hs.of_same rfl rfl (by unfold join; split <;> rfl)

theorem reachable_starting {n : Nat} {s : System Q Task} (h : Reachable n s) : Starting s := by
  induction h with
  | construct hn => exact construct_starting n hn
  | step hr hstep ih => exact step_starting (reachable_inv hr) ih hstep

theorem decr_pos (n : Nat) (h1 : 1 ≤ n) (h2 : n < SIZE_MOD) : decr n = n - 1 := by
  unfold decr
  unfold SIZE_MOD at *
  omega

/-- A worker step on a paused pool without starting workers. -/
theorem step_worker_paused {s s1 : System Q Task} {i : Nat} {o : Obs Task}
    (h : step s (Event.worker i) = some (s1, o)) (hP : s.pool.state_ = EPoolState.PAUSED)
    (hfin : s.pool.action_.FINISH_ALL = true → s.pool.action_.FINISH = true)
    (hC : s.workers.countP Worker.starting = 0) :
    s1.op = s.op ∧ s1.pool.state_ = EPoolState.PAUSED ∧ s1.pool.queue_ = s.pool.queue_ ∧
    s1.workers.countP Worker.starting = 0 ∧
    ((s.pool.action_.FINISH = false ∧ s1.pool.action_ = s.pool.action_ ∧
        s1.pool.thread_count_ = s.pool.thread_count_) ∨
      (s.pool.action_.FINISH = true ∧ s1.pool.action_ = leave_action s.pool ∧
        s1.pool.thread_count_ = decr s.pool.thread_count_)) := by
  obtain ⟨w, w1, hw, hr, hws, hop⟩ := step_worker h
  have hp := routine_paused w w1 s.pool s1.pool o hr hP hfin
  have hset := countP_set_get Worker.starting s.workers i w w1 hw
  have hget := (countP_get_le Worker.starting s.workers i w hw).1
  rw [routine_not_starting w w1 s.pool s1.pool o hr] at hset
  simp only [Bool.false_eq_true, if_false, Nat.add_zero] at hset
  have hwc : w ≠ Worker.created := by
    intro hc
    rw [hc, hC] at hget
    simp [Worker.starting] at hget
  refine ⟨hop, hp.2.2.1.trans hP, hp.2.1, ?_, hp.2.2.2 hwc⟩
  rw [hws]
  omega

/-- One background step keeps `RemovePhase`, the tracked queue changing as the event says. -/
theorem remove_phase_step {s s1 : System Q Task} {e : Event Task} {o : Obs Task}
    (n : Nat) (st : EPoolState) (q : Q) (h1 : 1 ≤ n) (h2 : n < SIZE_MOD)
    (hp : RemovePhase n st q s) (hb : e.background = true) (h : step s e = some (s1, o)) :
    RemovePhase n st (Event.on_queue q e) s1 := by
  rcases @background_cases Q Task _ e hb with ⟨i, rfl⟩ | rfl | hq
  · rw [on_queue_worker]
    unfold RemovePhase at hp ⊢
    cases hop : s.op with
    | idle =>
      rw [(step_worker h).choose_spec.choose_spec.2.2.2, hop]
      trivial
    | remove_thread_1 prev nc =>
      simp only [hop] at hp
      obtain ⟨hP, hQ, hC, hprev, hnc, htc, hact⟩ := hp
      obtain ⟨hop1, hP1, hQ1, hC1, hd⟩ := step_worker_paused h hP (by simp [hact]) hC
      rw [hop1, hop]
      simp only
      rcases hd with ⟨-, ha, ht⟩ | ⟨hF, -, -⟩
      · exact ⟨hP1, hQ1.trans hQ, hC1, hprev, hnc, ht.trans htc, ha.trans hact⟩
      · rw [hact] at hF
        exact absurd hF (by decide)
    | remove_thread_2 prev nc =>
      simp only [hop] at hp
      obtain ⟨hP, hQ, hC, hprev, hnc, hdis⟩ := hp
      have hfin : s.pool.action_.FINISH_ALL = true → s.pool.action_.FINISH = true := by
        rcases hdis with ⟨-, ha⟩ | ⟨-, ha⟩ <;> simp [ha]
      obtain ⟨hop1, hP1, hQ1, hC1, hd⟩ := step_worker_paused h hP hfin hC
      rw [hop1, hop]
      simp only
      refine ⟨hP1, hQ1.trans hQ, hC1, hprev, hnc, ?_⟩
      rcases hdis with ⟨htc, ha⟩ | ⟨htc, ha⟩
      · rcases hd with ⟨hF, -, -⟩ | ⟨-, hl, ht⟩
        · rw [ha] at hF
          exact absurd hF (by decide)
        · right
          refine ⟨by rw [ht, htc, decr_pos n h1 h2], ?_⟩
          rw [hl]
          simp [leave_action, ha]
      · rcases hd with ⟨-, ha1, ht⟩ | ⟨hF, -, -⟩
        · exact Or.inr ⟨ht.trans htc, ha1.trans ha⟩
        · rw [ha] at hF
          exact absurd hF (by decide)
    | add_thread nc => simp [hop] at hp
    | clear_1 => simp [hop] at hp
    | clear_2 => simp [hop] at hp
  · rw [on_queue_client_wake]
    unfold RemovePhase at hp
    simp only [step] at h
    split at h
    all_goals simp only [Option.some.injEq, Prod.mk.injEq, reduceCtorEq] at h
    all_goals rename_i hop
    all_goals simp only [hop] at hp
    all_goals obtain ⟨rfl, -⟩ := h
    · obtain ⟨hP, hQ, hC, hprev, hnc, htc, hact⟩ := hp
      have hne : ¬ s.pool.thread_count_ = n - 1 := by omega
      unfold RemovePhase remove_thread_wait1 remove_thread_wait2
      subst hnc
      split_ifs
      · simp [hP, hQ, hC, hprev, htc, hact]
      · simp [hP, hQ, hC, hprev, htc, hact]
    · obtain ⟨hP, hQ, hC, hprev, hnc, hdis⟩ := hp
      unfold RemovePhase remove_thread_wait2
      split_ifs
      · trivial
      · exact ⟨hP, hQ, hC, hprev, hnc, hdis⟩
  · have := hq s s1 o h
    subst this
    unfold RemovePhase at hp ⊢
    simp only
    split at hp
    · trivial
    · obtain ⟨hP, hQ, hrest⟩ := hp
      exact ⟨hP, by rw [hQ], hrest⟩
    · obtain ⟨hP, hQ, hrest⟩ := hp
      exact ⟨hP, by rw [hQ], hrest⟩
    · exact hp

theorem remove_phase_run {s s1 : System Q Task} (evs : List (Event Task))
    {os : List (Obs Task)} (n : Nat) (st : EPoolState) (q : Q) (h1 : 1 ≤ n)
    (h2 : n < SIZE_MOD) (hp : RemovePhase n st q s)
    (hb : ∀ e ∈ evs, e.background = true) (hr : run s evs = some (s1, os)) :
    RemovePhase n st (evs.foldl Event.on_queue q) s1 := by
  induction evs generalizing s os q with
  | nil =>
    simp only [run, Option.some.injEq, Prod.mk.injEq] at hr
    obtain ⟨rfl, -⟩ := hr
    exact hp
  | cons e es ih =>
    simp only [run] at hr
    split at hr
    · simp at hr
    · rename_i s2 o hstep
      split at hr
      · simp at hr
      · rename_i s3 os3 hrest
        simp only [Option.some.injEq, Prod.mk.injEq] at hr
        obtain ⟨rfl, -⟩ := hr
        exact ih (Event.on_queue q e)
          (remove_phase_step n st q h1 h2 hp (hb e (List.mem_cons_self _ _)) hstep)
          (fun x hx => hb x (List.mem_cons_of_mem _ hx)) hrest

/-- The call of `remove_thread` on a pool with threads, no flag set and no starting worker
blocks and starts the phase. -/
theorem remove_phase_call {s s1 : System Q Task} {o : Obs Task}
    (h1 : 1 ≤ s.pool.thread_count_) (hact : s.pool.action_ = ⟨false, false⟩)
    (hC : s.workers.countP Worker.starting = 0)
    (h : step s Event.remove_thread = some (s1, o)) :
    o = Obs.blocked ∧ RemovePhase s.pool.thread_count_ s.pool.state_ s.pool.queue_ s1 := by
  simp only [step] at h
  split at h
  · simp only [Option.some.injEq, Prod.mk.injEq] at h
    obtain ⟨rfl, rfl⟩ := h
    have hne : ¬ s.pool.thread_count_ = 0 := by omega
    have hne1 : ¬ s.pool.thread_count_ = s.pool.thread_count_ - 1 := by omega
    unfold RemovePhase remove_thread remove_thread_wait1 remove_thread_wait2
    simp only [if_neg hne, if_neg hne1]
    split_ifs
    · simp [hact, hC]
    · simp [hact, hC]
  · simp at h

/-- When `remove_thread` returns from the phase. -/
theorem remove_phase_return {s s1 : System Q Task} (n : Nat) (st : EPoolState) (q : Q)
    (h1 : 1 ≤ n) (hp : RemovePhase n st q s)
    (h : step s Event.client_wake = some (s1, Obs.returned)) :
    s1.pool.thread_count_ = n - 1 ∧ s1.pool.action_ = ⟨false, false⟩ ∧ s1.pool.queue_ = q ∧
    s1.pool.state_ = (if n - 1 ≠ 0 then st else EPoolState.PAUSED) ∧ s1.op = Op.idle := by
  unfold RemovePhase at hp
  simp only [step] at h
  split at h
  all_goals simp only [Option.some.injEq, Prod.mk.injEq, reduceCtorEq] at h
  all_goals rename_i hop
  all_goals simp only [hop] at hp
  · obtain ⟨hP, hQ, hC, hprev, hnc, htc, hact⟩ := hp
    obtain ⟨-, h3⟩ := h
    have hne : ¬ s.pool.thread_count_ = n - 1 := by omega
    subst hnc
    unfold remove_thread_wait1 remove_thread_wait2 at h3
    simp only [if_neg hne] at h3
    split_ifs at h3
  · obtain ⟨hP, hQ, hC, hprev, hnc, hdis⟩ := hp
    obtain ⟨h3, h4⟩ := h
    subst hnc hprev h3
    unfold remove_thread_wait2 set_state_back at h4 ⊢
    rcases hdis with ⟨htc, ha⟩ | ⟨htc, ha⟩
    · have hne : ¬ s.pool.thread_count_ = n - 1 := by omega
      simp [if_neg hne] at h4
    · simp only [if_pos htc]
      split_ifs <;> simp [htc, ha, hQ, hP]

end phases

section claims
variable {Q Task : Type} [TaskQueue Q Task]

/-- C9: `remove_thread`, called in a reachable state with `thread_count_ == n ≥ 1` and an empty
action set, and returning after any background events (worker steps, wake-ups, `join`,
`enqueue`, `discard_queue`; no other structural call, `pause` or `resume`): the call itself
blocks; at its return `thread_count_ == n - 1` and exactly one worker has left, the action set
is empty again, the queue is the one found at the call changed only by the `enqueue` and
`discard_queue` calls made meanwhile (unchanged when there are none), and `state_` is the state
before the call if `n - 1 != 0` and `PAUSED` if `n - 1 == 0`. -/
theorem C9_remove_thread_removes_one (m : Nat) (s s1 s2 s3 : System Q Task) (o1 : Obs Task)
    (evs : List (Event Task)) (os : List (Obs Task))
    (h : Reachable m s) (hn : 1 ≤ s.pool.thread_count_)
    (hact : s.pool.action_ = ⟨false, false⟩)
    (hcall : step s Event.remove_thread = some (s1, o1))
    (hbg : ∀ e ∈ evs, e.background = true)
    (hrun : run s1 evs = some (s2, os))
    (hret : step s2 Event.client_wake = some (s3, Obs.returned)) :
    o1 = Obs.blocked ∧
    s3.pool.thread_count_ = s.pool.thread_count_ - 1 ∧
    s3.live_count + 1 = s.live_count ∧
    s3.pool.action_ = ⟨false, false⟩ ∧
    s3.pool.queue_ = evs.foldl Event.on_queue s.pool.queue_ ∧
    s3.pool.state_ =
      (if s.pool.thread_count_ - 1 ≠ 0 then s.pool.state_ else EPoolState.PAUSED) := by
  have hi := reachable_inv h
  have hidle : s.op = Op.idle := by
    simp only [step] at hcall
    split at hcall
    · assumption
    · simp at hcall
  have hC : s.workers.countP Worker.starting = 0 :=
    (reachable_starting h).2 (fun k hk => by rw [hidle] at hk; exact absurd hk (by simp))
  have hlt : s.pool.thread_count_ < SIZE_MOD := by
    have h1 := hi.tc
    have h2 := hi.len
    have h3 : s.workers.countP Worker.live ≤ s.workers.length := List.countP_le_length _
    simp only [System.live_count] at h1
    omega
  obtain ⟨ho, h0⟩ := remove_phase_call hn hact hC hcall
  have h1 := remove_phase_run evs _ _ _ hn hlt h0 hbg hrun
  obtain ⟨r1, r2, r3, r4, -⟩ := remove_phase_return _ _ _ hn h1 hret
  have hi3 : Inv s3 :=
    reachable_inv (Reachable.step (reachable_run evs (Reachable.step h hcall) hrun) hret)
  refine ⟨ho, r1, ?_, r2, r3, r4⟩
  have := hi3.tc
  have := hi.tc
  omega

theorem two_left_reachable : Reachable 3 two_left :=
  reachable_run to_two_left (Reachable.construct (by decide))
    (by decide : run (construct 3) to_two_left =
      some (two_left, [Obs.sleeping, Obs.sleeping, Obs.sleeping, Obs.returned,
        Obs.blocked, Obs.finished, Obs.returned]))

/-- Witness for C9: `thread_pool pool{ 3 }`, `remove_thread`, `remove_thread` leaves
`thread_count_ == 1` with `state_ == EXECUTING`. -/
theorem C9_witness :
    (Obs.blocked : Obs Nat) = Obs.blocked ∧
    one_left.pool.thread_count_ = two_left.pool.thread_count_ - 1 ∧
    one_left.live_count + 1 = two_left.live_count ∧
    one_left.pool.action_ = ⟨false, false⟩ ∧
    one_left.pool.queue_ = [Event.worker 0].foldl Event.on_queue two_left.pool.queue_ ∧
    one_left.pool.state_ =
      (if two_left.pool.thread_count_ - 1 ≠ 0 then two_left.pool.state_
        else EPoolState.PAUSED) :=
  C9_remove_thread_removes_one 3 two_left
    { pool := { queue_ := [], thread_count_ := 2, active_count_ := 0,
                state_ := EPoolState.PAUSED, action_ := ⟨true, false⟩ }
      workers := [Worker.waiting, Worker.exited, Worker.waiting]
      op := Op.remove_thread_2 EPoolState.EXECUTING 1 }
    { pool := { queue_ := [], thread_count_ := 1, active_count_ := 0,
                state_ := EPoolState.PAUSED, action_ := ⟨false, false⟩ }
      workers := [Worker.exited, Worker.exited, Worker.waiting]
      op := Op.remove_thread_2 EPoolState.EXECUTING 1 }
    one_left Obs.blocked [Event.worker 0] [Obs.finished]
    two_left_reachable (by decide) (by decide) (by decide) (by decide) (by decide) (by decide)

end claims
section claims_plain
variable {Q Task : Type}

/-- C11 (fails on the code): on every pool on which the assertion of line 293 holds, that is,
which is not in state `EXECUTING` with `thread_count_ == 0`, `resume` does what the claim says:
it throws `std::logic_error` and changes nothing when `thread_count_ == 0`; otherwise it
returns `false`, changes nothing and signals nothing when the state is `EXECUTING`; otherwise
it sets `state_` to `EXECUTING`, broadcasts `queue_cv_` once and returns `true`; and a `resume`
after a `resume` that returned returns `false` and changes nothing. The code reaches the state
that its assertion excludes: after a `resume` issued while `clear` was waiting, the pool is left
with `state_ == EXECUTING` and `thread_count_ == 0`, and there `resume` takes the branch of
line 292, where the assertion fails, and does not throw `std::logic_error`. -/
theorem C11_resume_contract :
    (∀ p : thread_pool Q, (p.state_ = EPoolState.EXECUTING → p.thread_count_ ≠ 0) →
      (resume p : thread_pool Q × Obs Task) =
        ((resume_signalling p : thread_pool Q × Obs Task × List Signal).1,
         (resume_signalling p : thread_pool Q × Obs Task × List Signal).2.1) ∧
      (p.thread_count_ = 0 →
        (resume_signalling p : thread_pool Q × Obs Task × List Signal) =
          (p, Obs.logic_error, [])) ∧
      (p.thread_count_ ≠ 0 → p.state_ = EPoolState.EXECUTING →
        (resume_signalling p : thread_pool Q × Obs Task × List Signal) =
          (p, Obs.returned_bool false, [])) ∧
      (p.thread_count_ ≠ 0 → p.state_ ≠ EPoolState.EXECUTING →
        (resume_signalling p : thread_pool Q × Obs Task × List Signal) =
          ({ p with state_ := EPoolState.EXECUTING }, Obs.returned_bool true,
            [Signal.notify_all])) ∧
      (∀ b, (resume p : thread_pool Q × Obs Task).2 = Obs.returned_bool b →
        (resume (resume p : thread_pool Q × Obs Task).1 : thread_pool Q × Obs Task) =
          ((resume p : thread_pool Q × Obs Task).1, Obs.returned_bool false))) ∧
    (run (construct 1) resume_during_clear =
        some (executing_empty, [Obs.sleeping, Obs.returned, Obs.blocked,
          Obs.returned_bool true, Obs.finished, Obs.returned, Obs.assert_failed]) ∧
      executing_empty.pool.state_ = EPoolState.EXECUTING ∧
      executing_empty.pool.thread_count_ = 0 ∧
      (resume executing_empty.pool : thread_pool (List Nat) × Obs Nat) =
        (executing_empty.pool, Obs.assert_failed) ∧
      (resume executing_empty.pool : thread_pool (List Nat) × Obs Nat).2 ≠
        Obs.logic_error) := by
  refine ⟨?_, by decide⟩
  intro p hassert
  refine ⟨?_, ?_, ?_, ?_, ?_⟩
  · unfold resume resume_signalling
    split_ifs <;> rfl
  · intro ht
    have hs : ¬ p.state_ = EPoolState.EXECUTING := fun hs => hassert hs ht
    simp [resume_signalling, hs, ht]
  · intro ht hs
    simp [resume_signalling, hs, ht]
  · intro ht hs
    simp [resume_signalling, hs, ht]
  · intro b hb
    unfold resume at hb ⊢
    split_ifs at hb ⊢ <;> simp_all

/-- Witness for C11: `resume` on the paused pool of `clearing1`, which has one thread. -/
theorem C11_witness :
    (resume_signalling clearing1.pool : thread_pool (List Nat) × Obs Nat × List Signal) =
      ({ clearing1.pool with state_ := EPoolState.EXECUTING }, Obs.returned_bool true,
        [Signal.notify_all]) :=
  ((@C11_resume_contract (List Nat) Nat).1 clearing1.pool (by decide)).2.2.2.1
    (by decide) (by decide)

end claims_plain

section claims_calls
variable {Q Task : Type} [TaskQueue Q Task]

/-- C12: `pause` returns `true` exactly when `state_` was `EXECUTING`; afterwards `state_` is
`PAUSED` and queue, counters and action set are as before; a second `pause` returns `false` and
leaves the pool as the first left it. As a step of the system it touches neither the workers
nor the operation in progress. -/
theorem C12_pause_contract (s : System Q Task) :
    step s Event.pause =
      some ({ s with pool := (pause s.pool : thread_pool Q × Obs Task).1 },
        (pause s.pool : thread_pool Q × Obs Task).2) ∧
    ((pause s.pool : thread_pool Q × Obs Task).2 = Obs.returned_bool true ↔
      s.pool.state_ = EPoolState.EXECUTING) ∧
    ((pause s.pool : thread_pool Q × Obs Task).2 = Obs.returned_bool false ↔
      s.pool.state_ = EPoolState.PAUSED) ∧
    (pause s.pool : thread_pool Q × Obs Task).1 =
      { s.pool with state_ := EPoolState.PAUSED } ∧
    (pause (pause s.pool : thread_pool Q × Obs Task).1 : thread_pool Q × Obs Task) =
      ((pause s.pool : thread_pool Q × Obs Task).1, Obs.returned_bool false) := by
  refine ⟨rfl, ?_, ?_, ?_, ?_⟩
  · unfold pause
    cases h : s.pool.state_ <;> simp
  · unfold pause
    cases h : s.pool.state_ <;> simp
  · unfold pause
    split_ifs with h
    · cases hp : s.pool with
      | mk q t a st ac =>
        rw [hp] at h
        simp only at h
        subst h
        rfl
    · rfl
  · unfold pause
    split_ifs <;> simp_all

/-- C15: `discard_queue` leaves the queue empty and `thread_count_`, `active_count_`, `state_`
and the action set as they were; as a step of the system it returns without touching the workers
(a task already dequeued keeps running) or the operation in progress; applied twice it yields
the pool it yields applied once. -/
theorem C15_discard_queue_contract [QueueLaws Q Task] (s : System Q Task) :
    step s Event.discard_queue =
      some ({ s with pool := discard_queue s.pool }, Obs.returned) ∧
    TaskQueue.empty (discard_queue s.pool).queue_ = true ∧
    (discard_queue s.pool).thread_count_ = s.pool.thread_count_ ∧
    (discard_queue s.pool).active_count_ = s.pool.active_count_ ∧
    (discard_queue s.pool).state_ = s.pool.state_ ∧
    (discard_queue s.pool).action_ = s.pool.action_ ∧
    discard_queue (discard_queue s.pool) = discard_queue s.pool := by
  refine ⟨rfl, QueueLaws.empty_clear _, rfl, rfl, rfl, rfl, ?_⟩
  unfold discard_queue
  simp only
  rw [QueueLaws.clear_empty _ (QueueLaws.empty_clear _)]

/-- Witness for C15: `discard_queue` on the pool with task `7` pending. -/
theorem C15_witness :
    step pending1 Event.discard_queue =
      some ({ pending1 with pool := discard_queue pending1.pool }, Obs.returned) ∧
    TaskQueue.empty (discard_queue pending1.pool).queue_ = true ∧
    (discard_queue pending1.pool).thread_count_ = pending1.pool.thread_count_ ∧
    (discard_queue pending1.pool).active_count_ = pending1.pool.active_count_ ∧
    (discard_queue pending1.pool).state_ = pending1.pool.state_ ∧
    (discard_queue pending1.pool).action_ = pending1.pool.action_ ∧
    discard_queue (discard_queue pending1.pool) = discard_queue pending1.pool :=
  C15_discard_queue_contract pending1

theorem enqueue_bulk_loop_ok (fails : Nat → Bool) (p : thread_pool Q) (range : List Task)
    (pos count : Nat) (h : ∀ k, k < range.length → fails (pos + k) = false) :
    enqueue_bulk_loop fails pos count p range =
      { pool := enqueue_range range p, it := [], signals := [Signal.notify_all],
        threw := false } := by
  induction range generalizing pos count p with
  | nil => rfl
  | cons t rest ih =>
    have h0 : fails pos = false := by simpa using h 0 (by simp)
    simp only [enqueue_bulk_loop, h0, Bool.false_eq_true, if_false]
    rw [ih]
    · rfl
    · intro k hk
      have := h (k + 1) (by simpa using hk)
      rw [← this]
      congr 1
      omega

theorem enqueue_range_nil (p : thread_pool Q) : enqueue_range ([] : List Task) p = p := rfl

theorem enqueue_range_cons (p : thread_pool Q) (t : Task) (ts : List Task) :
    enqueue_range (t :: ts) p =
      enqueue_range ts { p with queue_ := TaskQueue.emplace p.queue_ t } := rfl

theorem enqueue_bulk_loop_fail (fails : Nat → Bool) (p : thread_pool Q) (range : List Task)
    (pos count i : Nat) (hc : count < SIZE_MOD) (hi : i < range.length)
    (hok : ∀ k, k < i → fails (pos + k) = false) (hfail : fails (pos + i) = true) :
    enqueue_bulk_loop fails pos count p range =
      { pool := enqueue_range (range.take i) p, it := range.drop i,
        signals := if (count + i) % SIZE_MOD ≠ 0 then [Signal.notify_all] else [],
        threw := true } := by
  induction range generalizing pos count p i with
  | nil => simp at hi
  | cons t rest ih =>
    cases i with
    | zero =>
      have h0 : fails pos = true := by simpa using hfail
      have hm : (count + 0) % SIZE_MOD = count := by
        rw [Nat.add_zero]
        exact Nat.mod_eq_of_lt hc
      simp only [enqueue_bulk_loop, h0, if_true, List.take_zero, List.drop_zero, hm,
        enqueue_range_nil]
    | succ j =>
      have h0 : fails pos = false := by simpa using hok 0 (by omega)
      have hm : (incr count + j) % SIZE_MOD = (count + (j + 1)) % SIZE_MOD := by
        unfold incr SIZE_MOD
        omega
      simp only [enqueue_bulk_loop, h0, Bool.false_eq_true, if_false, List.take_succ_cons,
        List.drop_succ_cons, enqueue_range_cons]
      rw [ih _ (pos + 1) (incr count) j (Nat.mod_lt _ (by decide)) (by simpa using hi)
        (fun k hk => by
          have := hok (k + 1) (by omega)
          rw [← this]
          congr 1
          omega)
        (by
          rw [← hfail]
          congr 1
          omega), hm]

theorem enqueue_bulk_loop_frame (fails : Nat → Bool) (p : thread_pool Q) (range : List Task)
    (pos count : Nat) :
    (enqueue_bulk_loop fails pos count p range).pool.state_ = p.state_ ∧
    (enqueue_bulk_loop fails pos count p range).pool.thread_count_ = p.thread_count_ ∧
    (enqueue_bulk_loop fails pos count p range).pool.active_count_ = p.active_count_ ∧
    (enqueue_bulk_loop fails pos count p range).pool.action_ = p.action_ := by
  induction range generalizing pos count p with
  | nil => exact ⟨rfl, rfl, rfl, rfl⟩
  | cons t rest ih =>
    simp only [enqueue_bulk_loop]
    split
    · exact ⟨rfl, rfl, rfl, rfl⟩
    · exact ih _ _ _

theorem fifo_foldl_emplace (q ts : List Task) :
    ts.foldl TaskQueue.emplace q = q ++ ts := by
  induction ts generalizing q with
  | nil => simp
  | cons t rest ih =>
    simp only [List.foldl_cons]
    rw [ih]
    simp [TaskQueue.emplace]

/-- C14: bulk `enqueue( it , to )` on a non-empty range. If no `emplace` fails, every element
is emplaced in range order, `queue_cv_` is broadcast exactly once, nothing is thrown and the
caller's iterator has reached `to`. If the `emplace` at position `i` is the first to fail,
exactly the `i` elements before it have been emplaced, the failure is rethrown, the iterator
stands at position `i`, and `queue_cv_` is broadcast (once) iff `i > 0` (for `i` within the
range of the `std::size_t` counter `count`). In both cases `state_`,
the counters and the action set are as before. For a FIFO queue, emplacing a list in order
appends it to the queue. -/
theorem C14_bulk_enqueue (fails : Nat → Bool) (p : thread_pool Q) (range : List Task)
    (hne : range ≠ []) :
    ((∀ k, k < range.length → fails k = false) →
      enqueue_bulk fails p range =
        { pool := { p with queue_ := range.foldl TaskQueue.emplace p.queue_ },
          it := [], signals := [Signal.notify_all], threw := false }) ∧
    (∀ i, i < range.length → i < SIZE_MOD → (∀ k, k < i → fails k = false) →
      fails i = true →
      enqueue_bulk fails p range =
        { pool := { p with queue_ := (range.take i).foldl TaskQueue.emplace p.queue_ },
          it := range.drop i,
          signals := if 0 < i then [Signal.notify_all] else [], threw := true }) ∧
    (enqueue_bulk fails p range).pool.state_ = p.state_ ∧
    (enqueue_bulk fails p range).pool.thread_count_ = p.thread_count_ ∧
    (enqueue_bulk fails p range).pool.active_count_ = p.active_count_ ∧
    (enqueue_bulk fails p range).pool.action_ = p.action_ ∧
    (∀ (q ts : List Task), ts.foldl TaskQueue.emplace q = q ++ ts) := by
  obtain ⟨t, rest, rfl⟩ : ∃ t rest, range = t :: rest := by
    cases range with
    | nil => exact absurd rfl hne
    | cons t rest => exact ⟨t, rest, rfl⟩
  have hf := enqueue_bulk_loop_frame fails p (t :: rest) 0 0
  refine ⟨?_, ?_, hf.1, hf.2.1, hf.2.2.1, hf.2.2.2, fifo_foldl_emplace⟩
  · intro hok
    show enqueue_bulk_loop fails 0 0 p (t :: rest) = _
    rw [enqueue_bulk_loop_ok fails p (t :: rest) 0 0 (fun k hk => by simpa using hok k hk)]
    rfl
  · intro i hi hlt hok hfail
    show enqueue_bulk_loop fails 0 0 p (t :: rest) = _
    rw [enqueue_bulk_loop_fail fails p (t :: rest) 0 0 i (by decide) hi
      (fun k hk => by simpa using hok k hk) (by simpa using hfail)]
    have hm : (0 + i) % SIZE_MOD = i := by
      rw [Nat.zero_add]
      exact Nat.mod_eq_of_lt hlt
    rw [hm]
    by_cases h0 : i = 0
    · subst h0
      rfl
    · have hp : 0 < i := Nat.pos_of_ne_zero h0
      simp only [ne_eq, h0, not_false_eq_true, if_true, hp]
      rfl

/-- Witness for C14: the range `1, 2, 3` on the pool holding task `7`, the second `emplace`
failing. -/
theorem C14_witness :
    enqueue_bulk (fun k => k == 1) pending1.pool [1, 2, 3] =
      { pool := { pending1.pool with
                  queue_ := ([1, 2, 3].take 1).foldl TaskQueue.emplace pending1.pool.queue_ },
        it := [1, 2, 3].drop 1,
        signals := if 0 < 1 then [Signal.notify_all] else [], threw := true } :=
  (C14_bulk_enqueue (fun k => k == 1) pending1.pool [1, 2, 3] (by decide)).2.1 1
    (by decide) (by decide) (by decide) (by decide)

end claims_calls

section claims_guards

/-- C18: for an action that does not fail, destroying a guard runs the action exactly once if
neither `discard` nor `perform` was called and not at all after `discard`; `perform` runs it
exactly once at that moment and marks the guard discarded, so that the later destruction does
not run it again. The second component of the environment counts the runs. -/
theorem C18_scope_guard_runs {σ ε : Type} (f : σ → σ × Option ε)
    (hf : ∀ env, (f env).2 = none) (env : σ) (n : Nat) :
    (make_guard (counted f)).destroy (env, n) = (((f env).1, n + 1), Destroyed.done) ∧
    (make_guard (counted f)).discard.destroy (env, n) = ((env, n), Destroyed.done) ∧
    (make_guard (counted f)).perform (env, n) =
      ({ discarded_ := true, func_ := counted f }, ((f env).1, n + 1), none) ∧
    ((make_guard (counted f)).perform (env, n)).1.destroy
        ((make_guard (counted f)).perform (env, n)).2.1 =
      (((f env).1, n + 1), Destroyed.done) := by
  have h1 : (make_guard (counted f)).perform (env, n) =
      ({ discarded_ := true, func_ := counted f }, ((f env).1, n + 1), none) := by
    simp [make_guard, scope_guard.perform, counted, hf env]
  refine ⟨?_, ?_, h1, ?_⟩
  · simp [make_guard, scope_guard.destroy, scope_guard.destroy_body, noexcept_call, counted,
      hf env]
  · simp [make_guard, scope_guard.discard, scope_guard.destroy, scope_guard.destroy_body,
      noexcept_call]
  · rw [h1]
    simp [scope_guard.destroy, scope_guard.destroy_body, noexcept_call]

/-- Witness for C18: the action that adds `10` to a number; runs over the three lives of a
guard are `1`, `0` and `1`. -/
theorem C18_witness :
    (make_guard (counted (fun x : Nat => (x + 10, (none : Option Unit))))).destroy (5, 0) =
      ((15, 1), Destroyed.done) ∧
    (make_guard (counted (fun x : Nat => (x + 10, (none : Option Unit))))).discard.destroy
      (5, 0) = ((5, 0), Destroyed.done) ∧
    (make_guard (counted (fun x : Nat => (x + 10, (none : Option Unit))))).perform (5, 0) =
      ({ discarded_ := true, func_ := counted (fun x : Nat => (x + 10, (none : Option Unit))) },
        (15, 1), none) ∧
    ((make_guard (counted (fun x : Nat => (x + 10, (none : Option Unit))))).perform
        (5, 0)).1.destroy
      ((make_guard (counted (fun x : Nat => (x + 10, (none : Option Unit))))).perform
        (5, 0)).2.1 = ((15, 1), Destroyed.done) :=
  C18_scope_guard_runs (fun x : Nat => (x + 10, (none : Option Unit))) (fun _ => rfl) 5 0

/-- C19: for every action and every guard, the destruction never lets a failure go on to the
enclosing scope: the destructor is `noexcept`, so it returns or the process is ended by
`std::terminate`. For a guard that is not discarded: when the first call of the action
returns, the action has run once and the destructor returns; when the first call throws, the
handler of line 44 calls the action a second time, on the environment the first call left, and
the destructor returns if that call returns and the process is ended if it throws again. The
second component of the environment counts the runs. -/
theorem C19_destructor_contains {σ ε : Type} (f : σ → σ × Option ε) (env : σ) (n : Nat)
    (g : scope_guard σ ε) :
    (∀ e, (g.destroy env).2 ≠ Destroyed.propagated e) ∧
    (∀ e, ((make_guard (counted f)).destroy (env, n)).2 ≠ Destroyed.propagated e) ∧
    ((f env).2 = none →
      (make_guard (counted f)).destroy (env, n) = (((f env).1, n + 1), Destroyed.done)) ∧
    ((f env).2 ≠ none →
      ((make_guard (counted f)).destroy (env, n)).1 = ((f (f env).1).1, n + 2) ∧
      ((f (f env).1).2 = none →
        ((make_guard (counted f)).destroy (env, n)).2 = Destroyed.done) ∧
      ((f (f env).1).2 ≠ none →
        ((make_guard (counted f)).destroy (env, n)).2 = Destroyed.terminated)) := by
  have contained : ∀ (h : scope_guard σ ε) (x : σ) (e : ε),
      (h.destroy x).2 ≠ Destroyed.propagated e := by
    intro h x e
    unfold scope_guard.destroy noexcept_call
    split <;> simp
  have contained1 : ∀ (h : scope_guard (σ × Nat) ε) (x : σ × Nat) (e : ε),
      (h.destroy x).2 ≠ Destroyed.propagated e := by
    intro h x e
    unfold scope_guard.destroy noexcept_call
    split <;> simp
  refine ⟨contained g env, contained1 _ _, ?_, ?_⟩
  · intro h1
    simp [scope_guard.destroy, noexcept_call, make_guard, scope_guard.destroy_body, counted, h1]
  · intro h1
    obtain ⟨e1, he1⟩ := Option.ne_none_iff_exists'.1 h1
    cases h2 : (f (f env).1).2 with
    | none =>
      simp [scope_guard.destroy, noexcept_call, make_guard, scope_guard.destroy_body, counted,
        he1, h2]
    | some e2 =>
      simp [scope_guard.destroy, noexcept_call, make_guard, scope_guard.destroy_body, counted,
        he1, h2]

/-- Witness for C19: an action that throws on every invocation is invoked twice, and the process
is ended; nothing goes on to the enclosing scope. -/
theorem C19_witness :
    ((make_guard (counted (fun x : Nat => (x, some ())))).destroy (5, 0)).1 = (5, 2) ∧
    ((make_guard (counted (fun x : Nat => (x, some ())))).destroy (5, 0)).2 =
      Destroyed.terminated :=
  ⟨((C19_destructor_contains (fun x : Nat => (x, some ())) 5 0
      (make_guard (fun x : Nat => (x, some ())))).2.2.2 (by simp)).1,
   ((C19_destructor_contains (fun x : Nat => (x, some ())) 5 0
      (make_guard (fun x : Nat => (x, some ())))).2.2.2 (by simp)).2.2 (by simp)⟩

end claims_guards

section claims_unique_lock
variable {M : Type}

/-- C20 (fails on the code): on every guard that satisfies the invariant written at line 198
(a guard that owns has a mutex) the members do what the claim says: a guard constructed from a
mutex whose `lock` returns owns it; `unlock` on a guard that owns succeeds and leaves
`owns_lock()` false; `unlock` on a guard that does not own throws `operation_not_permitted`;
`lock` on a guard that owns throws `resource_deadlock_would_occur`; `lock` on a guard without
mutex throws `operation_not_permitted`; every throwing call leaves the guard as it was;
otherwise `lock` succeeds when the mutex's `lock` returns, and `owns_lock()` becomes true.
The code breaks the invariant: move-assigning from a guard that owns mutex `obj` leaves the
source with `is_locked_` set and no mutex; on that guard, which owns, `lock` throws
`operation_not_permitted` and not `resource_deadlock_would_occur`, and `unlock` goes through
the null `obj_ptr_` instead of succeeding. -/
theorem C20_unique_lock_contract (obj : M) :
    (∀ g : unique_lock M, (g.owns_lock = true → g.mutex ≠ none) →
      (unique_lock.locking obj none = Except.ok ⟨some obj, true⟩ ∧
        (⟨some obj, true⟩ : unique_lock M).owns_lock = true) ∧
      (g.owns_lock = true →
        g.unlock = ({ g with is_locked_ := false }, Ended.done) ∧
        g.unlock.1.owns_lock = false ∧
        ∀ r, g.lock r = (g, Ended.system_error errc.resource_deadlock_would_occur)) ∧
      (g.owns_lock = false →
        g.unlock = (g, Ended.system_error errc.operation_not_permitted)) ∧
      (g.mutex = none →
        ∀ r, g.lock r = (g, Ended.system_error errc.operation_not_permitted)) ∧
      (g.owns_lock = false → g.mutex ≠ none →
        g.lock none = ({ g with is_locked_ := true }, Ended.done) ∧
        (g.lock none).1.owns_lock = true ∧
        ∀ e, g.lock (some e) = (g, Ended.system_error e))) ∧
    ((unique_lock.move_assign ⟨none, false⟩ (⟨some obj, true⟩ : unique_lock M)).2.1 =
        ⟨none, true⟩ ∧
      (⟨none, true⟩ : unique_lock M).owns_lock = true ∧
      (⟨none, true⟩ : unique_lock M).lock none =
        (⟨none, true⟩, Ended.system_error errc.operation_not_permitted) ∧
      ((⟨none, true⟩ : unique_lock M).lock none).2 ≠
        Ended.system_error errc.resource_deadlock_would_occur ∧
      (⟨none, true⟩ : unique_lock M).unlock = (⟨none, true⟩, Ended.null_dereference)) := by
  refine ⟨?_, rfl, rfl, rfl, by simp [unique_lock.lock, lock_assert], rfl⟩
  intro g hinv
  obtain ⟨ptr, locked⟩ := g
  simp only [unique_lock.owns_lock, unique_lock.mutex] at hinv
  refine ⟨⟨rfl, rfl⟩, ?_, ?_, ?_, ?_⟩
  · intro h1
    simp only [unique_lock.owns_lock] at h1
    subst h1
    cases ptr with
    | none => exact absurd rfl (hinv rfl)
    | some m => exact ⟨rfl, rfl, fun r => rfl⟩
  · intro h1
    simp only [unique_lock.owns_lock] at h1
    subst h1
    rfl
  · intro h1 r
    simp only [unique_lock.mutex] at h1
    subst h1
    cases locked with
    | true => exact absurd rfl (hinv rfl)
    | false => rfl
  · intro h1 h2
    simp only [unique_lock.owns_lock, unique_lock.mutex] at h1 h2
    subst h1
    cases ptr with
    | none => exact absurd rfl h2
    | some m => exact ⟨rfl, rfl, fun e => rfl⟩

/-- Witness for C20 (as in `tests/test0.cxx`): the guard constructed from a mutex owns it, and
after `unlock` it does not. -/
theorem C20_witness :
    (unique_lock.locking 0 none = Except.ok (⟨some 0, true⟩ : unique_lock Nat) ∧
      (⟨some 0, true⟩ : unique_lock Nat).owns_lock = true) ∧
    (⟨some 0, true⟩ : unique_lock Nat).unlock = (⟨some 0, false⟩, Ended.done) ∧
    (⟨some 0, true⟩ : unique_lock Nat).unlock.1.owns_lock = false :=
  ⟨((C20_unique_lock_contract 0).1 ⟨some 0, true⟩ (by decide)).1,
   (((C20_unique_lock_contract 0).1 ⟨some 0, true⟩ (by decide)).2.1 rfl).1,
   (((C20_unique_lock_contract 0).1 ⟨some 0, true⟩ (by decide)).2.1 rfl).2.1⟩

end claims_unique_lock

section construction
variable {Q Task : Type} [TaskQueue Q Task]

theorem run_append {s s1 s2 : System Q Task} (a b : List (Event Task))
    {oa ob : List (Obs Task)} (ha : run s a = some (s1, oa)) (hb : run s1 b = some (s2, ob)) :
    run s (a ++ b) = some (s2, oa ++ ob) := by
  induction a generalizing s oa with
  | nil =>
    simp only [run, Option.some.injEq, Prod.mk.injEq] at ha
    obtain ⟨rfl, rfl⟩ := ha
    simpa using hb
  | cons e es ih =>
    simp only [run] at ha
    split at ha
    · simp at ha
    · rename_i s3 o hstep
      split at ha
      · simp at ha
      · rename_i s4 os4 hrest
        simp only [Option.some.injEq, Prod.mk.injEq] at ha
        obtain ⟨rfl, rfl⟩ := ha
        rw [List.cons_append]
        simp only [run, hstep]
        rw [ih hrest]
        rfl

/-- A worker that enters the loop of a pool under construction falls asleep. -/
theorem constructing_step [QueueLaws Q Task] {n : Nat} {s s1 : System Q Task}
    {e : Event Task} {o : Obs Task} (hc : Constructing n s) (he : e.constructing = true)
    (h : step s e = some (s1, o)) : Constructing n s1 := by
  obtain ⟨hq, ha, hact, hst, hlen, hws, hop⟩ := hc
  cases e with
  | worker i =>
    obtain ⟨w, w1, hw, hr, hset, hop1⟩ := step_worker h
    have hwp : ∀ q : thread_pool Q, q.queue_ = s.pool.queue_ → q.action_ = s.pool.action_ →
        wait_pred q = false := by
      intro q h1 h2
      simp [wait_pred, h1, h2, hq, hact, ActionSet.any, QueueLaws.empty_init]
    have hlt : ∀ q : thread_pool Q, q.active_count_ = 0 → loop_top q = q := by
      intro q h0
      simp [loop_top, h0]
    rcases routine_cases w w1 s.pool s1.pool o hr with ⟨rfl, hi⟩ | ⟨t, rfl, -⟩ | ⟨rfl, hwt, -⟩
    · rcases iteration_cases _ _ _ _ hi with ⟨-, rfl, rfl, hp⟩ | ⟨hwt, -⟩
      · rw [hlt { s.pool with thread_count_ := incr s.pool.thread_count_ } ha] at hp
        refine ⟨by rw [hp]; exact hq, by rw [hp]; exact ha, by rw [hp]; exact hact,
          by rw [hp]; exact hst, by rw [hset]; simpa using hlen, ?_, by rw [hop1]; exact hop⟩
        intro x hx
        rw [hset] at hx
        rcases List.mem_or_eq_of_mem_set hx with hx | rfl
        · exact hws x hx
        · exact Or.inr rfl
      · rw [hwp { s.pool with thread_count_ := incr s.pool.thread_count_ } rfl rfl] at hwt
        exact absurd hwt (by decide)
    · rcases hws _ (List.getElem?_mem hw) with h1 | h1 <;> exact absurd h1 (by simp)
    · rw [hwp s.pool rfl rfl] at hwt
      exact absurd hwt (by decide)
  | client_wake =>
    simp only [step] at h
    rcases hop with hop | ⟨nc, hop⟩
    · simp [hop] at h
    · simp only [hop, Option.some.injEq, Prod.mk.injEq] at h
      obtain ⟨rfl, -⟩ := h
      refine ⟨by rw [add_thread_wait_pool]; exact hq, by rw [add_thread_wait_pool]; exact ha,
        by rw [add_thread_wait_pool]; exact hact, by rw [add_thread_wait_pool]; exact hst,
        hlen, hws, ?_⟩
      unfold add_thread_wait
      split
      · exact Or.inl rfl
      · exact Or.inr ⟨nc, rfl⟩
  | add_thread k r => simp [Event.constructing] at he
  | remove_thread => simp [Event.constructing] at he
  | clear => simp [Event.constructing] at he
  | enqueue t => simp [Event.constructing] at he
  | enqueue_range ts => simp [Event.constructing] at he
  | discard_queue => simp [Event.constructing] at he
  | pause => simp [Event.constructing] at he
  | resume => simp [Event.constructing] at he
  | join => simp [Event.constructing] at he

theorem constructing_run [QueueLaws Q Task] {n : Nat} {s s1 : System Q Task}
    (evs : List (Event Task)) {os : List (Obs Task)} (hc : Constructing n s)
    (he : ∀ e ∈ evs, e.constructing = true) (hr : run s evs = some (s1, os)) :
    Constructing n s1 := by
  induction evs generalizing s os with
  | nil =>
    simp only [run, Option.some.injEq, Prod.mk.injEq] at hr
    obtain ⟨rfl, -⟩ := hr
    exact hc
  | cons e es ih =>
    simp only [run] at hr
    split at hr
    · simp at hr
    · rename_i s2 o hstep
      split at hr
      · simp at hr
      · rename_i s3 os3 hrest
        simp only [Option.some.injEq, Prod.mk.injEq] at hr
        obtain ⟨rfl, -⟩ := hr
        exact ih (constructing_step hc (he e (List.mem_cons_self _ _)) hstep)
          (fun x hx => he x (List.mem_cons_of_mem _ hx)) hrest

theorem construct_constructing (n : Nat) : Constructing n (construct n : System Q Task) := by
  have hp : (construct n : System Q Task).pool = thread_pool.init n := by
    simp only [construct, add_thread, add_thread_wait_pool]
  refine ⟨by rw [hp]; rfl, by rw [hp]; rfl, by rw [hp]; rfl, by rw [hp]; rfl,
    by simp [construct], ?_, ?_⟩
  · intro w hw
    simp only [construct, List.mem_replicate] at hw
    exact Or.inl hw.2
  · simp only [construct, add_thread, add_thread_wait]
    split
    · exact Or.inl rfl
    · exact Or.inr ⟨_, rfl⟩

/-- After the constructor has returned, the pool is the constructed one. -/
theorem constructing_idle {n : Nat} {s : System Q Task} (hr : Reachable n s)
    (hc : Constructing n s) (hidle : s.op = Op.idle) : s.pool = constructed n := by
  obtain ⟨hq, ha, hact, hst, hlen, hws, -⟩ := hc
  have h0 : s.workers.countP Worker.starting = 0 :=
    (reachable_starting hr).2 (fun k hk => by rw [hidle] at hk; exact absurd hk (by simp))
  have hall : ∀ w ∈ s.workers, Worker.live w = true := by
    intro w hw
    rcases hws w hw with rfl | rfl
    · have hpos : 0 < s.workers.countP Worker.starting :=
        List.countP_pos_iff.2 ⟨Worker.created, hw, rfl⟩
      omega
    · rfl
  have htc : s.pool.thread_count_ = n := by
    rw [(reachable_inv hr).tc, System.live_count, List.countP_eq_length.2 hall, hlen]
  cases hp : s.pool with
  | mk q t a st ac =>
    rw [hp] at hq ha hact hst htc
    simp only at hq ha hact hst htc
    subst hq ha hact hst htc
    rfl

/-- The next worker of a pool under construction enters and falls asleep. -/
theorem entered_step [QueueLaws Q Task] {n k : Nat} {s : System Q Task} (hn : n < SIZE_MOD)
    (h : Entered n k s) (hk : k < n) :
    ∃ s1, step s (Event.worker k) = some (s1, Obs.sleeping) ∧ Entered n (k + 1) s1 := by
  obtain ⟨hp, hop, hlen, hlo, hhi⟩ := h
  have hw := hhi k (Nat.le_refl k) hk
  have hincr : incr k = k + 1 := by
    unfold incr SIZE_MOD at *
    omega
  have hr : routine (Worker.created : Worker Task) s.pool =
      some (Worker.waiting, { (constructed n : thread_pool Q) with thread_count_ := k + 1 },
        Obs.sleeping) := by
    rw [hp]
    simp [routine, iteration, loop_top, wait_pred, constructed, ActionSet.any,
      QueueLaws.empty_init, hincr]
  refine ⟨{ s with pool := { (constructed n : thread_pool Q) with thread_count_ := k + 1 },
                   workers := s.workers.set k Worker.waiting }, ?_, rfl, hop, ?_, ?_, ?_⟩
  · simp only [step, hw, hr]
  · simpa using hlen
  · intro i hi
    by_cases hik : i = k
    · subst hik
      simp only
      rw [List.getElem?_set_self (by omega)]
    · simp only
      rw [List.getElem?_set_ne (fun h => hik h.symm)]
      exact hlo i (by omega)
  · intro i h1 h2
    simp only
    rw [List.getElem?_set_ne (by omega)]
    exact hhi i (by omega) h2

theorem entered_run [QueueLaws Q Task] {n : Nat} (hn : n < SIZE_MOD) (m k : Nat)
    {s : System Q Task} (h : Entered n k s) (hk : k + m ≤ n) :
    ∃ s1 os, run s ((List.range' k m).map Event.worker) = some (s1, os) ∧
      Entered n (k + m) s1 := by
  induction m generalizing k s with
  | zero => exact ⟨s, [], rfl, h⟩
  | succ m ih =>
    obtain ⟨s1, hs1, he1⟩ := entered_step hn h (by omega)
    obtain ⟨s2, os, hs2, he2⟩ := ih (k + 1) he1 (by omega)
    refine ⟨s2, Obs.sleeping :: os, ?_, by rw [show k + (m + 1) = k + 1 + m by omega]; exact he2⟩
    rw [List.range'_succ, List.map_cons]
    simp only [run, hs1, hs2]

theorem construct_entered (n : Nat) (hn : n < SIZE_MOD) (h0 : n ≠ 0) :
    Entered n 0 (construct n : System Q Task) := by
  have hmod : (0 + n) % SIZE_MOD = n := by
    rw [Nat.zero_add]
    exact Nat.mod_eq_of_lt hn
  refine ⟨?_, ?_, by simp [construct], fun i hi => absurd hi (by omega), ?_⟩
  · simp only [construct, add_thread, add_thread_wait_pool]
    rfl
  · simp only [construct, add_thread, add_thread_wait, thread_pool.init, hmod]
    rw [if_neg (fun h => h0 h.symm)]
  · intro i _ hi
    simp only [construct]
    exact List.getElem?_replicate_of_lt hi

/-- C13: for every `n`, the constructor `thread_pool( n )` returns (once its `n` workers have
entered the loop), and whenever it returns, after whatever steps of its workers and wake-ups,
`state_` is `PAUSED` if `n == 0` and `EXECUTING` otherwise, `thread_count_ == n`,
`active_count_ == 0`, the action set is empty and the queue is the empty default-constructed
one. -/
theorem C13_construct_returns [QueueLaws Q Task] (n : Nat) (hn : n < SIZE_MOD) :
    (∃ evs s os, (∀ e ∈ evs, Event.constructing e = true) ∧
      run (construct n : System Q Task) evs = some (s, os) ∧ s.op = Op.idle) ∧
    ∀ evs (s : System Q Task) os, (∀ e ∈ evs, Event.constructing e = true) →
      run (construct n : System Q Task) evs = some (s, os) → s.op = Op.idle →
      s.pool.state_ = (if n = 0 then EPoolState.PAUSED else EPoolState.EXECUTING) ∧
      s.pool.thread_count_ = n ∧ s.pool.active_count_ = 0 ∧
      s.pool.action_ = ⟨false, false⟩ ∧ s.pool.queue_ = TaskQueue.init ∧
      TaskQueue.empty s.pool.queue_ = true := by
  constructor
  · by_cases h0 : n = 0
    · subst h0
      exact ⟨[], construct 0, [], fun e he => absurd he (by simp), rfl, rfl⟩
    · obtain ⟨s1, os, hrun, hent⟩ :=
        @entered_run Q Task _ _ n hn n 0 (construct n) (construct_entered n hn h0) (by omega)
      rw [Nat.zero_add] at hent
      obtain ⟨hp, hop, -, -, -⟩ := hent
      have hwake : run s1 [Event.client_wake] =
          some ({ s1 with op := Op.idle }, [Obs.returned]) := by
        simp [run, step, hop, add_thread_wait, hp]
      refine ⟨(List.range' 0 n).map Event.worker ++ [Event.client_wake],
        { s1 with op := Op.idle }, os ++ [Obs.returned], ?_, run_append _ _ hrun hwake, rfl⟩
      intro e he
      rcases List.mem_append.1 he with he | he
      · obtain ⟨i, -, rfl⟩ := List.mem_map.1 he
        rfl
      · rw [List.mem_singleton.1 he]
        rfl
  · intro evs s os hev hrun hidle
    have hc := constructing_run evs (construct_constructing n) hev hrun
    have hr := reachable_run evs (Reachable.construct hn) hrun
    have hp := constructing_idle hr hc hidle
    rw [hp]
    refine ⟨?_, rfl, rfl, rfl, rfl, QueueLaws.empty_init⟩
    by_cases h0 : n = 0 <;> simp [constructed, h0]

/-- Witness for C13: `thread_pool pool{ 3 }`. -/
theorem C13_witness :
    three_asleep.pool.state_ = (if 3 = 0 then EPoolState.PAUSED else EPoolState.EXECUTING) ∧
    three_asleep.pool.thread_count_ = 3 ∧ three_asleep.pool.active_count_ = 0 ∧
    three_asleep.pool.action_ = ⟨false, false⟩ ∧ three_asleep.pool.queue_ = TaskQueue.init ∧
    TaskQueue.empty three_asleep.pool.queue_ = true :=
  (C13_construct_returns 3 (by decide)).2
    [Event.worker 0, Event.worker 1, Event.worker 2, Event.client_wake] three_asleep
    [Obs.sleeping, Obs.sleeping, Obs.sleeping, Obs.returned] (by decide) (by decide) rfl

end construction

section order
variable {Q Task : Type} [TaskQueue Q Task]

/-- A worker critical section either starts the task at the front of the queue, popping it, or
leaves the queue alone. -/
theorem routine_queue (w w1 : Worker Task) (p p1 : thread_pool Q) (o : Obs Task)
    (h : routine w p = some (w1, p1, o)) :
    (∃ task, o = Obs.started task ∧ TaskQueue.front p.queue_ = some task ∧
      p1.queue_ = TaskQueue.pop p.queue_) ∨
    ((∀ task, o ≠ Obs.started task) ∧ p1.queue_ = p.queue_) := by
  rcases routine_cases w w1 p p1 o h with ⟨rfl, hi⟩ | ⟨t, rfl, hi⟩ | ⟨rfl, hw, ha⟩
  · rcases iteration_cases _ _ _ _ hi with ⟨_, rfl, rfl, rfl⟩ | ⟨_, ha⟩
    · exact Or.inr ⟨fun _ => by simp, by simp⟩
    · rcases after_wait_cases _ _ _ _ ha with ⟨_, rfl, rfl, rfl⟩ | ⟨_, _, rfl, rfl, rfl⟩ |
        ⟨t, _, hq, rfl, rfl, rfl⟩
      · exact Or.inr ⟨fun _ => by simp, by simp [on_thread_exit]⟩
      · exact Or.inr ⟨fun _ => by simp, by simp⟩
      · exact Or.inl ⟨t, rfl, by simpa using hq, by simp⟩
  · rcases iteration_cases _ _ _ _ hi with ⟨_, rfl, rfl, rfl⟩ | ⟨_, ha⟩
    · exact Or.inr ⟨fun _ => by simp, by simp⟩
    · rcases after_wait_cases _ _ _ _ ha with ⟨_, rfl, rfl, rfl⟩ | ⟨_, _, rfl, rfl, rfl⟩ |
        ⟨t, _, hq, rfl, rfl, rfl⟩
      · exact Or.inr ⟨fun _ => by simp, by simp [on_thread_exit]⟩
      · exact Or.inr ⟨fun _ => by simp, by simp⟩
      · exact Or.inl ⟨t, rfl, by simpa using hq, by simp⟩
  · rcases after_wait_cases _ _ _ _ ha with ⟨_, rfl, rfl, rfl⟩ | ⟨_, _, rfl, rfl, rfl⟩ |
      ⟨t, _, hq, rfl, rfl, rfl⟩
    · exact Or.inr ⟨fun _ => by simp, by simp [on_thread_exit]⟩
    · exact Or.inr ⟨fun _ => by simp, rfl⟩
    · exact Or.inl ⟨t, rfl, hq, rfl⟩

end order

section order_plain
variable {Q Task : Type}

/-- No critical section of a structural operation touches the queue or starts a task. -/
theorem structural_op_queue (p : thread_pool Q) (st : EPoolState) (n : Nat) :
    ((add_thread_wait n p : thread_pool Q × Op × Obs Task).1.queue_ = p.queue_ ∧
      ∀ t, (add_thread_wait n p : thread_pool Q × Op × Obs Task).2.2 ≠ Obs.started t) ∧
    ((remove_thread p : thread_pool Q × Op × Obs Task).1.queue_ = p.queue_ ∧
      ∀ t, (remove_thread p : thread_pool Q × Op × Obs Task).2.2 ≠ Obs.started t) ∧
    ((remove_thread_wait1 st n p : thread_pool Q × Op × Obs Task).1.queue_ = p.queue_ ∧
      ∀ t, (remove_thread_wait1 st n p : thread_pool Q × Op × Obs Task).2.2 ≠ Obs.started t) ∧
    ((remove_thread_wait2 st n p : thread_pool Q × Op × Obs Task).1.queue_ = p.queue_ ∧
      ∀ t, (remove_thread_wait2 st n p : thread_pool Q × Op × Obs Task).2.2 ≠ Obs.started t) ∧
    ((clear p : thread_pool Q × Op × Obs Task).1.queue_ = p.queue_ ∧
      ∀ t, (clear p : thread_pool Q × Op × Obs Task).2.2 ≠ Obs.started t) ∧
    ((clear_wait1 p : thread_pool Q × Op × Obs Task).1.queue_ = p.queue_ ∧
      ∀ t, (clear_wait1 p : thread_pool Q × Op × Obs Task).2.2 ≠ Obs.started t) ∧
    ((clear_wait2 p : thread_pool Q × Op × Obs Task).1.queue_ = p.queue_ ∧
      ∀ t, (clear_wait2 p : thread_pool Q × Op × Obs Task).2.2 ≠ Obs.started t) := by
  have w2 : ∀ st n (q : thread_pool Q),
      (remove_thread_wait2 st n q : thread_pool Q × Op × Obs Task).1.queue_ = q.queue_ ∧
      ∀ t, (remove_thread_wait2 st n q : thread_pool Q × Op × Obs Task).2.2 ≠
        Obs.started t := by
    intro st n q
    unfold remove_thread_wait2 set_state_back
    split
    · split <;> simp
    · simp
  have w1 : ∀ st n (q : thread_pool Q),
      (remove_thread_wait1 st n q : thread_pool Q × Op × Obs Task).1.queue_ = q.queue_ ∧
      ∀ t, (remove_thread_wait1 st n q : thread_pool Q × Op × Obs Task).2.2 ≠
        Obs.started t := by
    intro st n q
    unfold remove_thread_wait1
    split
    · exact w2 _ _ _
    · simp
  have c2 : ∀ q : thread_pool Q,
      (clear_wait2 q : thread_pool Q × Op × Obs Task).1.queue_ = q.queue_ ∧
      ∀ t, (clear_wait2 q : thread_pool Q × Op × Obs Task).2.2 ≠ Obs.started t := by
    intro q
    unfold clear_wait2
    split <;> simp
  have c1 : ∀ q : thread_pool Q,
      (clear_wait1 q : thread_pool Q × Op × Obs Task).1.queue_ = q.queue_ ∧
      ∀ t, (clear_wait1 q : thread_pool Q × Op × Obs Task).2.2 ≠ Obs.started t := by
    intro q
    unfold clear_wait1
    split
    · exact c2 _
    · simp
  refine ⟨?_, ?_, w1 st n p, w2 st n p, ?_, c1 p, c2 p⟩
  · unfold add_thread_wait
    split <;> simp
  · unfold remove_thread
    split
    · simp
    · exact w1 _ _ _
  · unfold clear
    split
    · simp
    · exact c1 _

end order_plain

section order
variable {Q Task : Type} [TaskQueue Q Task]

/-- A client call or wake-up starts no task and changes the queue as `Event.on_queue` says. -/
theorem step_client_queue {s s1 : System Q Task} {e : Event Task} {o : Obs Task}
    (h : step s e = some (s1, o)) (he : ∀ i, e ≠ Event.worker i) :
    (∀ task, o ≠ Obs.started task) ∧ s1.pool.queue_ = Event.on_queue s.pool.queue_ e := by
  cases e with
  | worker i => exact absurd rfl (he i)
  | add_thread k r =>
    simp only [step] at h
    split at h
    · simp only [Option.some.injEq, Prod.mk.injEq] at h
      obtain ⟨rfl, rfl⟩ := h
      have := (@structural_op_queue Q Task s.pool s.pool.state_
        ((s.pool.thread_count_ + k) % SIZE_MOD)).1
      exact ⟨this.2, this.1⟩
    · simp at h
  | remove_thread =>
    simp only [step] at h
    split at h
    · simp only [Option.some.injEq, Prod.mk.injEq] at h
      obtain ⟨rfl, rfl⟩ := h
      have := (@structural_op_queue Q Task s.pool s.pool.state_ 0).2.1
      exact ⟨this.2, this.1⟩
    · simp at h
  | clear =>
    simp only [step] at h
    split at h
    · simp only [Option.some.injEq, Prod.mk.injEq] at h
      obtain ⟨rfl, rfl⟩ := h
      have := (@structural_op_queue Q Task s.pool s.pool.state_ 0).2.2.2.2.1
      exact ⟨this.2, this.1⟩
    · simp at h
  | client_wake =>
    simp only [step] at h
    split at h
    all_goals simp only [Option.some.injEq, Prod.mk.injEq, reduceCtorEq] at h
    all_goals obtain ⟨rfl, rfl⟩ := h
    · rename_i nc _
      have := (@structural_op_queue Q Task s.pool s.pool.state_ nc).1
      exact ⟨this.2, this.1⟩
    · rename_i st nc _
      have := (@structural_op_queue Q Task s.pool st nc).2.2.1
      exact ⟨this.2, this.1⟩
    · rename_i st nc _
      have := (@structural_op_queue Q Task s.pool st nc).2.2.2.1
      exact ⟨this.2, this.1⟩
    · have := (@structural_op_queue Q Task s.pool s.pool.state_ 0).2.2.2.2.2.1
      exact ⟨this.2, this.1⟩
    · have := (@structural_op_queue Q Task s.pool s.pool.state_ 0).2.2.2.2.2.2
      exact ⟨this.2, this.1⟩
  | enqueue t =>
    simp only [step, Option.some.injEq, Prod.mk.injEq] at h
    obtain ⟨rfl, rfl⟩ := h
    exact ⟨fun _ => by simp, rfl⟩
  | enqueue_range ts =>
    simp only [step, Option.some.injEq, Prod.mk.injEq] at h
    obtain ⟨rfl, rfl⟩ := h
    exact ⟨fun _ => by simp, rfl⟩
  | discard_queue =>
    simp only [step, Option.some.injEq, Prod.mk.injEq] at h
    obtain ⟨rfl, rfl⟩ := h
    exact ⟨fun _ => by simp, rfl⟩
  | pause =>
    simp only [step, Option.some.injEq, Prod.mk.injEq] at h
    obtain ⟨rfl, rfl⟩ := h
    unfold pause
    split <;> exact ⟨fun _ => by simp, rfl⟩
  | resume =>
    simp only [step, Option.some.injEq, Prod.mk.injEq] at h
    obtain ⟨rfl, rfl⟩ := h
    unfold resume
    split
    · split <;> exact ⟨fun _ => by simp, rfl⟩
    · split <;> exact ⟨fun _ => by simp, rfl⟩
  | join =>
    simp only [step, Option.some.injEq, Prod.mk.injEq] at h
    obtain ⟨rfl, rfl⟩ := h
    unfold join
    split <;> exact ⟨fun _ => by simp, rfl⟩

theorem started_tasks_cons (o : Obs Task) (os : List (Obs Task)) :
    started_tasks (o :: os) = started_tasks [o] ++ started_tasks os := by
  cases o <;> simp [started_tasks]

theorem enqueued_tasks_cons (e : Event Task) (es : List (Event Task)) :
    enqueued_tasks (e :: es) = enqueued_tasks [e] ++ enqueued_tasks es := by
  cases e <;> simp [enqueued_tasks]

theorem started_tasks_other (o : Obs Task) (h : ∀ task, o ≠ Obs.started task) :
    started_tasks [o] = [] := by
  cases o <;> simp [started_tasks] at h ⊢

/-- One step on a FIFO queue: what was started, followed by the queue left, is the queue found
followed by what was enqueued. -/
theorem fifo_step {s s1 : System (List Task) Task} {e : Event Task} {o : Obs Task}
    (h : step s e = some (s1, o)) (hd : e ≠ Event.discard_queue) :
    started_tasks [o] ++ s1.pool.queue_ = s.pool.queue_ ++ enqueued_tasks [e] := by
  by_cases he : ∃ i, e = Event.worker i
  · obtain ⟨i, rfl⟩ := he
    obtain ⟨w, w1, -, hr, -, -⟩ := step_worker h
    rcases routine_queue w w1 s.pool s1.pool o hr with ⟨t, rfl, hf, hq⟩ | ⟨ho, hq⟩
    · rw [hq]
      cases hs : s.pool.queue_ with
      | nil => simp [hs, TaskQueue.front] at hf
      | cons a rest =>
        simp only [hs, TaskQueue.front, List.head?_cons, Option.some.injEq] at hf
        subst hf
        simp [started_tasks, enqueued_tasks, TaskQueue.pop]
    · rw [started_tasks_other o ho, hq]
      simp [enqueued_tasks]
  · obtain ⟨ho, hq⟩ := step_client_queue h (fun i hi => he ⟨i, hi⟩)
    rw [started_tasks_other o ho, hq]
    cases e with
    | discard_queue => exact absurd rfl hd
    | enqueue t => simp [Event.on_queue, enqueued_tasks, TaskQueue.emplace]
    | enqueue_range ts => simp [Event.on_queue, enqueued_tasks, fifo_foldl_emplace]
    | worker i => exact absurd ⟨i, rfl⟩ he
    | add_thread k r => simp [Event.on_queue, enqueued_tasks]
    | remove_thread => simp [Event.on_queue, enqueued_tasks]
    | clear => simp [Event.on_queue, enqueued_tasks]
    | client_wake => simp [Event.on_queue, enqueued_tasks]
    | pause => simp [Event.on_queue, enqueued_tasks]
    | resume => simp [Event.on_queue, enqueued_tasks]
    | join => simp [Event.on_queue, enqueued_tasks]

theorem fifo_run {s s1 : System (List Task) Task} (evs : List (Event Task))
    {os : List (Obs Task)} (hr : run s evs = some (s1, os))
    (hd : ∀ e ∈ evs, e ≠ Event.discard_queue) :
    started_tasks os ++ s1.pool.queue_ = s.pool.queue_ ++ enqueued_tasks evs := by
  induction evs generalizing s os with
  | nil =>
    simp only [run, Option.some.injEq, Prod.mk.injEq] at hr
    obtain ⟨rfl, rfl⟩ := hr
    simp [started_tasks, enqueued_tasks]
  | cons e es ih =>
    simp only [run] at hr
    split at hr
    · simp at hr
    · rename_i s2 o hstep
      split at hr
      · simp at hr
      · rename_i s3 os3 hrest
        simp only [Option.some.injEq, Prod.mk.injEq] at hr
        obtain ⟨rfl, rfl⟩ := hr
        have h1 := fifo_step hstep (hd e (List.mem_cons_self _ _))
        have h2 := ih hrest (fun x hx => hd x (List.mem_cons_of_mem _ hx))
        rw [started_tasks_cons, enqueued_tasks_cons, List.append_assoc, h2,
          ← List.append_assoc, h1, List.append_assoc]

/-- C16: a worker step that starts a task takes the element `front()` gives and leaves the
queue popped. Hence for a FIFO queue, in any run from the constructor without `discard_queue`,
the tasks started (in the order of the dequeue steps) followed by the tasks still queued are
the tasks enqueued, in the order of the `enqueue` calls; so the started tasks are a prefix of
the enqueued ones. `enqueue( task )` emplaces the task (at the back of a FIFO queue) and
changes nothing else. -/
theorem C16_fifo_order :
    (∀ (s s1 : System Q Task) (i : Nat) (task : Task),
      step s (Event.worker i) = some (s1, Obs.started task) →
      TaskQueue.front s.pool.queue_ = some task ∧
        s1.pool.queue_ = TaskQueue.pop s.pool.queue_) ∧
    (∀ (n : Nat) (evs : List (Event Task)) (s : System (List Task) Task)
      (os : List (Obs Task)),
      run (construct n) evs = some (s, os) → (∀ e ∈ evs, e ≠ Event.discard_queue) →
      started_tasks os ++ s.pool.queue_ = enqueued_tasks evs ∧
        started_tasks os <+: enqueued_tasks evs) ∧
    (∀ (p : thread_pool Q) (task : Task),
      enqueue task p = { p with queue_ := TaskQueue.emplace p.queue_ task }) ∧
    (∀ (p : thread_pool (List Task)) (task : Task),
      (enqueue task p).queue_ = p.queue_ ++ [task] ∧
      (enqueue task p).state_ = p.state_ ∧
      (enqueue task p).thread_count_ = p.thread_count_ ∧
      (enqueue task p).active_count_ = p.active_count_ ∧
      (enqueue task p).action_ = p.action_) := by
  refine ⟨?_, ?_, fun _ _ => rfl, fun _ _ => ⟨rfl, rfl, rfl, rfl, rfl⟩⟩
  · intro s s1 i task h
    obtain ⟨w, w1, -, hr, -, -⟩ := step_worker h
    rcases routine_queue w w1 s.pool s1.pool _ hr with ⟨t, ht, hf, hq⟩ | ⟨ho, -⟩
    · simp only [Obs.started.injEq] at ht
      subst ht
      exact ⟨hf, hq⟩
    · exact absurd rfl (ho task)
  · intro n evs s os hr hd
    have h := fifo_run evs hr hd
    have h0 : (construct n : System (List Task) Task).pool.queue_ = [] := by
      simp only [construct, add_thread, add_thread_wait_pool]
      rfl
    rw [h0, List.nil_append] at h
    exact ⟨h, ⟨s.pool.queue_, h⟩⟩

/-- Witness for C16: tasks `7`, `8`, `9` are enqueued and the worker starts `7`. -/
theorem C16_witness :
    started_tasks [Obs.sleeping, Obs.returned, Obs.returned, Obs.returned, Obs.started 7] ++
        [8, 9] =
      enqueued_tasks (to_pending1 ++ [Event.enqueue_range [8, 9], Event.worker 0]) ∧
    started_tasks [Obs.sleeping, Obs.returned, Obs.returned, Obs.returned, Obs.started 7] <+:
      enqueued_tasks (to_pending1 ++ [Event.enqueue_range [8, 9], Event.worker 0]) :=
  (@C16_fifo_order (List Nat) Nat _).2.1 1
    (to_pending1 ++ [Event.enqueue_range [8, 9], Event.worker 0])
    { pool := { queue_ := [8, 9], thread_count_ := 1, active_count_ := 1,
                state_ := EPoolState.EXECUTING, action_ := ⟨false, false⟩ }
      workers := [Worker.running 7]
      op := Op.idle }
    [Obs.sleeping, Obs.returned, Obs.returned, Obs.returned, Obs.started 7]
    (by decide) (by decide)

end order

section faults
variable {Q Task : Type} [TaskQueue Q Task]

end faults

section faults_claim
variable {Q Task : Type} [TaskQueue Q Task]

end faults_claim


section handles

/-- C21: the thread handle, in its POSIX and its WinAPI variant alike. A default-constructed
handle is not joinable; a handle constructed from an action (the OS call succeeding) is
joinable; `join` and `detach` on a joinable handle whose OS call succeeds return and leave it
not joinable; on a handle that is not joinable they throw `std::invalid_argument` and leave it
unchanged; move construction leaves the source not joinable and gives the destination the
joinability the source had; the destructor and move assignment onto a handle call
`std::terminate` exactly when that handle is joinable. -/
theorem C21_thread_handle (garbage error id handle last_error : Nat) (closed wait_failed : Bool)
    (t obj : POSIX.thread) (u obj1 : WinAPI.thread) :
    ((POSIX.thread.default_constructed garbage).joinable = false ∧
      POSIX.thread.spawned 0 id = Except.ok { thread_id_ := id, is_joinable_ := true } ∧
      (({ thread_id_ := id, is_joinable_ := true } : POSIX.thread)).joinable = true ∧
      (t.joinable = true →
        t.join 0 = ({ t with is_joinable_ := false }, ThreadEnd.done) ∧
        (t.join 0).1.joinable = false ∧
        t.detach 0 = ({ t with is_joinable_ := false }, ThreadEnd.done) ∧
        (t.detach 0).1.joinable = false) ∧
      (t.joinable = false →
        t.join error = (t, ThreadEnd.invalid_argument) ∧
        t.detach error = (t, ThreadEnd.invalid_argument)) ∧
      (t.moved.2.joinable = false ∧ t.moved.1.joinable = t.joinable) ∧
      (t.destroy = ThreadEnd.terminate ↔ t.joinable = true) ∧
      ((t.move_assign obj).2.2 = ThreadEnd.terminate ↔ t.joinable = true)) ∧
    ((WinAPI.thread.default_constructed garbage).joinable = false ∧
      (handle ≠ 0 →
        WinAPI.thread.spawned handle id last_error =
          Except.ok { handle_ := handle, id_ := id } ∧
        (({ handle_ := handle, id_ := id } : WinAPI.thread)).joinable = true) ∧
      (u.joinable = true →
        u.join false last_error = ({ u with handle_ := 0 }, ThreadEnd.done) ∧
        (u.join false last_error).1.joinable = false ∧
        u.detach true last_error = ({ u with handle_ := 0 }, ThreadEnd.done) ∧
        (u.detach true last_error).1.joinable = false) ∧
      (u.joinable = false →
        u.join wait_failed last_error = (u, ThreadEnd.invalid_argument) ∧
        u.detach closed last_error = (u, ThreadEnd.invalid_argument)) ∧
      (u.moved.2.joinable = false ∧ u.moved.1.joinable = u.joinable) ∧
      (u.destroy = ThreadEnd.terminate ↔ u.joinable = true) ∧
      ((u.move_assign obj1).2.2 = ThreadEnd.terminate ↔ u.joinable = true)) := by
  refine ⟨⟨rfl, rfl, rfl, ?_, ?_, ⟨rfl, rfl⟩, ?_, ?_⟩, ⟨rfl, ?_, ?_, ?_, ⟨rfl, rfl⟩, ?_, ?_⟩⟩
  · intro h
    simp only [POSIX.thread.joinable] at h
    simp [POSIX.thread.join, POSIX.thread.detach, POSIX.thread.joinable, h]
  · intro h
    simp [POSIX.thread.join, POSIX.thread.detach, h]
  · cases hj : t.joinable <;> simp [POSIX.thread.destroy, hj]
  · cases hj : t.joinable <;> simp [POSIX.thread.move_assign, hj]
  · intro h
    simp [WinAPI.thread.spawned, WinAPI.thread.joinable, h]
  · intro h
    have h0 : u.handle_ ≠ 0 := by simpa [WinAPI.thread.joinable] using h
    simp [WinAPI.thread.join, WinAPI.thread.detach, WinAPI.thread.joinable, h0]
  · intro h
    simp [WinAPI.thread.join, WinAPI.thread.detach, h]
  · cases hj : u.joinable <;> simp [WinAPI.thread.destroy, hj]
  · cases hj : u.joinable <;> simp [WinAPI.thread.move_assign, hj]

/-- Witness for C21: the handles `th0` (default-constructed) and `th1` (constructed from an
action) of `src/tests/test0.cxx`, lines 23-45, with `th1` joined at the end. -/
theorem C21_witness :
    (POSIX.thread.default_constructed 0).joinable = false ∧
    POSIX.thread.spawned 0 5 = Except.ok { thread_id_ := 5, is_joinable_ := true } ∧
    (({ thread_id_ := 5, is_joinable_ := true } : POSIX.thread).join 0).1.joinable = false ∧
    (({ thread_id_ := 5, is_joinable_ := true } : POSIX.thread).destroy = ThreadEnd.terminate ↔
      ({ thread_id_ := 5, is_joinable_ := true } : POSIX.thread).joinable = true) :=
  have h := C21_thread_handle 0 0 5 1 0 true false { thread_id_ := 5, is_joinable_ := true }
    { thread_id_ := 0, is_joinable_ := false } { handle_ := 1, id_ := 5 }
    { handle_ := 0, id_ := 0 }
  ⟨h.1.1, h.1.2.1, (h.1.2.2.2.1 rfl).2.1, h.1.2.2.2.2.2.2.1⟩

end handles

section timed_waits

theorem posix_wait_for_eq (p : Bool) (rounds : List (Wake × Bool)) :
    POSIX.condition_variable.wait_for p rounds = POSIX.condition_variable.wait_until p rounds :=
  rfl

theorem winapi_wait_for_eq (p : Bool) (rounds : List (Wake × Bool)) :
    WinAPI.condition_variable.wait_for p rounds =
      POSIX.condition_variable.wait_until p rounds := by
  induction rounds generalizing p with
  | nil => cases p <;> rfl
  | cons r rest ih =>
    obtain ⟨w, q⟩ := r
    cases p
    · cases w
      · simp only [WinAPI.condition_variable.wait_for, POSIX.condition_variable.wait_until]
        exact ih q
      · rfl
      · rfl
    · rfl

theorem winapi_wait_until_eq (p : Bool) (rounds : List (Wake × Bool)) :
    WinAPI.condition_variable.wait_until p rounds =
      POSIX.condition_variable.wait_until p rounds :=
  winapi_wait_for_eq p rounds

/-- The loop returns `true` only on seeing the predicate true. -/
theorem wait_until_true (p q : Bool) (rounds : List (Wake × Bool))
    (h : POSIX.condition_variable.wait_until p rounds = TimedWait.returned true q) :
    q = true := by
  induction rounds generalizing p with
  | nil => cases p <;> simp_all [POSIX.condition_variable.wait_until]
  | cons r rest ih =>
    obtain ⟨w, pn⟩ := r
    cases p
    · cases w
      · exact ih pn (by simpa [POSIX.condition_variable.wait_until] using h)
      · simp [POSIX.condition_variable.wait_until] at h
      · simp [POSIX.condition_variable.wait_until] at h
    · simp_all [POSIX.condition_variable.wait_until]

/-- The loop returns `false` only from a time-out of the OS wait, every earlier wait having
ended with the predicate false. -/
theorem wait_until_false (p q : Bool) (rounds : List (Wake × Bool))
    (h : POSIX.condition_variable.wait_until p rounds = TimedWait.returned false q) :
    p = false ∧ ∃ pre rest, rounds = pre ++ (Wake.timed_out, q) :: rest ∧
      all_woken_false pre = true := by
  induction rounds generalizing p with
  | nil => cases p <;> simp [POSIX.condition_variable.wait_until] at h
  | cons r rest ih =>
    obtain ⟨w, pn⟩ := r
    cases p
    · refine ⟨rfl, ?_⟩
      cases w
      · have h1 : POSIX.condition_variable.wait_until pn rest = TimedWait.returned false q := by
          simpa [POSIX.condition_variable.wait_until] using h
        obtain ⟨hpn, pre, rest1, hr, hall⟩ := ih pn h1
        subst hpn
        refine ⟨(Wake.woken, false) :: pre, rest1, by rw [hr]; rfl, ?_⟩
        simpa [all_woken_false] using hall
      · simp only [POSIX.condition_variable.wait_until, TimedWait.returned.injEq,
          true_and] at h
        subst h
        exact ⟨[], rest, rfl, rfl⟩
      · simp [POSIX.condition_variable.wait_until] at h
    · simp [POSIX.condition_variable.wait_until] at h

/-- A time-out after wake-ups that found the predicate false makes the loop return `false`,
whatever the predicate is at that moment. -/
theorem wait_until_timed_out (q : Bool) (pre rest : List (Wake × Bool))
    (h : all_woken_false pre = true) :
    POSIX.condition_variable.wait_until false (pre ++ (Wake.timed_out, q) :: rest) =
      TimedWait.returned false q := by
  induction pre with
  | nil => rfl
  | cons r pre1 ih =>
    obtain ⟨w, pn⟩ := r
    simp only [all_woken_false, List.all_cons, Bool.and_eq_true, beq_iff_eq] at h
    obtain ⟨⟨hw, hp⟩, hrest⟩ := h
    subst hw
    subst hp
    simp only [List.cons_append, POSIX.condition_variable.wait_until]
    exact ih hrest

/-- C22, the counterexample: the predicate is false when the wait begins, and the OS wait
reports a time-out at a moment when the predicate has become true (in
`src/tests/test_cond_var.cxx` the condition is set after about 2 s, the time-out is 2 s + 6 ns).
All four members return `false` although the predicate holds at the final wake. -/
theorem C22_counterexample :
    POSIX.condition_variable.wait_until false [(Wake.timed_out, true)] =
      TimedWait.returned false true ∧
    POSIX.condition_variable.wait_for false [(Wake.timed_out, true)] =
      TimedWait.returned false true ∧
    WinAPI.condition_variable.wait_for false [(Wake.timed_out, true)] =
      TimedWait.returned false true ∧
    WinAPI.condition_variable.wait_until false [(Wake.timed_out, true)] =
      TimedWait.returned false true := by
  decide

/-- C22, amended: for every sequence of wake-ups, time-outs and predicate values, each of the
four timed waits with predicate returns `true` only when the predicate holds at that moment,
and returns `false` only when the OS wait has reported a time-out, the predicate having been
false at its last evaluation, before that wait, and at every earlier wake-up; a wake-up that
finds the predicate false makes none of them return, and a predicate that is true at the call
makes them return `true` at once. -/
theorem C22_timed_wait_result :
    ∀ f ∈ [POSIX.condition_variable.wait_until, POSIX.condition_variable.wait_for,
        WinAPI.condition_variable.wait_for, WinAPI.condition_variable.wait_until],
      ∀ (p : Bool) (rounds : List (Wake × Bool)),
        (∀ q, f p rounds = TimedWait.returned true q → q = true) ∧
        (∀ q, f p rounds = TimedWait.returned false q →
          p = false ∧ ∃ pre rest, rounds = pre ++ (Wake.timed_out, q) :: rest ∧
            all_woken_false pre = true) ∧
        f false ((Wake.woken, false) :: rounds) = f false rounds ∧
        f true rounds = TimedWait.returned true true := by
  intro f hf p rounds
  have key : f = POSIX.condition_variable.wait_until := by
    simp only [List.mem_cons, List.mem_singleton, List.not_mem_nil, or_false] at hf
    rcases hf with rfl | rfl | rfl | rfl
    · rfl
    · funext a b; exact posix_wait_for_eq a b
    · funext a b; exact winapi_wait_for_eq a b
    · funext a b; exact winapi_wait_until_eq a b
  subst key
  refine ⟨fun q h => wait_until_true p q rounds h, fun q h => wait_until_false p q rounds h,
    rfl, ?_⟩
  cases rounds <;> rfl

/-- Witness for C22: a spurious wake-up with the predicate false changes nothing, and the
notification that follows, with the predicate true, makes `wait_for` return `true`. -/
theorem C22_witness :
    POSIX.condition_variable.wait_for false [(Wake.woken, false), (Wake.woken, true)] =
      POSIX.condition_variable.wait_for false [(Wake.woken, true)] ∧
    POSIX.condition_variable.wait_for false [(Wake.woken, true)] =
      TimedWait.returned true true :=
  ⟨(C22_timed_wait_result POSIX.condition_variable.wait_for (by simp) false
    [(Wake.woken, true)]).2.2.1, rfl⟩

end timed_waits

section timespecs

theorem wrap_id (bits : Nat) (x : Int) (hb : 1 ≤ bits) (h1 : -(2 ^ (bits - 1)) ≤ x)
    (h2 : x < 2 ^ (bits - 1)) : wrap bits x = x := by
  unfold wrap
  have hp : (2 : Int) ^ bits = 2 * 2 ^ (bits - 1) := by
    obtain ⟨k, rfl⟩ : ∃ k, bits = k + 1 := ⟨bits - 1, by omega⟩
    simp [pow_succ]
    ring
  rw [hp]
  rw [Int.emod_eq_of_lt (by omega) (by omega)]
  omega

theorem pow_le_pow_bits (a b : Nat) (h : a ≤ b) : (2 : Int) ^ a ≤ 2 ^ b :=
  pow_le_pow_right₀ (by norm_num) h

/-- The split of a count of nanoseconds that is not negative and fits the 64-bit `rep`. -/
theorem split_duration_exact (time_bits long_bits : Nat) (n : Int) (h0 : 0 ≤ n)
    (h63 : n < 2 ^ 63) (ht : 64 ≤ time_bits) (hl : 32 ≤ long_bits) :
    split_duration time_bits long_bits n = { tv_sec := n / NANO, tv_nsec := n % NANO } := by
  have hdiv : Int.tdiv n NANO = n / NANO := Int.tdiv_eq_ediv h0 (by decide)
  have hN : NANO = 1000000000 := rfl
  have hq0 : 0 ≤ n / NANO := Int.ediv_nonneg h0 (by decide)
  have hq1 : n / NANO ≤ n := Int.ediv_le_self _ h0
  have hmul : n / NANO * NANO + n % NANO = n := Int.ediv_add_emod' n NANO
  have hm0 : 0 ≤ n % NANO := Int.emod_nonneg _ (by decide)
  have hm1 : n % NANO < NANO := Int.emod_lt_of_pos _ (by decide)
  have h63v : (2 : Int) ^ 63 = 9223372036854775808 := by norm_num
  have h64 : (2 : Int) ^ (64 - 1) = 9223372036854775808 := by norm_num
  have ht1 : (2 : Int) ^ 63 ≤ 2 ^ (time_bits - 1) := pow_le_pow_bits _ _ (by omega)
  have hl1 : (2 : Int) ^ 31 ≤ 2 ^ (long_bits - 1) := pow_le_pow_bits _ _ (by omega)
  have h31v : (2 : Int) ^ 31 = 2147483648 := by norm_num
  unfold split_duration
  simp only [hdiv]
  have e1 : wrap 64 (n / NANO * NANO) = n / NANO * NANO :=
    wrap_id 64 _ (by norm_num) (by rw [h64]; nlinarith) (by rw [h64]; omega)
  rw [e1]
  have e2 : n - n / NANO * NANO = n % NANO := by omega
  rw [e2]
  have e3 : wrap 64 (n % NANO) = n % NANO :=
    wrap_id 64 _ (by norm_num) (by rw [h64]; omega) (by rw [h64]; omega)
  rw [e3]
  have e4 : wrap time_bits (n / NANO) = n / NANO :=
    wrap_id _ _ (by omega) (by omega) (by omega)
  have e5 : wrap long_bits (n % NANO) = n % NANO :=
    wrap_id _ _ (by omega) (by omega) (by omega)
  rw [e4, e5]

theorem try_lock_until_timespec_eq (time_bits long_bits : Nat) (is_system_clock : Bool)
    (timeout_time sys_now clock_now : Int) :
    try_lock_until_timespec time_bits long_bits is_system_clock timeout_time sys_now clock_now =
      to_sys_timepoint time_bits long_bits is_system_clock timeout_time sys_now clock_now :=
  rfl

/-- C30: a time point of the system clock at or after the epoch, `n` nanoseconds since the
epoch (a count in the signed 64-bit `rep`), is converted for the OS timed wait to the
`timespec` with `tv_sec == n div 10^9` and `tv_nsec == n mod 10^9`, where `time_t` has at least
64 bits and `long` at least 32; hence `tv_sec * 10^9 + tv_nsec == n` and
`0 <= tv_nsec < 10^9`. The same holds for the `timespec` of `try_lock_until`. -/
theorem C30_timespec_conversion (time_bits long_bits : Nat) (n sys_now clock_now : Int)
    (h0 : 0 ≤ n) (h63 : n < 2 ^ 63) (ht : 64 ≤ time_bits) (hl : 32 ≤ long_bits) :
    (to_sys_timepoint time_bits long_bits true n sys_now clock_now).tv_sec = n / 1000000000 ∧
    (to_sys_timepoint time_bits long_bits true n sys_now clock_now).tv_nsec = n % 1000000000 ∧
    (to_sys_timepoint time_bits long_bits true n sys_now clock_now).tv_sec * 1000000000 +
      (to_sys_timepoint time_bits long_bits true n sys_now clock_now).tv_nsec = n ∧
    0 ≤ (to_sys_timepoint time_bits long_bits true n sys_now clock_now).tv_nsec ∧
    (to_sys_timepoint time_bits long_bits true n sys_now clock_now).tv_nsec < 1000000000 ∧
    try_lock_until_timespec time_bits long_bits true n sys_now clock_now =
      to_sys_timepoint time_bits long_bits true n sys_now clock_now := by
  have h : to_sys_timepoint time_bits long_bits true n sys_now clock_now =
      { tv_sec := n / NANO, tv_nsec := n % NANO } := by
    simp only [to_sys_timepoint, sys_time_point, if_true]
    exact split_duration_exact time_bits long_bits n h0 h63 ht hl
  rw [try_lock_until_timespec_eq, h]
  refine ⟨rfl, rfl, ?_, ?_, ?_, rfl⟩
  · show n / 1000000000 * 1000000000 + n % 1000000000 = n
    exact Int.ediv_add_emod' n 1000000000
  · show 0 ≤ n % 1000000000
    omega
  · show n % 1000000000 < 1000000000
    omega

/-- Witness for C30: the deadline of `src/tests/test_cond_var.cxx`, line 22: 2 s + 6 ns after
a `now` of 1 500 000 000 s and 999 999 999 ns since the epoch, which is 1 500 000 003 s and 5 ns. -/
theorem C30_witness :
    (to_sys_timepoint 64 64 true 1500000003000000005 0 0).tv_sec = 1500000003000000005 / 1000000000 ∧
    (to_sys_timepoint 64 64 true 1500000003000000005 0 0).tv_nsec = 1500000003000000005 % 1000000000 ∧
    (to_sys_timepoint 64 64 true 1500000003000000005 0 0).tv_sec * 1000000000 +
      (to_sys_timepoint 64 64 true 1500000003000000005 0 0).tv_nsec = 1500000003000000005 ∧
    0 ≤ (to_sys_timepoint 64 64 true 1500000003000000005 0 0).tv_nsec ∧
    (to_sys_timepoint 64 64 true 1500000003000000005 0 0).tv_nsec < 1000000000 ∧
    try_lock_until_timespec 64 64 true 1500000003000000005 0 0 =
      to_sys_timepoint 64 64 true 1500000003000000005 0 0 :=
  C30_timespec_conversion 64 64 1500000003000000005 0 0 (by decide) (by decide) (by decide)
    (by decide)

end timespecs

section unique_lock_moves
variable {M : Type}

/-- Without move assignment a guard that owns a lock has a mutex. -/
theorem reached_owns_mutex (g : unique_lock M) (h : unique_lock.Reached false g) :
    g.is_locked_ = true → g.obj_ptr_ ≠ none := by
  induction h with
  | default_constructed => simp [unique_lock.default_constructed]
  | locking obj g hg =>
    simp only [unique_lock.locking, Except.ok.injEq] at hg
    subst hg
    simp
  | deferred obj => simp [unique_lock.deferred]
  | adopting obj => simp [unique_lock.adopting]
  | moved_to src _ ih => simpa [unique_lock.moved] using ih
  | moved_from src _ _ => simp [unique_lock.moved]
  | assigned_to dst src ha _ _ _ _ => simp at ha
  | assigned_from dst src ha _ _ _ _ => simp at ha
  | lock g mutex_lock _ ih =>
    unfold unique_lock.lock lock_assert
    cases hp : g.obj_ptr_ with
    | none => simpa [hp] using ih
    | some m =>
      cases hl : g.is_locked_ with
      | true => simp [hp, hl]
      | false => cases mutex_lock <;> simp [hp, hl]
  | unlock g _ ih =>
    unfold unique_lock.unlock
    cases hl : g.is_locked_ with
    | false => simp [hl]
    | true =>
      cases hp : g.obj_ptr_ with
      | none => simp [hl, hp] at ih
      | some m => simp [hl, hp]
  | swap_self g obj _ _ _ ih2 => simpa [unique_lock.swap] using ih2
  | swap_other g obj _ _ ih1 _ => simpa [unique_lock.swap] using ih1

/-- C27 (fails on the code for move assignment): move construction transfers the mutex and the
ownership flag and leaves the source with neither. Move assignment (lines 187-194) copies
`obj_ptr_` only: the destination has the mutex of the source and does not own it, and the
source has no mutex and keeps its flag. Assigning a guard that owns mutex `obj` to a
default-constructed guard gives a destination with `owns_lock() == false` and a source with
`owns_lock() == true`. -/
theorem C27_move_assignment_keeps_flag (obj : M) (src dst : unique_lock M) :
    (src.moved.1.mutex = src.mutex ∧ src.moved.1.owns_lock = src.owns_lock ∧
      src.moved.2.mutex = none ∧ src.moved.2.owns_lock = false) ∧
    ((dst.move_assign src).2.2 = Ended.done →
      (dst.move_assign src).1.mutex = src.mutex ∧
      (dst.move_assign src).1.owns_lock = false ∧
      (dst.move_assign src).2.1.mutex = none ∧
      (dst.move_assign src).2.1.owns_lock = src.owns_lock) ∧
    (unique_lock.default_constructed.move_assign (unique_lock.adopting obj) =
      ({ obj_ptr_ := some obj, is_locked_ := false },
       { obj_ptr_ := none, is_locked_ := true }, Ended.done)) ∧
    (unique_lock.adopting obj).owns_lock = true ∧
    (unique_lock.adopting obj).mutex = some obj := by
  refine ⟨⟨rfl, rfl, rfl, rfl⟩, ?_, rfl, rfl, rfl⟩
  unfold unique_lock.move_assign unique_lock.unlock unique_lock.mutex unique_lock.owns_lock
  cases hl : dst.is_locked_ <;> cases hp : dst.obj_ptr_ <;> simp [hl]

/-- C28 (fails on the code): a guard that adopts mutex `obj` is move-assigned to a
default-constructed guard; afterwards the source owns a lock (`owns_lock() == true`) and has no
mutex (`mutex() == nullptr`), and its destructor calls `unlock` through the null pointer.
Move assignment is the only way there: every state produced without it satisfies the claim. -/
theorem C28_owns_lock_without_mutex (obj : M) :
    unique_lock.Reached true ({ obj_ptr_ := none, is_locked_ := true } : unique_lock M) ∧
    ({ obj_ptr_ := none, is_locked_ := true } : unique_lock M) =
      (unique_lock.default_constructed.move_assign (unique_lock.adopting obj)).2.1 ∧
    ({ obj_ptr_ := none, is_locked_ := true } : unique_lock M).owns_lock = true ∧
    ({ obj_ptr_ := none, is_locked_ := true } : unique_lock M).mutex = none ∧
    ({ obj_ptr_ := none, is_locked_ := true } : unique_lock M).destroy =
      Ended.null_dereference ∧
    (∀ g : unique_lock M, unique_lock.Reached false g →
      g.owns_lock = true → g.mutex ≠ none ∧ g.destroy = Ended.done) := by
  refine ⟨?_, rfl, rfl, rfl, rfl, ?_⟩
  · exact unique_lock.Reached.assigned_from unique_lock.default_constructed
      (unique_lock.adopting obj) rfl unique_lock.Reached.default_constructed
      (unique_lock.Reached.adopting obj)
  · intro g hg ho
    have hne := reached_owns_mutex g hg ho
    refine ⟨hne, ?_⟩
    simp only [unique_lock.owns_lock] at ho
    unfold unique_lock.destroy
    cases hp : g.obj_ptr_ with
    | none => exact absurd hp hne
    | some m => simp [ho]

/-- C29 (fails on the code for the constructor): the constructor with `try_to_lock` (lines
215-220) calls `try_lock()` and then sets `is_locked_ = true` whatever it returned, so after a
failed `try_lock()` the guard reports `owns_lock() == true`. The member `try_lock` of a guard
with a mutex returns what the mutex returned, and `owns_lock()` is that value afterwards. -/
theorem C29_try_to_lock_ignores_result (obj : M) (mutex_try_lock : Bool) (g : unique_lock M) :
    (unique_lock.trying obj mutex_try_lock).owns_lock = true ∧
    (unique_lock.trying obj false).owns_lock ≠ false ∧
    (unique_lock.trying obj mutex_try_lock).mutex = some obj ∧
    (g.mutex ≠ none →
      (g.try_lock mutex_try_lock).2 = some mutex_try_lock ∧
      (g.try_lock mutex_try_lock).1.owns_lock = mutex_try_lock ∧
      (g.try_lock mutex_try_lock).1.mutex = g.mutex) := by
  refine ⟨rfl, by simp [unique_lock.trying, unique_lock.owns_lock], rfl, ?_⟩
  intro h
  unfold unique_lock.try_lock unique_lock.mutex unique_lock.owns_lock
  cases hp : g.obj_ptr_ with
  | none => exact absurd hp h
  | some m => simp

end unique_lock_moves

section finish_plain
variable {Q Task : Type}

theorem at_wait_fields (w : Worker Task) (p : thread_pool Q) :
    (at_wait w p).queue_ = p.queue_ ∧ (at_wait w p).state_ = p.state_ ∧
    (at_wait w p).action_ = p.action_ ∧ (at_wait w p).thread_count_ = entered_count w p := by
  cases w <;> simp [at_wait, entered_count]

end finish_plain

section finish_exit
variable {Q Task : Type} [TaskQueue Q Task]

theorem wait_pred_finish (p : thread_pool Q) (hF : p.action_.FINISH = true) :
    wait_pred p = true := by
  simp [wait_pred, ActionSet.any, hF]

theorem after_wait_finish (p : thread_pool Q) (hF : p.action_.FINISH = true) :
    (after_wait p : Worker Task × thread_pool Q × Obs Task) =
      (Worker.exited, on_thread_exit false { p with action_ := leave_action p },
        Obs.finished) := by
  rcases select_cases p with ⟨_, hs⟩ | ⟨hF0, _, _⟩ | ⟨t, hF0, _, _⟩
  · simp only [after_wait, hs]
  · rw [hF] at hF0; cases hF0
  · rw [hF] at hF0; cases hF0

/-- A worker that finds `FINISH` set leaves. -/
theorem routine_finish (w : Worker Task) (p : thread_pool Q) (hw : w ≠ Worker.exited)
    (hF : p.action_.FINISH = true) :
    routine w p = some (Worker.exited,
      on_thread_exit false { at_wait w p with action_ := leave_action (at_wait w p) },
      Obs.finished) := by
  cases w with
  | exited => exact absurd rfl hw
  | waiting =>
    simp only [routine, wait_pred_finish p hF, if_true, at_wait]
    rw [after_wait_finish p hF]
  | created =>
    simp only [routine, iteration, at_wait]
    rw [if_pos (wait_pred_finish _ (by simpa using hF))]
    rw [after_wait_finish _ (by simpa using hF)]
  | running t =>
    simp only [routine, iteration, at_wait]
    rw [if_pos (wait_pred_finish _ (by simpa using hF))]
    rw [after_wait_finish _ (by simpa using hF)]

/-- C24: in every pool state, a worker that comes to its wait with `FINISH` set (a worker
that starts, one that comes back from a task, or one woken in its wait) leaves its loop: it
starts no task, and the queue and the state are as before. If `FINISH_ALL` is not set it clears
`FINISH`; if `FINISH_ALL` is set it clears `FINISH_ALL` exactly when `thread_count_ == 1`
and otherwise leaves the flags alone. On exit `thread_count_` is the count that included the
worker, decremented by one. -/
theorem C24_finish_exit (w : Worker Task) (p : thread_pool Q) (hw : w ≠ Worker.exited)
    (hF : p.action_.FINISH = true) :
    ∃ p1 : thread_pool Q, routine w p = some (Worker.exited, p1, Obs.finished) ∧
      p1.queue_ = p.queue_ ∧ p1.state_ = p.state_ ∧
      p1.active_count_ = (at_wait w p).active_count_ ∧
      p1.thread_count_ = decr (entered_count w p) ∧
      (1 ≤ entered_count w p → entered_count w p < SIZE_MOD →
        p1.thread_count_ + 1 = entered_count w p) ∧
      (p.action_.FINISH_ALL = false → p1.action_ = { FINISH := false, FINISH_ALL := false }) ∧
      (p.action_.FINISH_ALL = true → entered_count w p = 1 →
        p1.action_ = { FINISH := true, FINISH_ALL := false }) ∧
      (p.action_.FINISH_ALL = true → entered_count w p ≠ 1 → p1.action_ = p.action_) := by
  obtain ⟨hq, hs, ha, ht⟩ := at_wait_fields w p
  refine ⟨_, routine_finish w p hw hF, ?_, ?_, ?_, ?_, ?_, ?_, ?_, ?_⟩
  · simpa [on_thread_exit] using hq
  · simpa [on_thread_exit] using hs
  · simp [on_thread_exit]
  · simp [on_thread_exit, ht]
  · intro h1 h2
    simp only [on_thread_exit, Bool.false_eq_true, if_false, ht]
    rw [decr_pos _ h1 h2]
    omega
  · intro hA
    simp only [on_thread_exit, Bool.false_eq_true, if_false, leave_action, ha, hA,
      Bool.not_false, if_true]
  · intro hA h1
    simp only [on_thread_exit, Bool.false_eq_true, if_false, leave_action, ha, hA,
      Bool.not_true, ht, h1, if_true]
    cases hp : p.action_
    simp_all
  · intro hA h1
    simp only [on_thread_exit, Bool.false_eq_true, if_false, leave_action, ha, hA,
      Bool.not_true, ht, h1]

/-- Witness for C24: in the middle of `clear` on the pool of one worker (state `clearing1`,
both flags set, `thread_count_ == 1`, task `7` queued) the worker leaves, clears `FINISH_ALL`
and leaves task `7` in the queue. -/
theorem C24_witness :
    ∃ p1 : thread_pool (List Nat),
      routine (Worker.waiting : Worker Nat) clearing1.pool =
        some (Worker.exited, p1, Obs.finished) ∧
      p1.queue_ = clearing1.pool.queue_ ∧ p1.state_ = clearing1.pool.state_ ∧
      p1.active_count_ = (at_wait (Worker.waiting : Worker Nat) clearing1.pool).active_count_ ∧
      p1.thread_count_ = decr (entered_count (Worker.waiting : Worker Nat) clearing1.pool) ∧
      (1 ≤ entered_count (Worker.waiting : Worker Nat) clearing1.pool →
        entered_count (Worker.waiting : Worker Nat) clearing1.pool < SIZE_MOD →
        p1.thread_count_ + 1 = entered_count (Worker.waiting : Worker Nat) clearing1.pool) ∧
      (clearing1.pool.action_.FINISH_ALL = false →
        p1.action_ = { FINISH := false, FINISH_ALL := false }) ∧
      (clearing1.pool.action_.FINISH_ALL = true →
        entered_count (Worker.waiting : Worker Nat) clearing1.pool = 1 →
        p1.action_ = { FINISH := true, FINISH_ALL := false }) ∧
      (clearing1.pool.action_.FINISH_ALL = true →
        entered_count (Worker.waiting : Worker Nat) clearing1.pool ≠ 1 →
        p1.action_ = clearing1.pool.action_) :=
  C24_finish_exit Worker.waiting clearing1.pool (by decide) (by decide)

end finish_exit

section resume_assert

/-- C26 (fails on the code): on `thread_pool pool{ 1 }`, `resume` is called from another thread
while `remove_thread` waits for its worker to leave. The call finds the state `PAUSED` that
`remove_thread` has set and a thread count of `1`, and sets `EXECUTING`. The worker leaves,
and `remove_thread` returns without restoring the state, its `new_count` being `0` (lines
190-194). The pool is reachable, has `state_ == EXECUTING` and `thread_count_ == 0`, and the
next call of `resume` fails the assertion of line 293. -/
theorem C26_resume_assert_fails :
    resume_during_remove =
      [Event.worker 0, Event.client_wake, Event.remove_thread, Event.resume, Event.worker 0,
        Event.client_wake, Event.resume] ∧
    run (construct 1) resume_during_remove.dropLast =
      some (executing_alone, [Obs.sleeping, Obs.returned, Obs.blocked, Obs.returned_bool true,
        Obs.finished, Obs.returned]) ∧
    Reachable 1 executing_alone ∧
    executing_alone.pool.state_ = EPoolState.EXECUTING ∧
    executing_alone.pool.thread_count_ = 0 ∧
    step executing_alone Event.resume = some (executing_alone, Obs.assert_failed) ∧
    resume executing_alone.pool = (executing_alone.pool, (Obs.assert_failed : Obs Nat)) := by
  refine ⟨rfl, by decide, ?_, rfl, rfl, by decide, by decide⟩
  exact reachable_run resume_during_remove.dropLast (Reachable.construct (by decide))
    (by decide : run (construct 1) resume_during_remove.dropLast =
      some (executing_alone, [Obs.sleeping, Obs.returned, Obs.blocked, Obs.returned_bool true,
        Obs.finished, Obs.returned]))

end resume_assert

section flags_plain
variable {Q Task : Type}

theorem remove_thread_wait2_flags (st : EPoolState) (nc : Nat) (q : thread_pool Q)
    (hq : FlagsOf (Op.remove_thread_2 st nc) q.action_ q.thread_count_) :
    FlagsOf (remove_thread_wait2 st nc q : thread_pool Q × Op × Obs Task).2.1
      (remove_thread_wait2 st nc q : thread_pool Q × Op × Obs Task).1.action_
      (remove_thread_wait2 st nc q : thread_pool Q × Op × Obs Task).1.thread_count_ := by
  unfold remove_thread_wait2 set_state_back
  by_cases h0 : q.thread_count_ = nc
  · rw [if_pos h0]
    simp only [FlagsOf] at hq ⊢
    rcases hq with ⟨_, h1⟩ | h1
    · omega
    · split_ifs <;> exact Or.inl h1
  · rw [if_neg h0]
    exact hq

theorem remove_thread_wait1_flags (st : EPoolState) (nc : Nat) (q : thread_pool Q)
    (ha : q.action_ = ⟨false, false⟩) (ht : q.thread_count_ = nc + 1) :
    FlagsOf (remove_thread_wait1 st nc q : thread_pool Q × Op × Obs Task).2.1
      (remove_thread_wait1 st nc q : thread_pool Q × Op × Obs Task).1.action_
      (remove_thread_wait1 st nc q : thread_pool Q × Op × Obs Task).1.thread_count_ := by
  unfold remove_thread_wait1
  by_cases h0 : q.active_count_ ≠ q.thread_count_
  · rw [if_pos h0]
    refine remove_thread_wait2_flags st nc _ (Or.inl ⟨?_, ht⟩)
    simp [ha]
  · rw [if_neg h0]
    exact ⟨ha, ht⟩

theorem remove_thread_flags (p : thread_pool Q) (ha : p.action_ = ⟨false, false⟩) :
    FlagsOf (remove_thread p : thread_pool Q × Op × Obs Task).2.1
      (remove_thread p : thread_pool Q × Op × Obs Task).1.action_
      (remove_thread p : thread_pool Q × Op × Obs Task).1.thread_count_ := by
  unfold remove_thread
  by_cases h0 : p.thread_count_ = 0
  · rw [if_pos h0]
    exact Or.inl ha
  · rw [if_neg h0]
    exact remove_thread_wait1_flags _ _ _ ha (by dsimp only; omega)

theorem clear_wait2_flags (q : thread_pool Q)
    (hq : FlagsOf Op.clear_2 q.action_ q.thread_count_) :
    FlagsOf (clear_wait2 q : thread_pool Q × Op × Obs Task).2.1
      (clear_wait2 q : thread_pool Q × Op × Obs Task).1.action_
      (clear_wait2 q : thread_pool Q × Op × Obs Task).1.thread_count_ := by
  unfold clear_wait2
  by_cases h0 : q.thread_count_ = 0
  · rw [if_pos h0]
    simp only [FlagsOf] at hq ⊢
    rcases hq with ⟨_, h1⟩ | ⟨h1, _⟩
    · exact absurd h0 h1
    · exact Or.inr ⟨h1, h0⟩
  · rw [if_neg h0]
    exact hq

theorem clear_wait1_flags (q : thread_pool Q) (ha : q.action_ = ⟨false, false⟩)
    (ht : q.thread_count_ ≠ 0) :
    FlagsOf (clear_wait1 q : thread_pool Q × Op × Obs Task).2.1
      (clear_wait1 q : thread_pool Q × Op × Obs Task).1.action_
      (clear_wait1 q : thread_pool Q × Op × Obs Task).1.thread_count_ := by
  unfold clear_wait1
  by_cases h0 : q.active_count_ = 0
  · rw [if_pos h0]
    exact clear_wait2_flags _ (Or.inl ⟨rfl, ht⟩)
  · rw [if_neg h0]
    exact ⟨ha, ht⟩

theorem clear_flags (p : thread_pool Q) (ha : p.action_ = ⟨false, false⟩) :
    FlagsOf (clear p : thread_pool Q × Op × Obs Task).2.1
      (clear p : thread_pool Q × Op × Obs Task).1.action_
      (clear p : thread_pool Q × Op × Obs Task).1.thread_count_ := by
  unfold clear
  by_cases h0 : p.thread_count_ = 0
  · rw [if_pos h0]
    exact Or.inl ha
  · rw [if_neg h0]
    exact clear_wait1_flags _ ha h0

theorem Flags.congr {s s1 : System Q Task} (hs : Flags s) (hop : s1.op = s.op)
    (ha : s1.pool.action_ = s.pool.action_)
    (ht : s1.pool.thread_count_ = s.pool.thread_count_) : Flags s1 := by
  unfold Flags at hs ⊢
  rw [hop, ha, ht]
  exact hs

theorem not_left_cases (w : Worker Task) (h : w ≠ Worker.exited) :
    (w = Worker.created ∧ w.starting = true ∧ w.live = false ∧ w.left = false) ∨
    (w ≠ Worker.created ∧ w.starting = false ∧ w.live = true ∧ w.left = false) := by
  cases w <;> simp [Worker.starting, Worker.live, Worker.left] at h ⊢

theorem countP_live_left (l : List (Worker Task)) :
    l.countP Worker.live + l.countP Worker.left ≤ l.length := by
  induction l with
  | nil => simp
  | cons a t ih =>
    cases a <;> simp [List.countP_cons, Worker.live, Worker.left] <;> omega

theorem countP_all_left (l : List (Worker Task)) (h1 : l.countP Worker.live = 0)
    (h2 : l.countP Worker.starting = 0) : l.countP Worker.left = l.length := by
  induction l with
  | nil => simp
  | cons a t ih =>
    have hc : ∀ p : Worker Task → Bool,
        (a :: t).countP p = t.countP p + (if p a = true then 1 else 0) :=
      fun p => List.countP_cons p a t
    rw [hc] at h1 h2 ⊢
    have := ih (by omega) (by omega)
    cases a <;>
      simp only [Worker.live, Worker.left, Worker.starting, if_true, if_false,
        Bool.false_eq_true, List.length_cons] at h1 h2 ⊢ <;> omega

end flags_plain

section flags
variable {Q Task : Type} [TaskQueue Q Task]

theorem routine_state (w w1 : Worker Task) (p p1 : thread_pool Q) (o : Obs Task)
    (h : routine w p = some (w1, p1, o)) : p1.state_ = p.state_ := by
  rcases routine_cases w w1 p p1 o h with ⟨rfl, hi⟩ | ⟨t, rfl, hi⟩ | ⟨rfl, hw, ha⟩
  · rcases iteration_cases _ _ _ _ hi with ⟨_, rfl, rfl, rfl⟩ | ⟨_, ha⟩
    · simp
    · rcases after_wait_cases _ _ _ _ ha with ⟨_, rfl, rfl, rfl⟩ | ⟨_, _, rfl, rfl, rfl⟩ |
        ⟨t, _, _, rfl, rfl, rfl⟩ <;> simp [on_thread_exit]
  · rcases iteration_cases _ _ _ _ hi with ⟨_, rfl, rfl, rfl⟩ | ⟨_, ha⟩
    · simp
    · rcases after_wait_cases _ _ _ _ ha with ⟨_, rfl, rfl, rfl⟩ | ⟨_, _, rfl, rfl, rfl⟩ |
        ⟨t, _, _, rfl, rfl, rfl⟩ <;> simp [on_thread_exit]
  · rcases after_wait_cases _ _ _ _ ha with ⟨_, rfl, rfl, rfl⟩ | ⟨_, _, rfl, rfl, rfl⟩ |
      ⟨t, _, _, rfl, rfl, rfl⟩ <;> simp [on_thread_exit]

/-- A worker that does not find `FINISH` set leaves the flags alone and does not leave. -/
theorem routine_clean (w w1 : Worker Task) (p p1 : thread_pool Q) (o : Obs Task)
    (h : routine w p = some (w1, p1, o)) (hF : p.action_.FINISH = false) :
    p1.action_ = p.action_ ∧ (w ≠ Worker.created → p1.thread_count_ = p.thread_count_) ∧
    w1 ≠ Worker.exited ∧ p1.thread_count_ = entered_count w p := by
  rcases routine_cases w w1 p p1 o h with ⟨rfl, hi⟩ | ⟨t, rfl, hi⟩ | ⟨rfl, hw, ha⟩
  · rcases iteration_cases _ _ _ _ hi with ⟨_, rfl, rfl, rfl⟩ | ⟨_, ha⟩
    · simp [entered_count]
    · rcases after_wait_cases _ _ _ _ ha with ⟨hF1, rfl, rfl, rfl⟩ | ⟨_, _, rfl, rfl, rfl⟩ |
        ⟨t, _, _, rfl, rfl, rfl⟩
      · simp [hF] at hF1
      · simp [entered_count]
      · simp [entered_count]
  · rcases iteration_cases _ _ _ _ hi with ⟨_, rfl, rfl, rfl⟩ | ⟨_, ha⟩
    · simp [entered_count]
    · rcases after_wait_cases _ _ _ _ ha with ⟨hF1, rfl, rfl, rfl⟩ | ⟨_, _, rfl, rfl, rfl⟩ |
        ⟨t, _, _, rfl, rfl, rfl⟩
      · simp [hF] at hF1
      · simp [entered_count]
      · simp [entered_count]
  · rcases after_wait_cases _ _ _ _ ha with ⟨hF1, rfl, rfl, rfl⟩ | ⟨_, _, rfl, rfl, rfl⟩ |
      ⟨t, _, _, rfl, rfl, rfl⟩
    · simp [hF] at hF1
    · simp [entered_count]
    · simp [entered_count]

/-- What a worker that finds `FINISH` set leaves behind. -/
theorem routine_finish_fields (w w1 : Worker Task) (p p1 : thread_pool Q) (o : Obs Task)
    (h : routine w p = some (w1, p1, o)) (hF : p.action_.FINISH = true) :
    w1 = Worker.exited ∧ o = Obs.finished ∧
    p1.thread_count_ = decr (entered_count w p) ∧
    p1.action_ = leave_action { p with thread_count_ := entered_count w p } ∧
    p1.queue_ = p.queue_ := by
  have hne : w ≠ Worker.exited := by
    rintro rfl
    simp [routine] at h
  rw [routine_finish w p hne hF] at h
  simp only [Option.some.injEq, Prod.mk.injEq] at h
  obtain ⟨rfl, rfl, rfl⟩ := h
  obtain ⟨hq, -, ha, ht⟩ := at_wait_fields w p
  refine ⟨rfl, rfl, ?_, ?_, ?_⟩
  · simp [on_thread_exit, ht]
  · simp only [on_thread_exit, Bool.false_eq_true, if_false, leave_action, ha, ht]
  · simpa [on_thread_exit] using hq

theorem step_flags {s s1 : System Q Task} {e : Event Task} {o : Obs Task} (hi : Inv s)
    (hst : Starting s) (hf : Flags s) (h : step s e = some (s1, o)) : Flags s1 := by
  cases e with
  | worker i =>
    obtain ⟨w, w1, hw, hr, hws, hop⟩ := step_worker h
    have hne : w ≠ Worker.exited := by
      rintro rfl
      simp [routine] at hr
    have hcl := (countP_get_le Worker.live s.workers i w hw).1
    have hcs := (countP_get_le Worker.starting s.workers i w hw).1
    have htc : s.pool.thread_count_ = s.workers.countP Worker.live := hi.tc
    have hlen : s.workers.countP Worker.live ≤ s.workers.length := List.countP_le_length _
    have hlt := hi.len
    have hst2 := hst.2
    -- a worker that is inside `routine` or starting exists
    have hsome : s.op = Op.idle ∨ s.op = Op.clear_2 → s.pool.thread_count_ = 0 → False := by
      intro hop0 h0
      have h2 := hst2 (fun m hm => by rcases hop0 with h3 | h3 <;> rw [h3] at hm <;> cases hm)
      rcases not_left_cases w hne with ⟨-, hs1, hl1, -⟩ | ⟨-, hs1, hl1, -⟩
      · rw [hs1] at hcs
        simp only [if_true] at hcs
        omega
      · rw [hl1] at hcl
        simp only [if_true] at hcl
        omega
    have hnc : (∀ m, s.op ≠ Op.add_thread m) → w ≠ Worker.created := by
      intro hno hc
      subst hc
      have := hst2 hno
      simp only [Worker.starting, if_true] at hcs
      omega
    unfold Flags at hf ⊢
    rw [hop]
    by_cases hF : s.pool.action_.FINISH = true
    · obtain ⟨-, -, ht1, ha1, -⟩ := routine_finish_fields w w1 s.pool s1.pool o hr hF
      cases hop0 : s.op with
      | idle =>
        rw [hop0] at hf
        simp only [FlagsOf] at hf ⊢
        rcases hf with ha | ⟨ha, h0⟩
        · rw [ha] at hF; cases hF
        · exact absurd h0 (fun h0 => hsome (Or.inl hop0) h0)
      | add_thread nc =>
        rw [hop0] at hf
        simp only [FlagsOf] at hf ⊢
        rcases hf with ha | ⟨ha, h0⟩
        · rw [ha] at hF; cases hF
        · left
          rw [ha1]
          simp [leave_action, ha]
      | remove_thread_1 st nc =>
        rw [hop0] at hf
        simp only [FlagsOf] at hf
        rw [hf.1] at hF; cases hF
      | remove_thread_2 st nc =>
        rw [hop0] at hf
        simp only [FlagsOf] at hf ⊢
        rcases hf with ⟨ha, -⟩ | ha
        · right
          rw [ha1]
          simp [leave_action, ha]
        · rw [ha] at hF; cases hF
      | clear_1 =>
        rw [hop0] at hf
        simp only [FlagsOf] at hf
        rw [hf.1] at hF; cases hF
      | clear_2 =>
        rw [hop0] at hf
        simp only [FlagsOf] at hf ⊢
        rcases hf with ⟨ha, h0⟩ | ⟨ha, h0⟩
        · have hwc := hnc (fun m hm => by rw [hop0] at hm; cases hm)
          have hec : entered_count w s.pool = s.pool.thread_count_ := by
            cases w <;> simp [entered_count] at hwc ⊢
          rw [hec] at ht1 ha1
          by_cases h1 : s.pool.thread_count_ = 1
          · right
            rw [ha1, ht1, h1]
            refine ⟨by simp [leave_action, ha, h1], by decide⟩
          · left
            rw [ha1, ht1]
            refine ⟨by simp [leave_action, ha, h1], ?_⟩
            rw [decr_pos _ (by omega) (by omega)]
            omega
        · exact absurd h0 (fun h0 => hsome (Or.inr hop0) h0)
    · have hF0 : s.pool.action_.FINISH = false := by simpa using hF
      obtain ⟨ha1, ht1, -, -⟩ := routine_clean w w1 s.pool s1.pool o hr hF0
      rw [ha1]
      cases hop0 : s.op with
      | idle =>
        rw [hop0] at hf
        simp only [FlagsOf] at hf ⊢
        rcases hf with ha | ⟨ha, h0⟩
        · exact Or.inl ha
        · rw [ha] at hF0; cases hF0
      | add_thread nc =>
        rw [hop0] at hf
        simp only [FlagsOf] at hf ⊢
        rcases hf with ha | ⟨ha, h0⟩
        · exact Or.inl ha
        · rw [ha] at hF0; cases hF0
      | remove_thread_1 st nc =>
        rw [hop0] at hf
        simp only [FlagsOf] at hf ⊢
        rw [ht1 (hnc (fun m hm => by rw [hop0] at hm; cases hm))]
        exact hf
      | remove_thread_2 st nc =>
        rw [hop0] at hf
        simp only [FlagsOf] at hf ⊢
        rcases hf with ⟨ha, -⟩ | ha
        · rw [ha] at hF0; cases hF0
        · exact Or.inr ha
      | clear_1 =>
        rw [hop0] at hf
        simp only [FlagsOf] at hf ⊢
        rw [ht1 (hnc (fun m hm => by rw [hop0] at hm; cases hm))]
        exact hf
      | clear_2 =>
        rw [hop0] at hf
        simp only [FlagsOf] at hf
        rcases hf with ⟨ha, -⟩ | ⟨ha, -⟩ <;> (rw [ha] at hF0; cases hF0)
  | add_thread k r =>
    simp only [step] at h
    split at h
    · rename_i hc
      simp only [Option.some.injEq, Prod.mk.injEq] at h
      obtain ⟨rfl, -⟩ := h
      unfold Flags at hf ⊢
      rw [hc.1] at hf
      simp only [add_thread, add_thread_wait]
      split_ifs <;> exact hf
    · simp at h
  | remove_thread =>
    simp only [step] at h
    split at h
    · rename_i hop
      simp only [Option.some.injEq, Prod.mk.injEq] at h
      obtain ⟨rfl, -⟩ := h
      unfold Flags at hf ⊢
      rw [hop] at hf
      simp only [FlagsOf] at hf
      rcases hf with ha | ⟨ha, h0⟩
      · exact remove_thread_flags _ ha
      · simp only [remove_thread, h0, if_true]
        exact Or.inr ⟨ha, rfl⟩
    · simp at h
  | clear =>
    simp only [step] at h
    split at h
    · rename_i hop
      simp only [Option.some.injEq, Prod.mk.injEq] at h
      obtain ⟨rfl, -⟩ := h
      unfold Flags at hf ⊢
      rw [hop] at hf
      simp only [FlagsOf] at hf
      rcases hf with ha | ⟨ha, h0⟩
      · exact clear_flags _ ha
      · simp only [clear, h0, if_true]
        exact Or.inr ⟨ha, rfl⟩
    · simp at h
  | client_wake =>
    simp only [step] at h
    split at h
    all_goals simp only [Option.some.injEq, Prod.mk.injEq, reduceCtorEq] at h
    all_goals rename_i hop
    all_goals obtain ⟨rfl, -⟩ := h
    all_goals unfold Flags at hf ⊢
    all_goals rw [hop] at hf
    · simp only [add_thread_wait]
      split_ifs <;> exact hf
    · exact remove_thread_wait1_flags _ _ _ hf.1 hf.2
    · exact remove_thread_wait2_flags _ _ _ hf
    · exact clear_wait1_flags _ hf.1 hf.2
    · exact clear_wait2_flags _ hf
  | enqueue t =>
    simp only [step, Option.some.injEq, Prod.mk.injEq] at h
    obtain ⟨rfl, -⟩ := h
    exact hf
  | enqueue_range ts =>
    simp only [step, Option.some.injEq, Prod.mk.injEq] at h
    obtain ⟨rfl, -⟩ := h
    exact hf
  | discard_queue =>
    simp only [step, Option.some.injEq, Prod.mk.injEq] at h
    obtain ⟨rfl, -⟩ := h
    exact hf
  | pause =>
    simp only [step, Option.some.injEq, Prod.mk.injEq] at h
    obtain ⟨rfl, -⟩ := h
    exact hf.congr rfl (by unfold pause; split <;> rfl) (by unfold pause; split <;> rfl)
  | resume =>
    simp only [step, Option.some.injEq, Prod.mk.injEq] at h
    obtain ⟨rfl, -⟩ := h
    exact hf.congr rfl (by unfold resume; split <;> split <;> rfl)
      (by unfold resume; split <;> split <;> rfl)
  | join =>
    simp only [step, Option.some.injEq, Prod.mk.injEq] at h
    obtain ⟨rfl, -⟩ := h
    exact hf.congr rfl (by unfold join; split <;> rfl) (by unfold join; split <;> rfl)

theorem construct_flags (n : Nat) : Flags (construct n : System Q Task) := by
  unfold Flags construct add_thread add_thread_wait
  simp only [thread_pool.init]
  split_ifs <;> exact Or.inl rfl

theorem reachable_flags {n : Nat} {s : System Q Task} (h : Reachable n s) : Flags s := by
  induction h with
  | construct hn => exact construct_flags n
  | step hr hstep ih => exact step_flags (reachable_inv hr) (reachable_starting hr) ih hstep

/-- When `clear` returns, no thread is left and `FINISH` is still set. -/
theorem clear_returned {n : Nat} {s s1 : System Q Task} (h : Reachable n s)
    (hop : s.op = Op.clear_1 ∨ s.op = Op.clear_2)
    (hret : step s Event.client_wake = some (s1, Obs.returned)) :
    s1.op = Op.idle ∧ s1.workers = s.workers ∧ s1.pool.thread_count_ = 0 ∧
    s1.pool.action_ = ⟨true, false⟩ := by
  have hf := reachable_flags h
  unfold Flags at hf
  simp only [step] at hret
  rcases hop with hop | hop
  · rw [hop] at hf hret
    simp only [FlagsOf] at hf
    simp only [Option.some.injEq, Prod.mk.injEq] at hret
    obtain ⟨-, ho⟩ := hret
    unfold clear_wait1 clear_wait2 at ho
    split_ifs at ho with h1 h2
    · exact absurd h2 hf.2
  · rw [hop] at hf hret
    simp only [FlagsOf] at hf
    simp only [Option.some.injEq, Prod.mk.injEq] at hret
    obtain ⟨rfl, ho⟩ := hret
    unfold clear_wait2 at ho ⊢
    split_ifs at ho ⊢ with h1
    rcases hf with ⟨-, h0⟩ | ⟨ha, -⟩
    · exact absurd h1 h0
    · exact ⟨rfl, rfl, h1, ha⟩

end flags

section stuck_plain
variable {Q Task : Type}

theorem Stuck.count_lt {k total : Nat} {s : System Q Task} (hi : Inv s) (hs : Stuck k total s)
    (hk : 1 ≤ k) : s.pool.thread_count_ < k ∧ s.live_count < k := by
  obtain ⟨-, hlen, hc⟩ := hs
  have h1 := countP_live_left s.workers
  have h2 : s.pool.thread_count_ = s.workers.countP Worker.live := hi.tc
  unfold System.live_count
  rcases hc with ⟨-, h0, -⟩ | h3 <;> omega

end stuck_plain

section stuck
variable {Q Task : Type} [TaskQueue Q Task]

/-- What a client call or the wake-up of `add_thread` does while `add_thread( k )` holds
`op_mtx_`. -/
theorem step_client_add_phase {s s1 : System Q Task} {e : Event Task} {o : Obs Task} {k : Nat}
    (hop : s.op = Op.add_thread k) (h : step s e = some (s1, o))
    (he : ∀ i, e ≠ Event.worker i) :
    s1.workers = s.workers ∧ s1.pool.action_ = s.pool.action_ ∧
    s1.pool.thread_count_ = s.pool.thread_count_ ∧
    (s1.op = Op.add_thread k ∨ (s1.op = Op.idle ∧ s.pool.thread_count_ = k)) ∧
    (e = Event.client_wake → s1.pool = s.pool ∧ (o = Obs.returned ∨ o = Obs.blocked) ∧
      (o = Obs.returned ↔ s.pool.thread_count_ = k)) := by
  cases e with
  | worker i => exact absurd rfl (he i)
  | add_thread m r => simp [step, hop] at h
  | remove_thread => simp [step, hop] at h
  | clear => simp [step, hop] at h
  | client_wake =>
    simp only [step, hop, Option.some.injEq, Prod.mk.injEq] at h
    obtain ⟨rfl, rfl⟩ := h
    unfold add_thread_wait
    by_cases h0 : s.pool.thread_count_ = k
    · simp [h0]
    · simp [h0, hop]
  | enqueue t =>
    simp only [step, Option.some.injEq, Prod.mk.injEq] at h
    obtain ⟨rfl, -⟩ := h
    simp [enqueue, hop]
  | enqueue_range ts =>
    simp only [step, Option.some.injEq, Prod.mk.injEq] at h
    obtain ⟨rfl, -⟩ := h
    simp [enqueue_range, hop]
  | discard_queue =>
    simp only [step, Option.some.injEq, Prod.mk.injEq] at h
    obtain ⟨rfl, -⟩ := h
    simp [discard_queue, hop]
  | pause =>
    simp only [step, Option.some.injEq, Prod.mk.injEq] at h
    obtain ⟨rfl, -⟩ := h
    unfold pause
    split <;> simp [hop]
  | resume =>
    simp only [step, Option.some.injEq, Prod.mk.injEq] at h
    obtain ⟨rfl, -⟩ := h
    unfold resume
    split <;> split <;> simp [hop]
  | join =>
    simp only [step, Option.some.injEq, Prod.mk.injEq] at h
    obtain ⟨rfl, -⟩ := h
    unfold join
    split <;> simp [hop]

theorem stuck_step {k total : Nat} {s s1 : System Q Task} {e : Event Task} {o : Obs Task}
    (hi : Inv s) (hs : Stuck k total s) (hk : 1 ≤ k) (h : step s e = some (s1, o)) :
    Stuck k total s1 := by
  have hlt := (hs.count_lt hi hk).1
  obtain ⟨hop, hlen, hc⟩ := hs
  by_cases he : ∃ i, e = Event.worker i
  · obtain ⟨i, rfl⟩ := he
    obtain ⟨w, w1, hw, hr, hws, hop1⟩ := step_worker h
    have hne : w ≠ Worker.exited := by
      rintro rfl
      simp [routine] at hr
    have hcl := (countP_get_le Worker.live s.workers i w hw).1
    have hset := countP_set_get Worker.left s.workers i w w1 hw
    have hb : (if w1.left = true then 1 else 0) ≤ 1 := by split <;> omega
    refine ⟨by rw [hop1, hop], by rw [hws, List.length_set, hlen], ?_⟩
    rw [hws]
    rcases not_left_cases w hne with ⟨-, -, hl1, hx⟩ | ⟨-, -, hl1, hx⟩
    · rw [hx] at hset
      simp only [Bool.false_eq_true, if_false, Nat.add_zero] at hset
      rcases hc with ⟨ha, h0, h3⟩ | h3
      · right
        have hF : s.pool.action_.FINISH = true := by rw [ha]
        obtain ⟨hw1, -, -, -, -⟩ := routine_finish_fields w w1 s.pool s1.pool o hr hF
        subst hw1
        simp only [Worker.left, if_true] at hset
        omega
      · right
        omega
    · rw [hx] at hset
      simp only [Bool.false_eq_true, if_false, Nat.add_zero] at hset
      rcases hc with ⟨ha, h0, h3⟩ | h3
      · rw [hl1] at hcl
        simp only [if_true] at hcl
        omega
      · right
        omega
  · obtain ⟨hw, ha, ht, hop1, -⟩ := step_client_add_phase hop h (fun i hi => he ⟨i, hi⟩)
    rcases hop1 with hop1 | ⟨-, h0⟩
    · refine ⟨hop1, by rw [hw, hlen], ?_⟩
      rw [hw, ha]
      exact hc
    · omega

theorem stuck_run {k total : Nat} {s s1 : System Q Task} (evs : List (Event Task))
    {os : List (Obs Task)} (hi : Inv s) (hs : Stuck k total s) (hk : 1 ≤ k)
    (hr : run s evs = some (s1, os)) : Inv s1 ∧ Stuck k total s1 := by
  induction evs generalizing s os with
  | nil =>
    simp only [run, Option.some.injEq, Prod.mk.injEq] at hr
    obtain ⟨rfl, -⟩ := hr
    exact ⟨hi, hs⟩
  | cons e es ih =>
    simp only [run] at hr
    split at hr
    · simp at hr
    · rename_i s2 o hstep
      split at hr
      · simp at hr
      · rename_i s3 os3 hrest
        simp only [Option.some.injEq, Prod.mk.injEq] at hr
        obtain ⟨rfl, -⟩ := hr
        exact ih (step_inv hi hstep) (stuck_step hi hs hk hstep) hrest

/-- The call `add_thread( k )`, `k >= 1`, on a pool without threads that holds a stale
`FINISH` blocks, and the system is stuck from then on. -/
theorem stuck_start {n k : Nat} {r : Bool} {s s1 : System Q Task} {o : Obs Task}
    (h : Reachable n s) (hop : s.op = Op.idle) (h0 : s.pool.thread_count_ = 0)
    (ha : s.pool.action_ = ⟨true, false⟩) (hk : 1 ≤ k)
    (hcall : step s (Event.add_thread k r) = some (s1, o)) :
    o = Obs.blocked ∧ Inv s1 ∧ Stuck k (s.workers.length + k) s1 := by
  have hi := reachable_inv h
  have hst := (reachable_starting h).2 (fun m hm => by rw [hop] at hm; cases hm)
  have hlive : s.workers.countP Worker.live = 0 := by
    have := hi.tc
    unfold System.live_count at this
    omega
  have hleft := countP_all_left s.workers hlive hst
  have hi1 := step_inv hi hcall
  simp only [step] at hcall
  split at hcall
  · rename_i hc
    simp only [Option.some.injEq, Prod.mk.injEq] at hcall
    obtain ⟨rfl, rfl⟩ := hcall
    have hmod : (0 + k) % SIZE_MOD = k := by
      rw [Nat.zero_add]
      exact Nat.mod_eq_of_lt (by omega)
    have hne : ¬ (0 = k) := by omega
    have hres : (add_thread k r s.pool : thread_pool Q × Op × Obs Task) =
        (s.pool, Op.add_thread k, Obs.blocked) := by
      simp only [add_thread, add_thread_wait, h0, hmod, if_neg hne]
    rw [hres] at hi1 ⊢
    refine ⟨rfl, hi1, rfl, ?_, Or.inl ⟨ha, ?_, ?_⟩⟩
    · simp
    · show (s.workers ++ List.replicate k Worker.created).countP Worker.live = 0
      rw [List.countP_append, hlive, countP_replicate_created _ rfl]
    · show s.workers.length + k ≤
        (s.workers ++ List.replicate k Worker.created).countP Worker.left + k
      rw [List.countP_append, hleft, countP_replicate_created _ rfl]
      omega
  · simp at hcall

/-- C23 (fails on the code): `clear` has returned on a reachable pool, and `add_thread( k )`,
`k >= 1`, is called next. The `FINISH` flag that `clear` has left set (C8) is taken by the
first new worker to run, which leaves at once; so whatever happens afterwards, the thread count
stays below `k`, fewer than `k` workers are inside `routine`, and `add_thread`, waiting for
`thread_count_ == k`, stays blocked at each of its wake-ups. -/
theorem C23_add_thread_after_clear_blocks (n k : Nat) (r : Bool) (s s1 s2 s3 : System Q Task)
    (o : Obs Task) (evs : List (Event Task)) (os : List (Obs Task))
    (h : Reachable n s) (hop : s.op = Op.clear_1 ∨ s.op = Op.clear_2)
    (hret : step s Event.client_wake = some (s1, Obs.returned)) (hk : 1 ≤ k)
    (hcall : step s1 (Event.add_thread k r) = some (s2, o))
    (hrun : run s2 evs = some (s3, os)) :
    s1.pool.thread_count_ = 0 ∧ s1.pool.action_.FINISH = true ∧ o = Obs.blocked ∧
    s3.op = Op.add_thread k ∧ s3.pool.thread_count_ < k ∧ s3.live_count < k ∧
    (∀ (s4 : System Q Task) (o4 : Obs Task),
      step s3 Event.client_wake = some (s4, o4) → o4 = Obs.blocked) := by
  obtain ⟨hidle, -, h0, ha⟩ := clear_returned h hop hret
  have h1 : Reachable n s1 := Reachable.step h hret
  obtain ⟨ho, hi2, hs2⟩ := stuck_start h1 hidle h0 ha hk hcall
  obtain ⟨hi3, hs3⟩ := stuck_run evs hi2 hs2 hk hrun
  obtain ⟨hlt, hlive⟩ := hs3.count_lt hi3 hk
  refine ⟨h0, by rw [ha], ho, hs3.1, hlt, hlive, ?_⟩
  intro s4 o4 hw
  obtain ⟨-, -, -, -, hcw⟩ := step_client_add_phase hs3.1 hw (fun i hi => by cases hi)
  obtain ⟨-, hor, hiff⟩ := hcw rfl
  rcases hor with hr | hb
  · have := hiff.1 hr
    omega
  · exact hb

theorem clear_done1_reachable : Reachable 1 clear_done1 :=
  Reachable.step clearing1_reachable
    (by decide : step clearing1 (Event.worker 0) = some (clear_done1, Obs.finished))

/-- Witness for C23: `clear` returns on the pool of one worker with task `7` pending (state
`cleared1`); `add_thread( 1 )` is called, its worker runs and the call wakes up: the worker is
gone, the thread count is `0`, and `add_thread` still waits (state `stuck1`). -/
theorem C23_witness :
    cleared1.pool.thread_count_ = 0 ∧ cleared1.pool.action_.FINISH = true ∧
    (Obs.blocked : Obs Nat) = Obs.blocked ∧
    stuck1.op = Op.add_thread 1 ∧ stuck1.pool.thread_count_ < 1 ∧ stuck1.live_count < 1 ∧
    (∀ (s4 : System (List Nat) Nat) (o4 : Obs Nat),
      step stuck1 Event.client_wake = some (s4, o4) → o4 = Obs.blocked) :=
  C23_add_thread_after_clear_blocks 1 1 true clear_done1 cleared1
    { pool := cleared1.pool, workers := [Worker.exited, Worker.created], op := Op.add_thread 1 }
    stuck1 Obs.blocked [Event.worker 1, Event.client_wake] [Obs.finished, Obs.blocked]
    clear_done1_reachable (Or.inr rfl) (by decide) (by decide) (by decide) (by decide)

end stuck

section add_phase
variable {Q Task : Type} [TaskQueue Q Task]

/-- One worker step or wake-up while `add_thread` is in progress or has returned. -/
theorem add_phase_step {s s1 : System Q Task} {e : Event Task} {o : Obs Task} {nc : Nat}
    (hop : s.op = Op.idle ∨ s.op = Op.add_thread nc) (hc : e.constructing = true)
    (h : step s e = some (s1, o)) :
    (s1.op = Op.idle ∨ s1.op = Op.add_thread nc) ∧ (s.op = Op.idle → s1.op = Op.idle) ∧
    s1.pool.state_ = s.pool.state_ ∧
    (s.pool.action_.FINISH = false → s1.pool.action_ = s.pool.action_) ∧
    ((∀ t, o ≠ Obs.started t) → s1.pool.queue_ = s.pool.queue_) ∧
    ((s.pool.action_.FINISH_ALL = true → s.pool.action_.FINISH = true) →
      (s1.pool.action_.FINISH_ALL = true → s1.pool.action_.FINISH = true) ∧
      (s.pool.state_ = EPoolState.PAUSED → s1.pool.queue_ = s.pool.queue_)) := by
  cases e with
  | worker i =>
    obtain ⟨w, w1, hw, hr, hws, hop1⟩ := step_worker h
    refine ⟨by rw [hop1]; exact hop, fun h0 => by rw [hop1]; exact h0,
      routine_state w w1 _ _ o hr, fun hF => (routine_clean w w1 _ _ o hr hF).1, ?_, ?_⟩
    · intro hno
      rcases routine_queue w w1 s.pool s1.pool o hr with ⟨t, ht, -, -⟩ | ⟨-, hq⟩
      · exact absurd ht (hno t)
      · exact hq
    · intro hfin
      exact ⟨routine_fin w w1 _ _ o hr hfin,
        fun hP => (routine_paused w w1 _ _ o hr hP hfin).2.1⟩
  | client_wake =>
    rcases hop with hop | hop
    · simp [step, hop] at h
    · obtain ⟨-, ha, -, hop1, hcw⟩ := step_client_add_phase hop h (fun i hi => by cases hi)
      obtain ⟨hp, -, -⟩ := hcw rfl
      have hopc : s1.op = Op.idle ∨ s1.op = Op.add_thread nc := by
        rcases hop1 with h1 | ⟨h1, -⟩
        · exact Or.inr h1
        · exact Or.inl h1
      have hidle : s.op = Op.idle → s1.op = Op.idle := by
        intro h0
        rw [hop] at h0
        cases h0
      rw [hp]
      exact ⟨hopc, hidle, rfl, fun _ => rfl, fun _ => rfl, fun hfin => ⟨hfin, fun _ => rfl⟩⟩
  | add_thread m r => simp [Event.constructing] at hc
  | remove_thread => simp [Event.constructing] at hc
  | clear => simp [Event.constructing] at hc
  | enqueue t => simp [Event.constructing] at hc
  | enqueue_range ts => simp [Event.constructing] at hc
  | discard_queue => simp [Event.constructing] at hc
  | pause => simp [Event.constructing] at hc
  | resume => simp [Event.constructing] at hc
  | join => simp [Event.constructing] at hc

theorem started_not_mem_cons {o : Obs Task} {os : List (Obs Task)}
    (h : ∀ t, Obs.started t ∉ o :: os) : (∀ t, o ≠ Obs.started t) ∧ ∀ t, Obs.started t ∉ os := by
  refine ⟨fun t ht => h t ?_, fun t ht => h t (List.mem_cons_of_mem _ ht)⟩
  rw [ht]
  exact List.mem_cons_self _ _

/-- Worker steps and wake-ups while `add_thread` is in progress or has returned. -/
theorem add_phase_run {s s1 : System Q Task} {nc : Nat} (evs : List (Event Task))
    {os : List (Obs Task)} (hop : s.op = Op.idle ∨ s.op = Op.add_thread nc)
    (hc : ∀ e ∈ evs, e.constructing = true) (hr : run s evs = some (s1, os)) :
    (s1.op = Op.idle ∨ s1.op = Op.add_thread nc) ∧ (s.op = Op.idle → s1.op = Op.idle) ∧
    s1.pool.state_ = s.pool.state_ ∧
    (s.pool.action_.FINISH = false → s1.pool.action_ = s.pool.action_) ∧
    ((∀ t, Obs.started t ∉ os) → s1.pool.queue_ = s.pool.queue_) ∧
    ((s.pool.action_.FINISH_ALL = true → s.pool.action_.FINISH = true) →
      s.pool.state_ = EPoolState.PAUSED → s1.pool.queue_ = s.pool.queue_) := by
  induction evs generalizing s os with
  | nil =>
    simp only [run, Option.some.injEq, Prod.mk.injEq] at hr
    obtain ⟨rfl, -⟩ := hr
    exact ⟨hop, fun h0 => h0, rfl, fun _ => rfl, fun _ => rfl, fun _ _ => rfl⟩
  | cons e es ih =>
    simp only [run] at hr
    split at hr
    · simp at hr
    · rename_i s2 o hstep
      split at hr
      · simp at hr
      · rename_i s3 os3 hrest
        simp only [Option.some.injEq, Prod.mk.injEq] at hr
        obtain ⟨rfl, rfl⟩ := hr
        obtain ⟨a1, a2, a3, a4, a5, a6⟩ :=
          add_phase_step hop (hc e (List.mem_cons_self _ _)) hstep
        obtain ⟨b1, b2, b3, b4, b5, b6⟩ :=
          ih a1 (fun x hx => hc x (List.mem_cons_of_mem _ hx)) hrest
        refine ⟨b1, fun h0 => b2 (a2 h0), by rw [b3, a3], ?_, ?_, ?_⟩
        · intro hF
          have := a4 hF
          rw [b4 (by rw [this]; exact hF), this]
        · intro hno
          obtain ⟨h1, h2⟩ := started_not_mem_cons hno
          rw [b5 h2, a5 h1]
        · intro hfin hP
          obtain ⟨c1, c2⟩ := a6 hfin
          rw [b6 c1 (by rw [a3]; exact hP), c2 hP]

/-- C25, as stated, fails: on `thread_pool pool{ 1 }` the worker is inside task `7` and task `8`
is queued (state `queued8`) when `add_thread( 1 , true )` is called; the worker it spawns
enters its loop, finds the pool executing and the queue not empty, and dequeues task `8`
(lines 352-353); the call returns (state `dequeued8`) with an empty queue, while the queue
before the call held task `8`. -/
theorem C25_counterexample :
    run (construct 1) (to_pending1 ++ [Event.worker 0, Event.enqueue 8]) =
      some (queued8, [Obs.sleeping, Obs.returned, Obs.returned, Obs.started 7,
        Obs.returned]) ∧
    run queued8 [Event.add_thread 1 true, Event.worker 1, Event.client_wake] =
      some (dequeued8, [Obs.blocked, Obs.started 8, Obs.returned]) ∧
    queued8.pool.queue_ = [8] ∧ dequeued8.pool.queue_ = [] ∧
    dequeued8.pool.queue_ ≠ queued8.pool.queue_ := by
  decide

/-- C25, amended: the code of `add_thread( k , resume_if_paused )` writes no pool field,
whatever its arguments and the pool: the call and each of its wake-ups leave the pool as it is,
and `resume_if_paused` has no effect. When the call, made in a reachable state, returns after
worker steps and wake-ups, the state and the action flags are those found at the call and the
thread count is larger by `k`; the queue is the one found at the call unless a worker has
dequeued a task meanwhile, which does not happen on a paused pool. In particular a pool
constructed with `n == 0` is still `PAUSED` after `add_thread( k , true )`. -/
theorem C25_add_thread_frame :
    (∀ (k : Nat) (r : Bool) (p : thread_pool Q),
      (add_thread k r p : thread_pool Q × Op × Obs Task).1 = p ∧
      (add_thread k r p : thread_pool Q × Op × Obs Task) = add_thread k (!r) p) ∧
    (∀ (new_count : Nat) (p : thread_pool Q),
      (add_thread_wait new_count p : thread_pool Q × Op × Obs Task).1 = p) ∧
    (∀ (k : Nat) (r : Bool) (s s1 : System Q Task) (o : Obs Task),
      step s (Event.add_thread k r) = some (s1, o) →
      s1.pool = s.pool ∧ step s (Event.add_thread k (!r)) = some (s1, o)) ∧
    (∀ (n k : Nat) (r : Bool) (s s1 s2 s3 : System Q Task) (o : Obs Task)
      (evs : List (Event Task)) (os : List (Obs Task)),
      Reachable n s → step s (Event.add_thread k r) = some (s1, o) →
      (∀ e ∈ evs, e.constructing = true) → run s1 evs = some (s2, os) →
      step s2 Event.client_wake = some (s3, Obs.returned) →
      s3.pool.state_ = s.pool.state_ ∧ s3.pool.action_ = s.pool.action_ ∧
      s3.pool.thread_count_ = s.pool.thread_count_ + k ∧
      ((∀ t, Obs.started t ∉ os) → s3.pool.queue_ = s.pool.queue_) ∧
      (s.pool.state_ = EPoolState.PAUSED → s3.pool.queue_ = s.pool.queue_)) ∧
    (∀ (k : Nat) (s1 s2 s3 : System Q Task) (o : Obs Task)
      (evs : List (Event Task)) (os : List (Obs Task)),
      step (construct 0) (Event.add_thread k true) = some (s1, o) →
      (∀ e ∈ evs, e.constructing = true) → run s1 evs = some (s2, os) →
      step s2 Event.client_wake = some (s3, Obs.returned) →
      s3.pool.state_ = EPoolState.PAUSED) := by
  have frame : ∀ (n k : Nat) (r : Bool) (s s1 s2 s3 : System Q Task) (o : Obs Task)
      (evs : List (Event Task)) (os : List (Obs Task)),
      Reachable n s → step s (Event.add_thread k r) = some (s1, o) →
      (∀ e ∈ evs, e.constructing = true) → run s1 evs = some (s2, os) →
      step s2 Event.client_wake = some (s3, Obs.returned) →
      s3.pool.state_ = s.pool.state_ ∧ s3.pool.action_ = s.pool.action_ ∧
      s3.pool.thread_count_ = s.pool.thread_count_ + k ∧
      ((∀ t, Obs.started t ∉ os) → s3.pool.queue_ = s.pool.queue_) ∧
      (s.pool.state_ = EPoolState.PAUSED → s3.pool.queue_ = s.pool.queue_) := by
    intro n k r s s1 s2 s3 o evs os h hcall hc hrun hret
    have hi := reachable_inv h
    have hfl := reachable_flags h
    have hcall0 := hcall
    simp only [step] at hcall
    split at hcall
    · rename_i hg
      simp only [Option.some.injEq, Prod.mk.injEq] at hcall
      obtain ⟨hs1, ho⟩ := hcall
      have htl : s.pool.thread_count_ ≤ s.workers.length := by
        rw [hi.tc]
        exact List.countP_le_length _
      have hmod : (s.pool.thread_count_ + k) % SIZE_MOD = s.pool.thread_count_ + k :=
        Nat.mod_eq_of_lt (by omega)
      have hp1 : s1.pool = s.pool := by
        rw [← hs1]
        simp only [add_thread, add_thread_wait_pool]
      have hop1 : s1.op = Op.idle ∨ s1.op = Op.add_thread (s.pool.thread_count_ + k) := by
        rw [← hs1]
        simp only [add_thread, add_thread_wait, hmod]
        split_ifs
        · exact Or.inl rfl
        · exact Or.inr rfl
      obtain ⟨b1, b2, b3, b4, b5, b6⟩ := add_phase_run evs hop1 hc hrun
      -- the call has not returned before the wake-up that returns
      have hop2 : s2.op = Op.add_thread (s.pool.thread_count_ + k) := by
        rcases b1 with h0 | h0
        · simp [step, h0] at hret
        · exact h0
      have hop1' : s1.op = Op.add_thread (s.pool.thread_count_ + k) := by
        rcases hop1 with h0 | h0
        · rw [b2 h0] at hop2
          cases hop2
        · exact h0
      obtain ⟨-, -, -, -, hcw⟩ := step_client_add_phase hop2 hret (fun i hi => by cases hi)
      obtain ⟨hp3, -, hiff⟩ := hcw rfl
      have htc : s2.pool.thread_count_ = s.pool.thread_count_ + k := hiff.1 rfl
      rw [hp3]
      rw [hp1] at b3 b4 b5 b6
      refine ⟨b3, ?_, htc, b5, b6 hi.fin⟩
      -- the flags: a stale `FINISH` would have kept the call from returning
      unfold Flags at hfl
      rw [hg.1] at hfl
      simp only [FlagsOf] at hfl
      rcases hfl with ha | ⟨ha, h0⟩
      · exact b4 (by rw [ha])
      · exfalso
        have hk : 1 ≤ k := by
          by_contra hk0
          have hk1 : k = 0 := by omega
          rw [← hs1] at hop1'
          simp [add_thread, add_thread_wait, hk1, h0, SIZE_MOD] at hop1'
        obtain ⟨-, hi2, hst2⟩ := stuck_start h hg.1 h0 ha hk hcall0
        obtain ⟨hi3, hst3⟩ := stuck_run evs hi2 hst2 hk hrun
        have := (hst3.count_lt hi3 hk).1
        omega
    · simp at hcall
  refine ⟨?_, fun nc p => add_thread_wait_pool nc p, ?_, frame, ?_⟩
  · intro k r p
    exact ⟨by simp only [add_thread, add_thread_wait_pool], rfl⟩
  · intro k r s s1 o h
    simp only [step] at h ⊢
    split at h
    · rename_i hg
      rw [if_pos hg]
      simp only [Option.some.injEq, Prod.mk.injEq] at h
      obtain ⟨rfl, rfl⟩ := h
      exact ⟨by simp only [add_thread, add_thread_wait_pool], rfl⟩
    · simp at h
  · intro k s1 s2 s3 o evs os hcall hc hrun hret
    have := (frame 0 k true (construct 0) s1 s2 s3 o evs os (Reachable.construct (by decide))
      hcall hc hrun hret).1
    rw [this]
    simp [construct, add_thread, add_thread_wait_pool, thread_pool.init]

/-- Witness for C25 (amended): on `thread_pool pool{ 0 }`, `add_thread( 2 , true )` is called, the two
workers fall asleep and the call returns (state `paused_two`): the pool is still `PAUSED`. -/
theorem C25_witness :
    paused_two.pool.state_ = EPoolState.PAUSED :=
  (@C25_add_thread_frame (List Nat) Nat _).2.2.2.2 2
    { pool := { queue_ := [], thread_count_ := 0, active_count_ := 0,
                state_ := EPoolState.PAUSED, action_ := ⟨false, false⟩ }
      workers := [Worker.created, Worker.created]
      op := Op.add_thread 2 }
    { pool := { queue_ := [], thread_count_ := 2, active_count_ := 0,
                state_ := EPoolState.PAUSED, action_ := ⟨false, false⟩ }
      workers := [Worker.waiting, Worker.waiting]
      op := Op.add_thread 2 }
    paused_two Obs.blocked [Event.worker 0, Event.worker 1] [Obs.sleeping, Obs.sleeping]
    (by decide) (by decide) (by decide) (by decide)

end add_phase

end multi
